import Mathlib

/-!
# Table store of element3 (`packages/table/src/store`)

A shallow embedding of the table store: `index.js` (columns, filtering,
sorting, selection, the mutation table), `current.js` (the current-row
tracker), `expand.js` (the expanded-row list) and `tree.js` (the tree of lazily
loaded rows), followed by theorems about them.

Conventions of the embedding

* A row is a JavaScript object.  `Row.ref` is the identity of the object, so
  equality of `Row` values is the `===` of the source; two rows may carry the
  same `id` and still be different objects.
* The `states` objects are reactive: an assignment stores the object behind a
  reactive proxy, and reading an object back yields its reactive proxy.  Where
  the source compares an argument with a value read back (`states._data !==
  data`, `currentRow !== oldCurrentRow`), the argument says whether it is the
  reactive proxy of its object or the plain object (`DataArr.reactive`,
  `RowArg.reactive`); a plain object is never `===` a value read back.  The
  searches with `indexOf` on a reactive array find a row under either form.
* Each source module owns a closure variable `state = reactive({ states })`.
  The `states` objects of the modules are distinct objects, and they are
  modelled by records held side by side in `Store`.
* `table.$emit` and the other calls into the host append to `Store.emitted`.
* A `throw` ends the call and keeps the mutations done so far (`Outcome.throw`).
-/

namespace TableStore

/-! ## Rows, keys, columns -/

/-- Row identities produced by a row key.  Keys are numbers; as in JavaScript
the key `0` is falsy. -/
abbrev Key := Nat

/-- A data row: `ref` is the identity of the object, `id` a field of it. -/
structure Row where
  ref : Nat
  id : Nat
deriving DecidableEq, Repr

/-- An array of rows handed to `setData`; `ref` is the identity of the array
object.  `reactive` says whether the value handed over is the reactive proxy of
the array, which is what the store reads back from `states._data`, or the plain
array. -/
structure DataArr where
  ref : Nat
  rows : List Row
  reactive : Bool := false
deriving DecidableEq, Repr

/-- A row handed to `updateCurrentRow`: `row` is the row object, and `reactive`
says whether the value handed over is the reactive proxy of the object, which
is what the store reads back from `states.currentRow`, or the plain object. -/
structure RowArg where
  row : Row
  reactive : Bool := false
deriving DecidableEq, Repr

/-- The `fixed` attribute of a column.  `unset` stands for every falsy value
(`undefined`, `false`, `''`), `other` for a truthy value that is neither
`true`, `'left'` nor `'right'`. -/
inductive Fixed where
  | unset
  | tru
  | left
  | right
  | other (s : String)
deriving DecidableEq, Repr

/-- The `sortable` attribute of a column: a boolean, or a string marker such as
`'custom'`. -/
inductive Sortable where
  | bool (b : Bool)
  | str (s : String)
deriving DecidableEq, Repr

/-- A filter value of a column filter. -/
abbrev FilterValue := Nat

/-- The own attributes of a column object.  `filterMethod` is the column's
predicate with its third argument (the column itself) already supplied;
`sortMethod` and `sortBy` name the host callbacks handed on to `orderBy`.
A column object is told apart from the others by its `id`. -/
structure ColInfo where
  id : String
  type : String := "default"
  fixed : Fixed := Fixed.unset
  property : Option String := none
  order : Option String := none
  sortable : Sortable := Sortable.bool false
  sortMethod : Option Nat := none
  sortBy : Option Nat := none
  filterMethod : Option (FilterValue → Row → Bool) := none
  columnKey : Option String := none
  selectable : Option (Row → Nat → Bool) := none
  reserveSelection : Bool := false

/-- A column object.  `leaf` is a column whose `children` is undefined, `group`
one whose `children` is an array (an empty array included: the source tests
`if (column.children)` and an array is truthy). -/
inductive Column where
  | leaf (info : ColInfo)
  | group (info : ColInfo) (children : List Column)

/-- The own attributes of a column. -/
def Column.info : Column → ColInfo
  | Column.leaf i => i
  | Column.group i _ => i

/-- The column with its `fixed` attribute assigned. -/
def Column.setFixed (f : Fixed) : Column → Column
  | Column.leaf i => Column.leaf { i with fixed := f }
  | Column.group i cs => Column.group { i with fixed := f } cs

/-- Reading `column.id`. -/
def Column.id (c : Column) : String := c.info.id

/-- Reading `column.fixed`. -/
def Column.fixed (c : Column) : Fixed := c.info.fixed

/-- JavaScript truthiness of a `fixed` attribute. -/
def Fixed.truthy : Fixed → Bool
  | Fixed.unset => false
  | _ => true

/-- The test `column.fixed === true || column.fixed === 'left'`. -/
def isFixedLeft (c : Column) : Bool :=
  match c.fixed with
  | Fixed.tru => true
  | Fixed.left => true
  | _ => false

/-- The test `column.fixed === 'right'`. -/
def isFixedRight (c : Column) : Bool :=
  match c.fixed with
  | Fixed.right => true
  | _ => false

/-- The test `!column.fixed`. -/
def isNotFixed (c : Column) : Bool := !c.fixed.truthy

mutual
/-- The callback of `columns.forEach` in `doFlattenColumns`: what one column
appends to `result`.  A column with `children` appends
`doFlattenColumns(column.children)`, which runs the loop on the children from a
fresh `result`; any other column appends itself. -/
def doFlattenPush : Column → List Column
  | Column.group _ children => doFlattenLoop children []
  | Column.leaf i => [Column.leaf i]
/-- The loop `columns.forEach` of `doFlattenColumns`, threading `result`. -/
def doFlattenLoop : List Column → List Column → List Column
  | [], result => result
  | column :: rest, result => doFlattenLoop rest (result ++ doFlattenPush column)
end

/-- The function `doFlattenColumns` of index.js: a fresh `result`, then the
`forEach` loop over `columns`. -/
def doFlattenColumns (columns : List Column) : List Column :=
  doFlattenLoop columns []

mutual
/-- The leaf columns below one column, depth first and left to right: a column
without children is its own only leaf, a group node is discarded and stands
for the leaves of its children. -/
def leafColumnsOf : Column → List Column
  | Column.leaf i => [Column.leaf i]
  | Column.group _ children => flatten children
/-- The flatten of the specification: the leaf columns of a list of columns,
depth first and left to right, every group node discarded. -/
def flatten : List Column → List Column
  | [] => []
  | column :: rest => leafColumnsOf column ++ flatten rest
end

/-! ## Events, errors and state -/

/-- What the store sends to its host: the `table.$emit` notifications, the two
layout requests and the call of the loader `table.load`.  `expandChangeFlag` is
the expand-change of tree.js, whose second payload is a boolean; `sortChange`
names the column by its `id`; `load` names the node by its key. -/
inductive Event where
  | currentChange (newRow oldRow : Option Row)
  | selectionChange (selection : List Row)
  | select (selection : List Row) (row : Row)
  | selectAll (selection : List Row)
  | expandChange (row : Row) (expandRows : List Row)
  | updateScrollY
  | debouncedUpdateLayout
  | expandChangeFlag (row : Row) (expanded : Bool)
  | sortChange (column : Option String) (prop : Option String) (order : Option String)
  | filterChange (filters : List (String × Option (List FilterValue)))
  | load (row : Row) (key : Key)
deriving DecidableEq, Repr

/-- The exceptions of the store. -/
inductive Err where
  | rowKeyRequired
  | typeError
  | actionNotFound (name : String)
  | dataMustBeArray
deriving DecidableEq, Repr

/-- The object `state.states` of index.js.  `filters` is a JavaScript object
from column id to value list, kept as an association list (`none` is a falsy
value); `filteredData` is `null` before the first filter pass and the model
reads that as the empty array, as the source does with `states.data || []`. -/
structure States where
  rowKey : Option (Row → Key) := none
  data : List Row := []
  _data : Option DataArr := none
  isComplex : Bool := false
  _columns : List Column := []
  originColumns : List Column := []
  columns : List Column := []
  fixedColumns : List Column := []
  rightFixedColumns : List Column := []
  leafColumnsLength : Nat := 0
  fixedLeafColumnsLength : Nat := 0
  rightFixedLeafColumnsLength : Nat := 0
  isAllSelected : Bool := false
  selection : List Row := []
  reserveSelection : Bool := false
  selectOnIndeterminate : Bool := false
  selectable : Option (Row → Nat → Bool) := none
  filters : List (String × Option (List FilterValue)) := []
  filteredData : List Row := []
  sortingColumn : Option Column := none
  sortProp : Option String := none
  sortOrder : Option String := none
  hoverRow : Option Row := none

/-- The object `state.states` of current.js.  Its literal has the two fields
`_currentRowKey` and `currentRow`; `rowKey` and `data` are the two further
properties the functions of current.js read from it (`none` is `undefined`);
nothing in the source assigns them. -/
structure CurrentStates where
  _currentRowKey : Option Key := none
  currentRow : Option Row := none
  rowKey : Option (Row → Key) := none
  data : Option (List Row) := none

/-- The object `state.states` of expand.js: its literal has the two fields
`defaultExpandAll` and `expandRows`.  The object is local to `useExpand`; the
functions of expand.js also read a `data` and a `rowKey` from it, and nothing
in the source assigns them, so the object never has these properties. -/
structure ExpandStates where
  defaultExpandAll : Bool := false
  expandRows : List Row := []

/-- A node of `treeData`.  A field is `none` when the node object does not have
the property; `level` is `none` for the level `''` of a node known from the
lazily loaded rows only. -/
structure TreeNode where
  children : List Key := []
  level : Option Nat := none
  lazy : Option Bool := none
  expanded : Option Bool := none
  loaded : Option Bool := none
  loading : Option Bool := none
deriving DecidableEq, Repr

/-- The object `state.states` of tree.js.  `treeData` and `lazyTreeNodeMap` are
JavaScript objects keyed by row key, kept as association lists.  The object is
local to `useTree`; the functions of tree.js also read a `rowKey` from it, and
nothing in the source assigns one, so the object never has that property. -/
structure TreeStates where
  expandRowKeys : List Key := []
  treeData : List (Key × TreeNode) := []
  indent : Nat := 16
  lazy : Bool := false
  lazyTreeNodeMap : List (Key × List Row) := []
  lazyColumnIdentifier : String := "hasChildren"
  childrenColumnName : String := "children"

/-- The store: the four `states` objects, the two properties of the host the
store reads (`table.$ready`, and whether a loader `table.load` is supplied),
and the log of what was sent to the host, oldest first. -/
structure Store where
  states : States := {}
  current : CurrentStates := {}
  expand : ExpandStates := {}
  emitted : List Event := []
  tree : TreeStates := {}
  ready : Bool := false
  hasLoad : Bool := false

/-- The result of a call that may throw: the store it leaves behind, and the
exception if one was raised. -/
inductive Outcome where
  | ok (s : Store)
  | throw (e : Err) (s : Store)

/-- The call `table.$emit(...)`, and likewise a layout request. -/
def Store.emit (s : Store) (e : Event) : Store :=
  { s with emitted := s.emitted ++ [e] }

/-! ## index.js: columns -/

/-- The function `updateColumns` of index.js.  The two fixed partitions are
filtered first; then, when a fixed-left column exists and the first root column
is a selection column with a falsy `fixed`, that column object gets
`fixed = true` and is put in front of `fixedColumns`; the unfixed partition is
filtered after that assignment. -/
def updateColumns (s : Store) : Store :=
  let states := s.states
  let _columns := states._columns
  let fixedColumns := _columns.filter isFixedLeft
  let rightFixedColumns := _columns.filter isFixedRight
  let promoted : List Column × List Column :=
    match _columns with
    | c0 :: rest =>
        if fixedColumns.length > 0 ∧ c0.info.type = "selection" ∧ c0.fixed.truthy = false then
          (c0.setFixed Fixed.tru :: rest, c0.setFixed Fixed.tru :: fixedColumns)
        else (_columns, fixedColumns)
    | [] => (_columns, fixedColumns)
  let _columns := promoted.1
  let fixedColumns := promoted.2
  let notFixedColumns := _columns.filter isNotFixed
  let originColumns := [] ++ fixedColumns ++ notFixedColumns ++ rightFixedColumns
  let leafColumns := doFlattenColumns notFixedColumns
  let fixedLeafColumns := doFlattenColumns fixedColumns
  let rightFixedLeafColumns := doFlattenColumns rightFixedColumns
  { s with states := { states with
      _columns := _columns
      fixedColumns := fixedColumns
      rightFixedColumns := rightFixedColumns
      originColumns := originColumns
      leafColumnsLength := leafColumns.length
      fixedLeafColumnsLength := fixedLeafColumns.length
      rightFixedLeafColumnsLength := rightFixedLeafColumns.length
      columns := [] ++ fixedLeafColumns ++ leafColumns ++ rightFixedLeafColumns
      isComplex := decide (fixedColumns.length > 0) || decide (rightFixedColumns.length > 0) } }

/-! ## `../util`: helpers that are not part of the sources at hand -/

/-- Modelled from the spec: `getRowIdentity` of `../util`, which is not among
the source files.  Section 4.1, `resolve(row, keyPath) -> Key`: the key
extractor applied to the row.  `rowKey` is the extractor a function or a
property path denotes. -/
def getRowIdentity (row : Row) (rowKey : Row → Key) : Key := rowKey row

/-- An entry `{ row, index }` of a key index. -/
structure RowInfo where
  row : Row
  index : Nat
deriving DecidableEq, Repr

/-- A key index `Map<Key, {row, index}>`: at most one entry for a key. -/
abbrev KeysMap := List (Key × RowInfo)

/-- Reading `map[key]`; `none` is `undefined`. -/
def KeysMap.get (m : KeysMap) (key : Key) : Option RowInfo :=
  match m with
  | [] => none
  | (k, info) :: rest => if k = key then some info else KeysMap.get rest key

/-- The assignment `map[key] = info`: the entry of a key already present is
replaced, a new key is added. -/
def KeysMap.set (m : KeysMap) (key : Key) (info : RowInfo) : KeysMap :=
  match m with
  | [] => [(key, info)]
  | (k, old) :: rest =>
      if k = key then (k, info) :: rest else (k, old) :: KeysMap.set rest key info

/-- The loop of `getKeysMap` from position `index` on. -/
def getKeysMapLoop (rowKey : Row → Key) : List Row → Nat → KeysMap → KeysMap
  | [], _, m => m
  | row :: rest, index, m =>
      getKeysMapLoop rowKey rest (index + 1)
        (m.set (getRowIdentity row rowKey) { row := row, index := index })

/-- Modelled from the spec: `getKeysMap` of `../util`, which is not among the
source files.  Section 4.1, `buildKeyIndex(rows, keyPath) -> Map<Key, {row,
index}>`: the rows are entered in order under their keys, each with its
position, so that of two rows with one key the later one is the entry.  The
callers in the store pass a configured row key. -/
def getKeysMap (array : List Row) (rowKey : Row → Key) : KeysMap :=
  getKeysMapLoop rowKey array 0 []

/-- Modelled from the spec: `toggleRowStatus` of `../util`, which is not among
the source files.  Sections 4.4 and 4.6, `toggle(row, forceState?) -> changed`:
flips the membership of `row` in `statusArr`, or forces it to `newVal`, and
tells whether the set changed.  A row is added at the end; membership is by
identity. -/
def toggleRowStatus (statusArr : List Row) (row : Row) (newVal : Option Bool) :
    List Row × Bool :=
  let included := decide (row ∈ statusArr)
  match newVal with
  | some true => if included then (statusArr, false) else (statusArr ++ [row], true)
  | some false =>
      if included then (statusArr.filter (fun r => decide (r ≠ row)), true)
      else (statusArr, false)
  | none =>
      if included then (statusArr.filter (fun r => decide (r ≠ row)), true)
      else (statusArr ++ [row], true)

/-- Modelled from the spec: `getColumnById` of `../util`, which is not among
the source files.  Section 4.3 speaks of the column a filter entry's id
denotes; the column is looked up by `id` among the leaf columns
`states.columns`, and `none` is returned when no column has the id. -/
def getColumnById (states : States) (columnId : String) : Option Column :=
  states.columns.find? (fun c => decide (c.id = columnId))

/-- The helpers of `../util` that are taken as given.  `orderBy(data, sortProp,
sortOrder, sortMethod, sortBy)` is the sort routine. -/
structure Util where
  orderBy : List Row → Option String → Option String → Option Nat → Option Nat → List Row

/-! ## index.js: filtering and sorting -/

/-- The function `sortData` of index.js. -/
def sortData (u : Util) (data : List Row) (states : States) : List Row :=
  match states.sortingColumn with
  | none => data
  | some sortingColumn =>
      match sortingColumn.info.sortable with
      | Sortable.str _ => data
      | Sortable.bool _ =>
          u.orderBy data states.sortProp states.sortOrder
            sortingColumn.info.sortMethod sortingColumn.info.sortBy

/-- The callback of `Object.keys(filters).forEach` in `execFilter`: `data`
after the filter entry `columnId` has been applied. -/
def execFilterStep (states : States) (data : List Row) (columnId : String) : List Row :=
  match states.filters.lookup columnId with
  | some (some values) =>
      if values.length = 0 then data
      else
        match getColumnById states columnId with
        | some column =>
            match column.info.filterMethod with
            | some filterMethod =>
                data.filter (fun row => values.any (fun value => filterMethod value row))
            | none => data
        | none => data
  | _ => data

/-- The function `execFilter` of index.js.  `_data` is `undefined` until the
first `setData`; the model reads it as an array without rows. -/
def execFilter (s : Store) : Store :=
  let states := s.states
  let _data := match states._data with
    | some d => d.rows
    | none => []
  let data := (states.filters.map Prod.fst).foldl (execFilterStep states) _data
  { s with states := { states with filteredData := data } }

/-- The function `execSort` of index.js. -/
def execSort (u : Util) (s : Store) : Store :=
  { s with states := { s.states with data := sortData u s.states.filteredData s.states } }

/-- The function `execQuery` of index.js; `ignoreFilter` is `ignore &&
ignore.filter`. -/
def execQuery (u : Util) (s : Store) (ignoreFilter : Bool) : Store :=
  let s := if !ignoreFilter then execFilter s else s
  execSort u s

/-- The function `updateTableScrollY` of index.js: `table.updateScrollY` is
queued for the next tick. -/
def updateTableScrollY (s : Store) : Store := s.emit Event.updateScrollY

/-! ## index.js: selection -/

/-- The function `assertRowKey` of index.js. -/
def assertRowKey (s : Store) : Outcome :=
  match s.states.rowKey with
  | none => Outcome.throw Err.rowKeyRequired s
  | some _ => Outcome.ok s

/-- The function `isSelected` of index.js. -/
def isSelected (s : Store) (row : Row) : Bool := decide (row ∈ s.states.selection)

/-- The function `clearSelection` of index.js. -/
def clearSelection (s : Store) : Store :=
  let s := { s with states := { s.states with isAllSelected := false } }
  let oldSelection := s.states.selection
  if oldSelection.length ≠ 0 then
    ({ s with states := { s.states with selection := [] } }).emit (Event.selectionChange [])
  else s

/-- The rows `cleanSelection` collects in `deleted`.  With a row key these are
the entries of the selection's key index whose key has no entry in the key
index of the data (the order in which `for ... in` visits the keys has no
bearing on what follows, which only asks for membership and for emptiness);
without one, the selected rows that are not in the data. -/
def cleanSelectionDeleted (states : States) : List Row :=
  match states.rowKey with
  | some rowKey =>
      let selectedMap := getKeysMap states.selection rowKey
      let dataMap := getKeysMap states.data rowKey
      (selectedMap.filter (fun entry => (dataMap.get entry.1).isNone)).map
        (fun entry => entry.2.row)
  | none => states.selection.filter (fun item => decide (item ∉ states.data))

/-- The function `cleanSelection` of index.js. -/
def cleanSelection (s : Store) : Store :=
  let states := s.states
  let deleted := cleanSelectionDeleted states
  if deleted.length ≠ 0 then
    let newSelection := states.selection.filter (fun item => decide (item ∉ deleted))
    ({ s with states := { states with selection := newSelection } }).emit
      (Event.selectionChange newSelection)
  else s

/-- The function `toggleRowSelection` of index.js; `selected` is `none` when
the argument is left out, `emitChange` defaults to `true` at the call sites. -/
def toggleRowSelection (s : Store) (row : Row) (selected : Option Bool)
    (emitChange : Bool) : Store :=
  let toggled := toggleRowStatus s.states.selection row selected
  let s := { s with states := { s.states with selection := toggled.1 } }
  if toggled.2 then
    let newSelection := s.states.selection
    let s := if emitChange then s.emit (Event.select newSelection row) else s
    s.emit (Event.selectionChange newSelection)
  else s

/-- The target state `value` that `_toggleAllSelection` computes. -/
def toggleAllValue (states : States) : Bool :=
  if states.selectOnIndeterminate then !states.isAllSelected
  else !(states.isAllSelected || decide (states.selection.length ≠ 0))

/-- The loop `data.forEach((row, index) => ...)` of `_toggleAllSelection`, from
position `index` on: it threads the selection array and `selectionChanged`. -/
def toggleAllLoop (selectable : Option (Row → Nat → Bool)) (value : Bool) :
    List Row → Nat → List Row × Bool → List Row × Bool
  | [], _, acc => acc
  | row :: rest, index, (selection, selectionChanged) =>
      match selectable with
      | some f =>
          if f row index then
            let toggled := toggleRowStatus selection row (some value)
            toggleAllLoop selectable value rest (index + 1)
              (toggled.1, if toggled.2 then true else selectionChanged)
          else toggleAllLoop selectable value rest (index + 1) (selection, selectionChanged)
      | none =>
          let toggled := toggleRowStatus selection row (some value)
          toggleAllLoop selectable value rest (index + 1)
            (toggled.1, if toggled.2 then true else selectionChanged)

/-- The function `_toggleAllSelection` of index.js. -/
def _toggleAllSelection (s : Store) : Store :=
  let states := s.states
  let value := toggleAllValue states
  let looped := toggleAllLoop states.selectable value states.data 0 (states.selection, false)
  let s := { s with states := { states with isAllSelected := value, selection := looped.1 } }
  let s := if looped.2 then s.emit (Event.selectionChange looped.1) else s
  s.emit (Event.selectAll looped.1)

/-- The loop `data.forEach` of `updateSelectionByRowKey`: a data row whose key
has an entry in `selectedMap` is written into the selection at that entry's
index. -/
def updateSelectionLoop (rowKey : Row → Key) (selectedMap : KeysMap) :
    List Row → List Row → List Row
  | [], selection => selection
  | row :: rest, selection =>
      match selectedMap.get (getRowIdentity row rowKey) with
      | some rowInfo =>
          updateSelectionLoop rowKey selectedMap rest (selection.set rowInfo.index row)
      | none => updateSelectionLoop rowKey selectedMap rest selection

/-- The function `updateSelectionByRowKey` of index.js, called once
`assertRowKey` has passed. -/
def updateSelectionByRowKey (s : Store) (rowKey : Row → Key) : Store :=
  let states := s.states
  let selectedMap := getKeysMap states.selection rowKey
  { s with states := { states with
      selection := updateSelectionLoop rowKey selectedMap states.data states.selection } }

/-- The closure `isSelected` inside `updateAllSelected`: by key index when a
row key is configured, by identity otherwise. -/
def isSelectedIn (rowKey : Option (Row → Key)) (selection : List Row) (row : Row) : Bool :=
  match rowKey with
  | some rk => ((getKeysMap selection rk).get (getRowIdentity row rk)).isSome
  | none => decide (row ∈ selection)

/-- The `for` loop of `updateAllSelected` from position `i` on, threading
`selectedCount`; it yields `isAllSelected` and `selectedCount` as they stand
when the loop is left, by `break` or at the end. -/
def allSelectedLoop (rowKey : Option (Row → Key)) (selection : List Row)
    (selectable : Option (Row → Nat → Bool)) : List Row → Nat → Nat → Bool × Nat
  | [], _, selectedCount => (true, selectedCount)
  | item :: rest, i, selectedCount =>
      if !isSelectedIn rowKey selection item then
        match selectable with
        | none => (false, selectedCount)
        | some f =>
            if f item i then (false, selectedCount)
            else allSelectedLoop rowKey selection selectable rest (i + 1) selectedCount
      else allSelectedLoop rowKey selection selectable rest (i + 1) (selectedCount + 1)

/-- The function `updateAllSelected` of index.js. -/
def updateAllSelected (s : Store) : Store :=
  let states := s.states
  let data := states.data
  if data.length = 0 then
    { s with states := { states with isAllSelected := false } }
  else
    let looped := allSelectedLoop states.rowKey states.selection states.selectable data 0 0
    let isAllSelected := if looped.2 = 0 then false else looped.1
    { s with states := { states with isAllSelected := isAllSelected } }

/-! ## current.js -/

/-- The function `setCurrentRowByKey` of current.js.  Its first statement is
`const states = state.state`; the closure variable `state` has the single
property `states`, so `states` is `undefined` here, and the next statement,
`const { data = [], rowKey } = states`, raises a TypeError.  Nothing has been
assigned by then, and the rest of the body is never reached. -/
def setCurrentRowByKey (s : Store) (_key : Option Key) : Outcome :=
  Outcome.throw Err.typeError s

/-- The function `restoreCurrentRowKey` of current.js. -/
def restoreCurrentRowKey (s : Store) : Store :=
  { s with current := { s.current with _currentRowKey := none } }

/-- The function `setCurrentRowKey` of current.js; `assertRowKey` is the one of
index.js, handed in by `useStore`. -/
def setCurrentRowKey (s : Store) (key : Option Key) : Outcome :=
  match assertRowKey s with
  | Outcome.throw e s => Outcome.throw e s
  | Outcome.ok s =>
      let s := { s with current := { s.current with _currentRowKey := key } }
      setCurrentRowByKey s key

/-- The function `updateCurrentRow` of current.js; the argument is a row or
`null`.  `oldCurrentRow` is read back from `states.currentRow`, so it is the
reactive proxy of the row stored: `currentRow !== oldCurrentRow` fails only
when the argument is the reactive proxy of that same row. -/
def updateCurrentRow (s : Store) (currentRow : Option RowArg) : Store :=
  let oldCurrentRow := s.current.currentRow
  match currentRow with
  | some arg =>
      if ¬ (arg.reactive = true ∧ oldCurrentRow = some arg.row) then
        ({ s with current := { s.current with currentRow := some arg.row } }).emit
          (Event.currentChange (some arg.row) oldCurrentRow)
      else s
  | none =>
      match oldCurrentRow with
      | some _ =>
          ({ s with current := { s.current with currentRow := none } }).emit
            (Event.currentChange none oldCurrentRow)
      | none => s

/-- JavaScript truthiness of a cached key: `null` and `0` are falsy. -/
def keyTruthy : Option Key → Bool
  | none => false
  | some k => decide (k ≠ 0)

/-- The function `updateCurrentRowData` of current.js. -/
def updateCurrentRowData (s : Store) : Outcome :=
  let states := s.current
  let rowKey := states.rowKey
  let _currentRowKey := states._currentRowKey
  let data := states.data.getD []
  let oldCurrentRow := states.currentRow
  let pending : Outcome :=
    if keyTruthy _currentRowKey then
      match setCurrentRowByKey s _currentRowKey with
      | Outcome.throw e s => Outcome.throw e s
      | Outcome.ok s => Outcome.ok (restoreCurrentRowKey s)
    else Outcome.ok s
  match oldCurrentRow with
  | none => pending
  | some old =>
      if old ∉ data then
        let resolved : Outcome :=
          match rowKey with
          | some rk => setCurrentRowByKey s (some (getRowIdentity old rk))
          | none => Outcome.ok { s with current := { s.current with currentRow := none } }
        match resolved with
        | Outcome.throw e s => Outcome.throw e s
        | Outcome.ok s =>
            if s.current.currentRow = none then
              Outcome.ok (s.emit (Event.currentChange none (some old)))
            else Outcome.ok s
      else pending

/-! ## expand.js -/

/-- The function `updateExpandRows` of expand.js.  It destructures `data = []`
and `rowKey` from the `state.states` of expand.js, which has neither property:
`data` takes its default `[]` and `rowKey` is `undefined`, here `none`, at
every call. -/
def updateExpandRows (s : Store) : Store :=
  let states := s.expand
  let data : List Row := []
  let rowKey : Option (Row → Key) := none
  let expandRows : List Row :=
    if states.defaultExpandAll then data
    else
      match rowKey with
      | some rowKey =>
          let expandRowsMap := getKeysMap states.expandRows rowKey
          data.filter (fun row => (expandRowsMap.get (getRowIdentity row rowKey)).isSome)
      | none => []
  { s with expand := { states with expandRows := expandRows } }

/-! ## index.js: the mutations -/

/-- The test `states._data !== data` of `setData`.  `_data` is `undefined`
before the first call; after it, `states._data` reads back the reactive proxy
of the array stored, so the test fails only when `data` is the reactive proxy
of that same array.  Of the array stored only the identity is read. -/
def dataInstanceChanged (states : States) (data : DataArr) : Bool :=
  match states._data with
  | some old => !(decide (old.ref = data.ref) && data.reactive)
  | none => true

/-- The mutation `setData` of index.js.  In the branch of `reserveSelection`,
`assertRowKey()` is the match on `rowKey`. -/
def mutations.setData (u : Util) (s : Store) (data : DataArr) : Outcome :=
  let dataInstanceChanged : Bool := dataInstanceChanged s.states data
  let s := { s with states := { s.states with _data := some data } }
  let s := execQuery u s false
  match updateCurrentRowData s with
  | Outcome.throw e s => Outcome.throw e s
  | Outcome.ok s =>
      let s := updateExpandRows s
      let reconciled : Outcome :=
        if s.states.reserveSelection then
          match s.states.rowKey with
          | none => Outcome.throw Err.rowKeyRequired s
          | some rowKey => Outcome.ok (updateSelectionByRowKey s rowKey)
        else if dataInstanceChanged then Outcome.ok (clearSelection s)
        else Outcome.ok (cleanSelection s)
      match reconciled with
      | Outcome.throw e s => Outcome.throw e s
      | Outcome.ok s => Outcome.ok (updateTableScrollY (updateAllSelected s))

/-- The mutation `toggleAllSelection` of index.js. -/
def mutations.toggleAllSelection (s : Store) : Store := _toggleAllSelection s

/-- The mutation `rowSelectedChanged` of index.js. -/
def mutations.rowSelectedChanged (s : Store) (row : Row) : Store :=
  updateAllSelected (toggleRowSelection s row none true)

/-- The mutation `setCurrentRow` of index.js. -/
def mutations.setCurrentRow (s : Store) (row : Option RowArg) : Store :=
  updateCurrentRow s row

/-! ## Reference definitions used in the statements -/

/-- Whether the filter entry of `columnId` lets `row` pass: an entry whose
value list is absent or empty, whose column does not exist or has no
`filterMethod`, lets every row pass; any other entry lets a row pass when some
value of its list satisfies the column's `filterMethod`. -/
def filterEntryKeeps (states : States) (columnId : String) (row : Row) : Bool :=
  match states.filters.lookup columnId with
  | some (some values) =>
      match getColumnById states columnId with
      | some column =>
          match column.info.filterMethod with
          | some filterMethod =>
              values.isEmpty || values.any (fun value => filterMethod value row)
          | none => true
      | none => true
  | _ => true

/-- Whether every filter entry lets `row` pass. -/
def filterKeeps (states : States) (row : Row) : Bool :=
  (states.filters.map Prod.fst).all (fun columnId => filterEntryKeeps states columnId row)

/-! ## Example stores -/

/-- A store with one filter on column `c1`, whose `filterMethod` compares the
value with the `id` of the row. -/
def filterExample : Store :=
  { states :=
      { _data := some { ref := 1, rows := [⟨10, 1⟩, ⟨11, 2⟩, ⟨12, 3⟩, ⟨13, 2⟩] }
        columns :=
          [Column.leaf { id := "c1", filterMethod := some (fun v r => decide (r.id = v)) },
           Column.leaf { id := "c2" }]
        filters := [("c1", some [2, 3]), ("c2", some [7]), ("c3", some [7]), ("c4", none)] } }


/-- Whether `row` at position `index` is selectable: every row is when no
`selectable` predicate is configured. -/
def selectableAt (selectable : Option (Row → Nat → Bool)) (row : Row) (index : Nat) : Bool :=
  match selectable with
  | none => true
  | some f => f row index

/-- Whether `row` is selected: with a row key, some selected row has the key of
`row`; without one, `row` itself is in the selection. -/
def rowSelected (rowKey : Option (Row → Key)) (selection : List Row) (row : Row) : Bool :=
  match rowKey with
  | some rk => selection.any (fun x => decide (rk x = rk row))
  | none => decide (row ∈ selection)

/-- A store in the indeterminate state: two rows, the first one selected,
`selectOnIndeterminate` on. -/
def indeterminateExample : Store :=
  { states :=
      { data := [⟨1, 1⟩, ⟨2, 2⟩]
        selection := [⟨1, 1⟩]
        isAllSelected := false
        selectOnIndeterminate := true } }

/-- The store as it is created: no data, nothing selected. -/
def emptyExample : Store := {}

/-- The store a call leaves behind. -/
def Outcome.store : Outcome → Store
  | Outcome.ok s => s
  | Outcome.throw _ s => s

/-- The exception a call raised, if any. -/
def Outcome.error : Outcome → Option Err
  | Outcome.ok _ => none
  | Outcome.throw e _ => some e

/-- A `Util` whose `orderBy` returns the rows in the order given. -/
def exampleUtil : Util := { orderBy := fun data _ _ _ _ => data }

/-- A store with the row key `id` configured and no data loaded. -/
def keyedExample : Store := { states := { rowKey := some Row.id } }

/-- The visible rows after `setData`: the raw rows every filter entry lets
pass, put through `sortData`. -/
def visibleRows (u : Util) (states : States) (rows : List Row) : List Row :=
  sortData u (rows.filter (filterKeeps states)) states

/-- The selection-change notifications in a log. -/
def selectionChanges (events : List Event) : List Event :=
  events.filter (fun e => match e with
    | Event.selectionChange _ => true
    | _ => false)

/-- A store under the reserve policy with the row key `id`: the data
[{id:1},{id:2},{id:3}] with the row of id 2 selected. -/
def reserveExample : Store :=
  { states :=
      { rowKey := some Row.id
        reserveSelection := true
        _data := some { ref := 1, rows := [⟨1, 1⟩, ⟨2, 2⟩, ⟨3, 3⟩] }
        filteredData := [⟨1, 1⟩, ⟨2, 2⟩, ⟨3, 3⟩]
        data := [⟨1, 1⟩, ⟨2, 2⟩, ⟨3, 3⟩]
        selection := [⟨2, 2⟩] } }

/-- The new data [{id:2},{id:3},{id:4}] of the reserve example: a new array of
new row objects. -/
def reserveNewData : DataArr := { ref := 2, rows := [⟨12, 2⟩, ⟨13, 3⟩, ⟨14, 4⟩] }

/-- The store `reserveExample` with a filter on column `c1` that lets the rows
of id 3 pass. -/
def reserveFilteredExample : Store :=
  { reserveExample with states := { reserveExample.states with
      columns := [Column.leaf
        { id := "c1", filterMethod := some (fun v r => decide (r.id = v)) }]
      filters := [("c1", some [3])]
      filteredData := [⟨3, 3⟩]
      data := [⟨3, 3⟩] } }

/-- Whether `row` is present in `rows`: with a row key, some row of `rows` has
the key of `row`; without one, `row` itself is among `rows`. -/
def rowPresent (rowKey : Option (Row → Key)) (rows : List Row) (row : Row) : Bool :=
  match rowKey with
  | some rk => rows.any (fun x => decide (rk x = rk row))
  | none => decide (row ∈ rows)

/-- A store with the row key `id` and reserve-selection off, in which two
different row objects with the same id 7 are selected. -/
def duplicateKeyExample : Store :=
  { states :=
      { rowKey := some Row.id
        _data := some { ref := 1, rows := [⟨1, 7⟩, ⟨2, 7⟩] }
        filteredData := [⟨1, 7⟩, ⟨2, 7⟩]
        data := [⟨1, 7⟩, ⟨2, 7⟩]
        selection := [⟨1, 7⟩, ⟨2, 7⟩] } }

/-- A store with the row key `id` and reserve-selection off: the data
[{id:1},{id:2},{id:3}] with the rows of id 1 and 2 selected. -/
def cleanExample : Store :=
  { states :=
      { rowKey := some Row.id
        _data := some { ref := 1, rows := [⟨1, 1⟩, ⟨2, 2⟩, ⟨3, 3⟩] }
        filteredData := [⟨1, 1⟩, ⟨2, 2⟩, ⟨3, 3⟩]
        data := [⟨1, 1⟩, ⟨2, 2⟩, ⟨3, 3⟩]
        selection := [⟨1, 1⟩, ⟨2, 2⟩] } }

/-- A store whose two data rows are both selected, in the other order. -/
def allSelectedExample : Store :=
  { states :=
      { data := [⟨1, 1⟩, ⟨2, 2⟩]
        selection := [⟨2, 2⟩, ⟨1, 1⟩] } }

/-- The current-change notifications in a log. -/
def currentChanges (events : List Event) : List Event :=
  events.filter (fun e => match e with
    | Event.currentChange _ _ => true
    | _ => false)

/-- The current row that `updateCurrentRowData` clears, if any: the current
row, when it is not among the rows current.js sees and current.js sees no row
key. -/
def currentRowCleared (c : CurrentStates) : Option Row :=
  match c.currentRow with
  | some old => if old ∉ c.data.getD [] ∧ c.rowKey.isNone = true then some old else none
  | none => none

/-- A store with a current row, reserve-selection on and no row key. -/
def reserveNoKeyExample : Store :=
  { states := { reserveSelection := true }
    current := { currentRow := some ⟨1, 1⟩ } }

/-- A store with the row key `id` configured and a current row. -/
def currentRowExample : Store :=
  { states :=
      { rowKey := some Row.id
        _data := some { ref := 1, rows := [⟨1, 1⟩, ⟨2, 2⟩] }
        filteredData := [⟨1, 1⟩, ⟨2, 2⟩]
        data := [⟨1, 1⟩, ⟨2, 2⟩] }
    current := { currentRow := some ⟨1, 1⟩ } }

/-- A store with the row key `id` and the data [{id:1},{id:2}], the row of
id 1 being expanded. -/
def expandExample : Store :=
  { states :=
      { rowKey := some Row.id
        _data := some { ref := 1, rows := [⟨1, 1⟩, ⟨2, 2⟩] }
        filteredData := [⟨1, 1⟩, ⟨2, 2⟩]
        data := [⟨1, 1⟩, ⟨2, 2⟩] }
    expand := { expandRows := [⟨1, 1⟩] } }

/-- A store whose first root column is a selection column with no `fixed`,
followed by a group and a column fixed on the left. -/
def promoteExample : Store :=
  { states :=
      { _columns :=
          [Column.leaf { id := "S", type := "selection" },
           Column.group { id := "B" } [Column.leaf { id := "C" }, Column.leaf { id := "D" }],
           Column.leaf { id := "A", fixed := Fixed.left }] } }

/-- The root list after the compatibility rule of `updateColumns`: when some
root column is fixed on the left and the first root column is a selection
column with a falsy `fixed`, that column has `fixed = true`. -/
def promoteSelection (cols : List Column) : List Column :=
  match cols with
  | c0 :: rest =>
      if cols.any isFixedLeft = true ∧ c0.info.type = "selection" ∧ c0.fixed.truthy = false
      then c0.setFixed Fixed.tru :: rest else c0 :: rest
  | [] => []

/-- The column state computed from a root list: the three partitions by the
`fixed` attribute, the origin columns, the leaf columns with their counts, and
`isComplex`. -/
def recomputeColumns (cols : List Column) (states : States) : States :=
  { states with
      _columns := cols
      fixedColumns := cols.filter isFixedLeft
      rightFixedColumns := cols.filter isFixedRight
      originColumns :=
        cols.filter isFixedLeft ++ cols.filter isNotFixed ++ cols.filter isFixedRight
      leafColumnsLength := (flatten (cols.filter isNotFixed)).length
      fixedLeafColumnsLength := (flatten (cols.filter isFixedLeft)).length
      rightFixedLeafColumnsLength := (flatten (cols.filter isFixedRight)).length
      columns :=
        flatten (cols.filter isFixedLeft) ++ flatten (cols.filter isNotFixed)
          ++ flatten (cols.filter isFixedRight)
      isComplex := cols.any isFixedLeft || cols.any isFixedRight }

/-- A `Util` whose `orderBy` reverses the rows. -/
def reverseUtil : Util := { orderBy := fun data _ _ _ _ => data.reverse }

/-- The store `filterExample` with a sorting column. -/
def sortedFilterExample : Store :=
  { filterExample with states := { filterExample.states with
      sortingColumn := some (Column.leaf { id := "c1", sortable := Sortable.bool true })
      sortProp := some "id"
      sortOrder := some "descending" } }

/-! ## index.js: column objects held in several lists -/

mutual
/-- An assignment to attributes of column objects, applied to a column and to
the columns below it. -/
def Column.mapInfo (f : ColInfo → ColInfo) : Column → Column
  | Column.leaf i => Column.leaf (f i)
  | Column.group i children => Column.group (f i) (mapInfoList f children)
/-- An assignment to attributes of column objects, applied to a list of
columns. -/
def mapInfoList (f : ColInfo → ColInfo) : List Column → List Column
  | [] => []
  | column :: rest => column.mapInfo f :: mapInfoList f rest
end

mutual
/-- An assignment to `parent.children`, applied to a column and to the columns
below it: the column object with the id `parentId` gets the children
`f children`, where `children` is `none` when it had no `children`. -/
def Column.updateChildren (parentId : String) (f : Option (List Column) → List Column) :
    Column → Column
  | Column.leaf i => if i.id = parentId then Column.group i (f none) else Column.leaf i
  | Column.group i children =>
      if i.id = parentId then Column.group i (f (some children))
      else Column.group i (updateChildrenList parentId f children)
/-- An assignment to `parent.children`, applied to a list of columns. -/
def updateChildrenList (parentId : String) (f : Option (List Column) → List Column) :
    List Column → List Column
  | [] => []
  | column :: rest =>
      column.updateChildren parentId f :: updateChildrenList parentId f rest
end

/-- A change of column objects as the store sees it.  A column object is shared
by the lists that hold it, so the change shows in every list of columns of
`states` and in `sortingColumn`. -/
def States.mapColumnObjects (g : Column → Column) (states : States) : States :=
  { states with
      _columns := states._columns.map g
      originColumns := states.originColumns.map g
      columns := states.columns.map g
      fixedColumns := states.fixedColumns.map g
      rightFixedColumns := states.rightFixedColumns.map g
      sortingColumn := states.sortingColumn.map g }

/-- The assignment `column.order = order` to the column object of the given
id. -/
def States.setColumnOrder (id : String) (order : Option String) (states : States) : States :=
  states.mapColumnObjects
    (Column.mapInfo (fun i => if i.id = id then { i with order := order } else i))

/-- The assignment `o[key] = value` to a JavaScript object kept as an
association list: the entry of a key already present is replaced, a new key
is added at the end. -/
def objSet {κ α : Type} [DecidableEq κ] (o : List (κ × α)) (key : κ) (value : α) :
    List (κ × α) :=
  match o with
  | [] => [(key, value)]
  | (k, old) :: rest =>
      if k = key then (k, value) :: rest else (k, old) :: objSet rest key value

/-- Reading `o[key]` from a JavaScript object kept as an association list;
`none` is `undefined`. -/
def objGet {κ α : Type} [DecidableEq κ] (o : List (κ × α)) (key : κ) : Option α :=
  match o with
  | [] => none
  | (k, value) :: rest => if k = key then some value else objGet rest key

/-! ## index.js: layout, sort state and filters -/

/-- The function `scheduleLayout` of index.js. -/
def scheduleLayout (s : Store) (needUpdateColumns : Bool) : Store :=
  let s := if needUpdateColumns then updateColumns s else s
  s.emit Event.debouncedUpdateLayout

/-- The function `updateSort` of index.js; `column` is a column or `null`.  The
former sorting column, when it is another column object, gets `order = null`. -/
def updateSort (s : Store) (column : Option Column) (prop order : Option String) : Store :=
  let states := s.states
  let states :=
    match states.sortingColumn with
    | some sortingColumn =>
        if some sortingColumn.id ≠ column.map Column.id then
          states.setColumnOrder sortingColumn.id none
        else states
    | none => states
  { s with states := { states with
      sortingColumn := column
      sortProp := prop
      sortOrder := order } }

/-- The loop `columns.forEach` of `updateFilters`, threading `states.filters`
and the object `filters` that is returned. -/
def updateFiltersLoop (values : Option (List FilterValue)) :
    List Column → List (String × Option (List FilterValue)) ×
      List (String × Option (List FilterValue)) →
    List (String × Option (List FilterValue)) × List (String × Option (List FilterValue))
  | [], acc => acc
  | col :: rest, (stateFilters, filters) =>
      updateFiltersLoop values rest
        (objSet stateFilters col.id values,
          objSet filters (col.info.columnKey.getD col.id) values)

/-- The function `updateFilters` of index.js; `columns` is the array of columns,
or the one column put into an array.  It yields the store and the object
`filters` it returns. -/
def updateFilters (s : Store) (columns : List Column) (values : Option (List FilterValue)) :
    Store × List (String × Option (List FilterValue)) :=
  let looped := updateFiltersLoop values columns (s.states.filters, [])
  ({ s with states := { s.states with filters := looped.1 } }, looped.2)

/-! ## index.js: the other mutations -/

/-- The argument `options` of `changeSortCondition`; an absent flag is
`false`. -/
structure SortConditionOptions where
  silent : Bool := false
  init : Bool := false
deriving DecidableEq, Repr

/-- The mutation `changeSortCondition` of index.js; `options` is `none` when
the argument is left out.  The payload of sort-change is read from the state
before the sorting column is cleared. -/
def mutations.changeSortCondition (u : Util) (s : Store)
    (options : Option SortConditionOptions) : Store :=
  let column := s.states.sortingColumn
  let prop := s.states.sortProp
  let order := s.states.sortOrder
  let s :=
    match order with
    | none => { s with states := { s.states with sortingColumn := none, sortProp := none } }
    | some _ => s
  let s := execQuery u s true
  let quiet : Bool :=
    match options with
    | none => false
    | some o => o.silent || o.init
  let s := if !quiet then s.emit (Event.sortChange (column.map Column.id) prop order) else s
  updateTableScrollY s

/-- The argument `options` of `sort`. -/
structure SortOptions where
  prop : Option String := none
  order : Option String := none
  init : Bool := false
deriving DecidableEq, Repr

/-- The mutation `sort` of index.js.  `arrayFind` yields the first column of
`states.columns` with the property; the nested `commit` reaches
`changeSortCondition`. -/
def mutations.sort (u : Util) (s : Store) (options : SortOptions) : Store :=
  match options.prop with
  | none => s
  | some prop =>
      if prop = "" then s
      else
        match s.states.columns.find? (fun column => decide (column.info.property = some prop)) with
        | none => s
        | some column =>
            let s := { s with states := s.states.setColumnOrder column.id options.order }
            let column := column.mapInfo (fun i => { i with order := options.order })
            let s := updateSort s (some column) (some prop) options.order
            mutations.changeSortCondition u s (some { init := options.init })

/-- The argument `options` of `filterChange`; `column` is the array of columns,
or the one column put into an array. -/
structure FilterChangeOptions where
  column : List Column := []
  values : Option (List FilterValue) := none
  silent : Bool := false

/-- The mutation `filterChange` of index.js. -/
def mutations.filterChange (u : Util) (s : Store) (options : FilterChangeOptions) : Store :=
  let updated := updateFilters s options.column options.values
  let s := execQuery u updated.1 false
  let s := if !options.silent then s.emit (Event.filterChange updated.2) else s
  updateTableScrollY s

/-- The mutation `setHoverRow` of index.js. -/
def mutations.setHoverRow (s : Store) (row : Option Row) : Store :=
  { s with states := { s.states with hoverRow := row } }

/-- The call `array.splice(index, 0, column)`, or `array.push(column)` when
`index` is undefined. -/
def insertAt (array : List Column) (index : Option Nat) (column : Column) : List Column :=
  match index with
  | some i => array.take i ++ [column] ++ array.drop i
  | none => array ++ [column]

/-- The call `array.indexOf(column)`; `none` is the result `-1`. -/
def indexOfColumn : List Column → Column → Option Nat
  | [], _ => none
  | c :: rest, column =>
      if c.id = column.id then some 0 else (indexOfColumn rest column).map (fun i => i + 1)

/-- The call `array.splice(array.indexOf(column), 1)`.  When the column is not
in the array `indexOf` yields `-1`, and `splice(-1, 1)` removes the last
element. -/
def spliceIndexOf (array : List Column) (column : Column) : List Column :=
  match indexOfColumn array column with
  | some i => array.eraseIdx i
  | none => array.dropLast

/-- The mutation `insertColumn` of index.js; `parent` is the id of the parent
column object, or `none`. -/
def mutations.insertColumn (s : Store) (column : Column) (index : Option Nat)
    (parent : Option String) : Store :=
  let states :=
    match parent with
    | some parentId =>
        s.states.mapColumnObjects (Column.updateChildren parentId
          (fun children => insertAt (children.getD []) index column))
    | none => { s.states with _columns := insertAt s.states._columns index column }
  let states :=
    if column.info.type = "selection" then
      { states with
          selectable := column.info.selectable
          reserveSelection := column.info.reserveSelection }
    else states
  let s := { s with states := states }
  if s.ready then scheduleLayout (updateColumns s) false else s

/-- The mutation `removeColumn` of index.js; `parent` is the id of the parent
column object, or `none`. -/
def mutations.removeColumn (s : Store) (column : Column) (parent : Option String) : Store :=
  let states :=
    match parent with
    | some parentId =>
        s.states.mapColumnObjects (Column.updateChildren parentId
          (fun children => spliceIndexOf (children.getD []) column))
    | none => { s.states with _columns := spliceIndexOf s.states._columns column }
  let s := { s with states := states }
  if s.ready then scheduleLayout (updateColumns s) false else s

/-- A store whose sort order has been set to `null` while a sorting column and
a sort property are still in place. -/
def sortClearedExample : Store :=
  { states :=
      { filteredData := [⟨2, 2⟩, ⟨1, 1⟩, ⟨3, 3⟩]
        data := [⟨3, 3⟩, ⟨2, 2⟩, ⟨1, 1⟩]
        sortingColumn := some (Column.leaf
          { id := "c1", property := some "id", sortable := Sortable.bool true })
        sortProp := some "id"
        sortOrder := none } }

/-! ## tree.js -/

/-- The function `updateTreeData` of tree.js.  Its first statements read
`state.normalizedData` and `state.normalizedLazyNode`; the closure variable
`state` has the single property `states` (`normalizedData` and
`normalizedLazyNode` are local constants of `useTree`, not properties of
`state`), so `nested` is `undefined` and `Object.keys(nested)` raises a
TypeError.  Nothing has been assigned by then, and the rest of the body is
never reached. -/
def updateTreeData (s : Store) : Outcome :=
  Outcome.throw Err.typeError s

/-- The function `updateTreeExpandKeys` of tree.js. -/
def updateTreeExpandKeys (s : Store) (value : List Key) : Outcome :=
  updateTreeData { s with tree := { s.tree with expandRowKeys := value } }

/-- The function `toggleTreeExpansion` of tree.js; `expanded` is `none` when
the argument is left out.  `assertRowKey` is the one of index.js, which tests
the row key of index.js.  The row key that identifies the row is destructured
from the `states` of tree.js, which has no `rowKey`: it is `undefined`, here
`none`, at every call, and so is the identity `getRowIdentity` yields. -/
def toggleTreeExpansion (s : Store) (row : Row) (expanded : Option Bool) : Outcome :=
  match assertRowKey s with
  | Outcome.throw e s => Outcome.throw e s
  | Outcome.ok s =>
      let rowKey : Option (Row → Key) := none
      match rowKey with
      | none => Outcome.ok s
      | some rowKey =>
          let id := getRowIdentity row rowKey
          if id = 0 then Outcome.ok s
          else
            match objGet s.tree.treeData id with
            | none => Outcome.ok s
            | some data =>
                match data.expanded with
                | none => Outcome.ok s
                | some oldExpanded =>
                    let expanded := expanded.getD (!oldExpanded)
                    let s := { s with tree := { s.tree with
                      treeData := objSet s.tree.treeData id
                        { data with expanded := some expanded } } }
                    let s :=
                      if oldExpanded ≠ expanded then s.emit (Event.expandChangeFlag row expanded)
                      else s
                    Outcome.ok (updateTableScrollY s)

/-- The function `loadData` of tree.js up to the call of the loader:
`table.load(row, treeNode, callback)` is logged as `Event.load`.  Reading
`treeData[key].loaded` of a key without a node raises a TypeError. -/
def loadData (s : Store) (row : Row) (key : Key) : Outcome :=
  if s.hasLoad then
    match objGet s.tree.treeData key with
    | none => Outcome.throw Err.typeError s
    | some node =>
        if node.loaded.getD false then Outcome.ok s
        else
          let s := { s with tree := { s.tree with
            treeData := objSet s.tree.treeData key { node with loading := some true } } }
          Outcome.ok (s.emit (Event.load row key))
  else Outcome.ok s

/-- The callback that `loadData` hands to the loader, run with `data`; `none`
is a payload that is not an array.  The callback works on the `treeData` and
`lazyTreeNodeMap` objects `loadData` read, which are never replaced. -/
def loadDataCallback (s : Store) (row : Row) (key : Key) (data : Option (List Row)) :
    Outcome :=
  match data with
  | none => Outcome.throw Err.dataMustBeArray s
  | some rows =>
      match objGet s.tree.treeData key with
      | none => Outcome.throw Err.typeError s
      | some node =>
          let treeData := objSet s.tree.treeData key
            { node with loading := some false, loaded := some true, expanded := some true }
          let lazyTreeNodeMap :=
            if rows.length ≠ 0 then objSet s.tree.lazyTreeNodeMap key rows
            else s.tree.lazyTreeNodeMap
          let s := { s with tree := { s.tree with
            treeData := treeData, lazyTreeNodeMap := lazyTreeNodeMap } }
          Outcome.ok (s.emit (Event.expandChangeFlag row true))

/-- The function `loadOrToggle` of tree.js.  The row key is destructured from
the `states` of tree.js, which has no `rowKey`: it is `undefined`, here `none`,
at every call, the identity of the row is `undefined`, and `treeData[id]` finds
no node. -/
def loadOrToggle (s : Store) (row : Row) : Outcome :=
  match assertRowKey s with
  | Outcome.throw e s => Outcome.throw e s
  | Outcome.ok s =>
      let rowKey : Option (Row → Key) := none
      let found : Option (Key × TreeNode) :=
        match rowKey with
        | none => none
        | some rowKey =>
            (objGet s.tree.treeData (getRowIdentity row rowKey)).map
              (fun data => (getRowIdentity row rowKey, data))
      match found with
      | some (id, data) =>
          if s.tree.lazy ∧ data.loaded = some false then loadData s row id
          else toggleTreeExpansion s row none
      | none => toggleTreeExpansion s row none

/-- The calls of the loader in a log. -/
def loadCalls (events : List Event) : List Event :=
  events.filter (fun e => match e with
    | Event.load _ _ => true
    | _ => false)

/-- A store with the row key `id` and a loader, whose tree state is seeded with
lazy mode on and the lazy node of key 1, neither loaded nor loading. -/
def lazyExample : Store :=
  { states := { rowKey := some Row.id }
    hasLoad := true
    tree :=
      { lazy := true
        treeData :=
          [(1, { lazy := some true, level := some 0, expanded := some false
                 loaded := some false, loading := some false })] } }

/-- A store with the two root columns A and B. -/
def twoColumnsExample : Store :=
  { states := { _columns := [Column.leaf { id := "A" }, Column.leaf { id := "B" }] } }

/-! ## index.js: `commit` -/

/-- The own properties of the object `mutations` of index.js. -/
def registeredMutations : List String :=
  ["setData", "insertColumn", "removeColumn", "sort", "changeSortCondition", "filterChange",
   "toggleAllSelection", "rowSelectedChanged", "setHoverRow", "setCurrentRow"]

/-- The properties an object literal inherits from `Object.prototype`. -/
def objectPrototypeNames : List String :=
  ["constructor", "toString", "toLocaleString", "valueOf", "hasOwnProperty", "isPrototypeOf",
   "propertyIsEnumerable", "__proto__", "__defineGetter__", "__defineSetter__",
   "__lookupGetter__", "__lookupSetter__"]

/-- The arguments `...args` of a `commit`, as each mutation reads them: `data`
for `setData`; `column`, `index` and `parent` for `insertColumn` and
`removeColumn`; `sortOptions` for `sort`; `sortCondition` for
`changeSortCondition`; `filterOptions` for `filterChange`; `row` for
`rowSelectedChanged`; `hoverRow` for `setHoverRow`; `currentRow` for
`setCurrentRow`.  A mutation does not read the arguments of the others. -/
structure CommitArgs where
  data : DataArr := { ref := 0, rows := [] }
  column : Column := Column.leaf { id := "" }
  index : Option Nat := none
  parent : Option String := none
  sortOptions : SortOptions := {}
  sortCondition : Option SortConditionOptions := none
  filterOptions : FilterChangeOptions := {}
  row : Row := ⟨0, 0⟩
  hoverRow : Option Row := none
  currentRow : Option RowArg := none

/-- The function `commit` of index.js.  The test `if (mutations[name])` also
finds the properties `mutations` inherits from `Object.prototype`; such a
property is then called with `this = null` and the states as argument:
`toString` and `constructor` return without effect, `__proto__` is not a
function and the other inherited functions reject `this = null`, which raises
a TypeError.  Any other name raises the error `Action not found`. -/
def commit (u : Util) (s : Store) (name : String) (args : CommitArgs) : Outcome :=
  if name = "setData" then mutations.setData u s args.data
  else if name = "insertColumn" then
    Outcome.ok (mutations.insertColumn s args.column args.index args.parent)
  else if name = "removeColumn" then
    Outcome.ok (mutations.removeColumn s args.column args.parent)
  else if name = "sort" then Outcome.ok (mutations.sort u s args.sortOptions)
  else if name = "changeSortCondition" then
    Outcome.ok (mutations.changeSortCondition u s args.sortCondition)
  else if name = "filterChange" then Outcome.ok (mutations.filterChange u s args.filterOptions)
  else if name = "toggleAllSelection" then Outcome.ok (mutations.toggleAllSelection s)
  else if name = "rowSelectedChanged" then Outcome.ok (mutations.rowSelectedChanged s args.row)
  else if name = "setHoverRow" then Outcome.ok (mutations.setHoverRow s args.hoverRow)
  else if name = "setCurrentRow" then Outcome.ok (mutations.setCurrentRow s args.currentRow)
  else if name = "toString" ∨ name = "constructor" then Outcome.ok s
  else if name ∈ objectPrototypeNames then Outcome.throw Err.typeError s
  else Outcome.throw (Err.actionNotFound name) s

/-- A store whose data holds the same row object twice, with a `selectable`
predicate that lets the second position pass only. -/
def repeatedRowExample : Store :=
  { states :=
      { data := [⟨1, 1⟩, ⟨1, 1⟩]
        selection := []
        selectOnIndeterminate := true
        selectable := some (fun _ index => decide (index = 1)) } }

/-- A store with three rows, the first one selected, and a `selectable`
predicate that lets the rows of an id other than 1 pass. -/
def selectableExample : Store :=
  { states :=
      { data := [⟨1, 1⟩, ⟨2, 2⟩, ⟨3, 3⟩]
        selection := [⟨1, 1⟩]
        selectOnIndeterminate := true
        selectable := some (fun row _ => decide (row.id ≠ 1)) } }

/-- A store with the leaf columns A (property `name`, sorted ascending, the
sorting column) and B (property `age`). -/
def sortExample : Store :=
  { states :=
      { columns :=
          [Column.leaf { id := "A", property := some "name", order := some "ascending" },
           Column.leaf { id := "B", property := some "age" }]
        sortingColumn :=
          some (Column.leaf { id := "A", property := some "name", order := some "ascending" })
        sortProp := some "name"
        sortOrder := some "ascending" } }

/-- A store in lazy tree mode whose tree map holds the lazy root of key 1 with
an empty children list, as `normalize` writes it, and whose `lazyTreeNodeMap`
holds the loaded row of key 10 under the key 1. -/
def lazyLoadedExample : Store :=
  { states := { rowKey := some Row.id }
    hasLoad := true
    tree :=
      { lazy := true
        treeData :=
          [(1, { children := [], lazy := some true, level := some 0, expanded := some true
                 loaded := some true, loading := some false })]
        lazyTreeNodeMap := [(1, [⟨10, 10⟩])] } }

/-- A column c1 whose filter method keeps the rows of the given id. -/
def idFilterColumn : Column :=
  Column.leaf { id := "c1", filterMethod := some (fun v r => decide (r.id = v)) }

/-- A store holding the rows of id 1 and 2, the row of id 1 selected and the
flag `isAllSelected` false, with the column c1 that filters by the id. -/
def filterSelectedExample : Store :=
  { states :=
      { _data := some { ref := 1, rows := [⟨1, 1⟩, ⟨2, 2⟩] }
        filteredData := [⟨1, 1⟩, ⟨2, 2⟩]
        data := [⟨1, 1⟩, ⟨2, 2⟩]
        columns := [idFilterColumn]
        selection := [⟨1, 1⟩]
        isAllSelected := false } }

/-! ## Theorems -/

mutual
/-- One step of the flatten loop appends the leaves of the column. -/
theorem doFlattenPush_eq : ∀ c : Column, doFlattenPush c = leafColumnsOf c
  | Column.leaf i => by simp [doFlattenPush, leafColumnsOf]
  | Column.group i children => by
      simp [doFlattenPush, leafColumnsOf, doFlattenLoop_eq children []]
/-- The flatten loop appends the leaves of the columns it walks to `result`. -/
theorem doFlattenLoop_eq : ∀ (cs result : List Column),
    doFlattenLoop cs result = result ++ flatten cs
  | [], result => by simp [doFlattenLoop, flatten]
  | c :: rest, result => by
      simp [doFlattenLoop, flatten, doFlattenLoop_eq rest, doFlattenPush_eq c]
end

/-- The loop of `doFlattenColumns` computes the flatten of the specification. -/
theorem doFlattenColumns_eq_flatten (cs : List Column) :
    doFlattenColumns cs = flatten cs := by
  simp [doFlattenColumns, doFlattenLoop_eq]

theorem filter_isFixedLeft_promote (c0 : Column) (rest : List Column)
    (h : c0.fixed.truthy = false) :
    (c0.setFixed Fixed.tru :: rest).filter isFixedLeft =
      c0.setFixed Fixed.tru :: (c0 :: rest).filter isFixedLeft := by
  have h1 : isFixedLeft (c0.setFixed Fixed.tru) = true := by
    cases c0 <;> rfl
  have h2 : isFixedLeft c0 = false := by
    cases c0 <;> simp_all [isFixedLeft, Column.fixed, Column.info, Fixed.truthy] <;>
      split <;> simp_all [Fixed.truthy]
  simp [List.filter_cons, h1, h2]

theorem filter_isFixedRight_promote (c0 : Column) (rest : List Column)
    (h : c0.fixed.truthy = false) :
    (c0.setFixed Fixed.tru :: rest).filter isFixedRight =
      (c0 :: rest).filter isFixedRight := by
  have h1 : isFixedRight (c0.setFixed Fixed.tru) = false := by
    cases c0 <;> rfl
  have h2 : isFixedRight c0 = false := by
    cases c0 <;> simp_all [isFixedRight, Column.fixed, Column.info, Fixed.truthy] <;>
      split <;> simp_all [Fixed.truthy]
  simp [List.filter_cons, h1, h2]

/-- C1. After `updateColumns` the list `columns` is
flatten(fixed-left roots) ++ flatten(unfixed roots) ++ flatten(fixed-right roots),
the partitions being those of the root list as the call leaves it, where
`flatten` lists the leaf columns depth first and left to right and discards
every group node.  The root list the call leaves is the one it found, except
that a first column of type selection with a falsy `fixed` has `fixed = true`
when some root is fixed-left.  In particular the roots [A, B[C, D], E] with
A fixed-left and E fixed-right give the columns [A, C, D, E]. -/
theorem C1_updateColumns_columns (s : Store) :
    (updateColumns s).states.columns =
        flatten ((updateColumns s).states._columns.filter isFixedLeft)
          ++ flatten ((updateColumns s).states._columns.filter isNotFixed)
          ++ flatten ((updateColumns s).states._columns.filter isFixedRight)
    ∧ (updateColumns s).states._columns =
        (match s.states._columns with
         | c0 :: rest =>
             if (∃ c ∈ s.states._columns, isFixedLeft c = true)
                 ∧ c0.info.type = "selection" ∧ c0.fixed.truthy = false
             then c0.setFixed Fixed.tru :: rest else c0 :: rest
         | [] => [])
    ∧ (∀ a b c d e : ColInfo,
        (updateColumns { s with states := { s.states with _columns :=
          [Column.leaf { a with fixed := Fixed.left },
           Column.group { b with fixed := Fixed.unset } [Column.leaf c, Column.leaf d],
           Column.leaf { e with fixed := Fixed.right }] } }).states.columns =
        [Column.leaf { a with fixed := Fixed.left }, Column.leaf c, Column.leaf d,
         Column.leaf { e with fixed := Fixed.right }])
    := by
  refine ⟨?_, ?_, ?_⟩
  case refine_3 =>
    intro a b c d e
    simp [updateColumns, isFixedLeft, isFixedRight, isNotFixed, Column.fixed, Column.info,
      Fixed.truthy, doFlattenColumns, doFlattenLoop, doFlattenPush, List.filter_cons]
  all_goals
    have hlen : ∀ l : List Column, (0 < (l.filter isFixedLeft).length) ↔
        ∃ c ∈ l, isFixedLeft c = true := by
      intro l
      induction l with
      | nil => simp
      | cons a l ih =>
        by_cases ha : isFixedLeft a = true
        · simp [List.filter_cons, ha]
        · simp [List.filter_cons, ha, ih]
    cases hc : s.states._columns with
    | nil => simp [updateColumns, hc, doFlattenColumns_eq_flatten, flatten]
    | cons c0 rest =>
      by_cases hp : (∃ c ∈ c0 :: rest, isFixedLeft c = true)
          ∧ c0.info.type = "selection" ∧ c0.fixed.truthy = false
      · have hp1 : (0 < ((c0 :: rest).filter isFixedLeft).length)
            ∧ c0.info.type = "selection" ∧ c0.fixed.truthy = false :=
          ⟨(hlen _).2 hp.1, hp.2⟩
        simp only [updateColumns, hc, gt_iff_lt, hp1, and_self, if_true, hp,
          doFlattenColumns_eq_flatten, List.nil_append]
        try rw [filter_isFixedLeft_promote c0 rest hp.2.2,
          filter_isFixedRight_promote c0 rest hp.2.2]
        try simp
      · have hp1 : ¬ ((0 < ((c0 :: rest).filter isFixedLeft).length)
            ∧ c0.info.type = "selection" ∧ c0.fixed.truthy = false) :=
          fun h => hp ⟨(hlen _).1 h.1, h.2⟩
        simp only [updateColumns, hc, gt_iff_lt, hp1, if_false, hp,
          doFlattenColumns_eq_flatten, List.nil_append]
        try simp

/-- One filter entry of `execFilter` keeps the rows which that entry lets pass. -/
theorem execFilterStep_eq_filter (states : States) (data : List Row) (columnId : String) :
    execFilterStep states data columnId =
      data.filter (filterEntryKeeps states columnId) := by
  have hall : (∀ row, filterEntryKeeps states columnId row = true) →
      data = data.filter (filterEntryKeeps states columnId) := fun hk =>
    (List.filter_eq_self.2 (fun row _ => hk row)).symm
  cases hl : states.filters.lookup columnId with
  | none =>
    simp only [execFilterStep, hl]
    exact hall (fun row => by simp [filterEntryKeeps, hl])
  | some ov =>
    cases ov with
    | none =>
      simp only [execFilterStep, hl]
      exact hall (fun row => by simp [filterEntryKeeps, hl])
    | some values =>
      cases hc : getColumnById states columnId with
      | none =>
        simp only [execFilterStep, hl, hc, ite_self]
        exact hall (fun row => by simp [filterEntryKeeps, hl, hc])
      | some column =>
        cases hf : column.info.filterMethod with
        | none =>
          simp only [execFilterStep, hl, hc, hf, ite_self]
          exact hall (fun row => by simp [filterEntryKeeps, hl, hc, hf])
        | some f =>
          cases hv : values with
          | nil =>
            simp only [execFilterStep, hl, hc, hf, hv, List.length_nil, if_true]
            exact hall (fun row => by simp [filterEntryKeeps, hl, hc, hf, hv])
          | cons v vs =>
            simp only [execFilterStep, hl, hc, hf, hv, List.length_cons]
            rw [if_neg (Nat.succ_ne_zero _)]
            apply List.filter_congr
            intro row _
            simp [filterEntryKeeps, hl, hc, hf, hv]

/-- Filtering entry after entry keeps the rows every entry lets pass. -/
theorem foldl_filter_eq_filter_all {κ : Type} (p : κ → Row → Bool) (keys : List κ)
    (data : List Row) :
    keys.foldl (fun acc k => acc.filter (p k)) data =
      data.filter (fun row => keys.all (fun k => p k row)) := by
  induction keys generalizing data with
  | nil => simp
  | cons k ks ih =>
    simp only [List.foldl_cons, ih, List.filter_filter, List.all_cons]
    congr 1
    funext row
    exact Bool.and_comm _ _

/-- The rows `execFilter` keeps are the raw rows every filter entry lets pass. -/
theorem execFilter_filteredData (s : Store) (d : DataArr) (h : s.states._data = some d) :
    (execFilter s).states.filteredData = d.rows.filter (filterKeeps s.states) := by
  have hstep : execFilterStep s.states =
      fun acc k => acc.filter (filterEntryKeeps s.states k) := by
    funext acc k
    exact execFilterStep_eq_filter s.states acc k
  simp only [execFilter, h, hstep, foldl_filter_eq_filter_all]
  rfl

/-- C2. After `execFilter`, `filteredData` is the raw rows, in their order,
that every filter entry lets pass: the rows r such that for every column id of
the filters map whose value list is present and non-empty and whose column
exists and has a `filterMethod`, some value v of the list has
`filterMethod(v, r, column)` true.  An entry with an empty or absent value
list, or for a column without a `filterMethod`, excludes no row. -/
theorem C2_execFilter_filteredData (s : Store) (d : DataArr)
    (h : s.states._data = some d) :
    (execFilter s).states.filteredData = d.rows.filter (filterKeeps s.states)
    ∧ ∀ row : Row, filterKeeps s.states row = true ↔
        ∀ columnId ∈ s.states.filters.map Prod.fst,
          ∀ (values : List FilterValue) (column : Column)
            (filterMethod : FilterValue → Row → Bool),
            s.states.filters.lookup columnId = some (some values) → values ≠ [] →
            getColumnById s.states columnId = some column →
            column.info.filterMethod = some filterMethod →
            ∃ value ∈ values, filterMethod value row = true := by
  constructor
  · exact execFilter_filteredData s d h
  · intro row
    simp only [filterKeeps, List.all_eq_true]
    constructor
    · intro hall columnId hk values column f hl hv hc hf
      have := hall columnId hk
      simp only [filterEntryKeeps, hl, hc, hf, Bool.or_eq_true, List.isEmpty_iff,
        List.any_eq_true] at this
      rcases this with h0 | h1
      · exact absurd h0 hv
      · exact h1
    · intro hall columnId hk
      cases hl : s.states.filters.lookup columnId with
      | none => simp [filterEntryKeeps, hl]
      | some ov =>
        cases ov with
        | none => simp [filterEntryKeeps, hl]
        | some values =>
          cases hc : getColumnById s.states columnId with
          | none => simp [filterEntryKeeps, hl, hc]
          | some column =>
            cases hf : column.info.filterMethod with
            | none => simp [filterEntryKeeps, hl, hc, hf]
            | some f =>
              by_cases hv : values = []
              · simp [filterEntryKeeps, hl, hc, hf, hv]
              · have := hall columnId hk values column f hl hv hc hf
                simp only [filterEntryKeeps, hl, hc, hf, Bool.or_eq_true, List.any_eq_true]
                exact Or.inr this

/-- C2 at `filterExample`: the rows with id 2 or 3 stay, in their order. -/
theorem C2_execFilter_filteredData_witness :
    (execFilter filterExample).states.filteredData = [⟨11, 2⟩, ⟨12, 3⟩, ⟨13, 2⟩] := by
  rw [(C2_execFilter_filteredData filterExample
    { ref := 1, rows := [⟨10, 1⟩, ⟨11, 2⟩, ⟨12, 3⟩, ⟨13, 2⟩] } rfl).1]
  decide

/-! ### Key indexes -/

theorem KeysMap.get_set (m : KeysMap) (k k' : Key) (v : RowInfo) :
    (m.set k v).get k' = if k = k' then some v else m.get k' := by
  induction m with
  | nil => simp [KeysMap.set, KeysMap.get]
  | cons e rest ih =>
    obtain ⟨k0, old⟩ := e
    by_cases h0 : k0 = k
    · subst h0
      by_cases h1 : k0 = k' <;> simp [KeysMap.set, KeysMap.get, h1]
    · by_cases h1 : k0 = k'
      · subst h1
        have h2 : ¬ k = k0 := fun h => h0 h.symm
        simp [KeysMap.set, KeysMap.get, h0, h2]
      · simp [KeysMap.set, KeysMap.get, h0, h1, ih]

/-- An entry is in a key index exactly when its key is one of the map's keys. -/
theorem KeysMap.get_isSome_iff (m : KeysMap) (k : Key) :
    (m.get k).isSome = true ↔ k ∈ m.map Prod.fst := by
  induction m with
  | nil => simp [KeysMap.get]
  | cons e rest ih =>
    obtain ⟨k0, old⟩ := e
    by_cases h0 : k0 = k
    · simp [KeysMap.get, h0]
    · have h1 : ¬ k = k0 := fun h => h0 h.symm
      simp [KeysMap.get, h0, h1, ih]

theorem KeysMap.keys_set (m : KeysMap) (k : Key) (v : RowInfo) :
    (m.set k v).map Prod.fst = if k ∈ m.map Prod.fst then m.map Prod.fst
      else m.map Prod.fst ++ [k] := by
  induction m with
  | nil => simp [KeysMap.set]
  | cons e rest ih =>
    obtain ⟨k0, old⟩ := e
    by_cases h0 : k0 = k
    · simp [KeysMap.set, h0]
    · have h1 : ¬ k = k0 := fun h => h0 h.symm
      simp only [KeysMap.set, h0, if_false, List.map_cons, ih, List.mem_cons, h1, false_or]
      split <;> simp

theorem KeysMap.nodup_set (m : KeysMap) (k : Key) (v : RowInfo)
    (h : (m.map Prod.fst).Nodup) : ((m.set k v).map Prod.fst).Nodup := by
  rw [KeysMap.keys_set]
  split
  · exact h
  · rename_i hk
    exact List.Nodup.append h (List.nodup_singleton k) (by simpa using hk)

theorem KeysMap.mem_iff_get (m : KeysMap) (h : (m.map Prod.fst).Nodup) (k : Key)
    (info : RowInfo) : (k, info) ∈ m ↔ m.get k = some info := by
  induction m with
  | nil => simp [KeysMap.get]
  | cons e rest ih =>
    obtain ⟨k0, old⟩ := e
    simp only [List.map_cons, List.nodup_cons] at h
    by_cases h0 : k0 = k
    · subst h0
      have hnot : (k0, info) ∉ rest := fun hm => h.1 (List.mem_map_of_mem Prod.fst hm)
      simp only [List.mem_cons, Prod.mk.injEq, true_and, hnot, or_false, KeysMap.get,
        if_true, Option.some.injEq]
      exact eq_comm
    · have h1 : ¬ k = k0 := fun h => h0 h.symm
      simp [KeysMap.get, h0, h1, ih h.2]

theorem getKeysMapLoop_nodup (rk : Row → Key) (l : List Row) (i : Nat) (m : KeysMap)
    (h : (m.map Prod.fst).Nodup) : ((getKeysMapLoop rk l i m).map Prod.fst).Nodup := by
  induction l generalizing i m with
  | nil => simpa [getKeysMapLoop] using h
  | cons x rest ih =>
    simp only [getKeysMapLoop]
    exact ih _ _ (KeysMap.nodup_set m _ _ h)

/-- What a key index holds for a key after the rows of `l` were entered from
position `i` on: an earlier entry, or a row of `l` with that key together
with its position. -/
theorem getKeysMapLoop_get (rk : Row → Key) (l : List Row) (i : Nat) (m : KeysMap)
    (k : Key) (info : RowInfo) (h : (getKeysMapLoop rk l i m).get k = some info) :
    m.get k = some info ∨
      ∃ j, ∃ hj : j < l.length, l.get ⟨j, hj⟩ = info.row ∧ info.index = i + j
        ∧ rk info.row = k := by
  induction l generalizing i m with
  | nil => exact Or.inl (by simpa [getKeysMapLoop] using h)
  | cons x rest ih =>
    simp only [getKeysMapLoop] at h
    rcases ih _ _ h with h1 | ⟨j, hj, hrow, hidx, hkey⟩
    · rw [KeysMap.get_set] at h1
      by_cases hk : getRowIdentity x rk = k
      · rw [if_pos hk] at h1
        have hinfo : info = { row := x, index := i } := (Option.some.inj h1).symm
        refine Or.inr ⟨0, by simp, ?_, ?_, ?_⟩
        · simp [hinfo]
        · simp [hinfo]
        · simpa [hinfo, getRowIdentity] using hk
      · rw [if_neg hk] at h1
        exact Or.inl h1
    · refine Or.inr ⟨j + 1, by simpa using hj, ?_, ?_, hkey⟩
      · simpa using hrow
      · omega

/-- A key has an entry after the loop exactly when it had one before or some
row of `l` has that key. -/
theorem getKeysMapLoop_isSome (rk : Row → Key) (l : List Row) (i : Nat) (m : KeysMap)
    (k : Key) :
    ((getKeysMapLoop rk l i m).get k).isSome = true ↔
      (m.get k).isSome = true ∨ ∃ x ∈ l, rk x = k := by
  induction l generalizing i m with
  | nil => simp [getKeysMapLoop]
  | cons x rest ih =>
    simp only [getKeysMapLoop, ih, KeysMap.get_set, List.mem_cons, exists_eq_or_imp,
      getRowIdentity]
    by_cases hk : rk x = k
    · simp [hk]
    · simp [hk]

/-- A key has an entry in the key index of `l` exactly when a row of `l` has
that key. -/
theorem getKeysMap_isSome (rk : Row → Key) (l : List Row) (k : Key) :
    ((getKeysMap l rk).get k).isSome = true ↔ ∃ x ∈ l, rk x = k := by
  simp [getKeysMap, getKeysMapLoop_isSome, KeysMap.get]

/-- An entry of the key index of `l` is a row of `l` at its position, under its
own key. -/
theorem getKeysMap_get (rk : Row → Key) (l : List Row) (k : Key) (info : RowInfo)
    (h : (getKeysMap l rk).get k = some info) :
    ∃ hj : info.index < l.length, l.get ⟨info.index, hj⟩ = info.row ∧ rk info.row = k := by
  rcases getKeysMapLoop_get rk l 0 [] k info h with h1 | ⟨j, hj, hrow, hidx, hkey⟩
  · simp [KeysMap.get] at h1
  · have : info.index = j := by omega
    subst this
    exact ⟨hj, hrow, hkey⟩

/-- When the rows of `l` have pairwise distinct keys, the key index of `l` holds
every row of `l` with its position. -/
theorem getKeysMap_get_of_nodup (rk : Row → Key) (l : List Row)
    (hnd : (l.map rk).Nodup) (j : Nat) (hj : j < l.length) :
    (getKeysMap l rk).get (rk (l.get ⟨j, hj⟩)) =
      some { row := l.get ⟨j, hj⟩, index := j } := by
  have hsome : ((getKeysMap l rk).get (rk (l.get ⟨j, hj⟩))).isSome = true :=
    (getKeysMap_isSome rk l _).2 ⟨_, List.get_mem l j hj, rfl⟩
  obtain ⟨info, hinfo⟩ := Option.isSome_iff_exists.1 hsome
  obtain ⟨hi, hrow, hkey⟩ := getKeysMap_get rk l _ info hinfo
  have hidx : info.index = j := by
    have h1 : (l.map rk).get ⟨info.index, by simpa using hi⟩ =
        (l.map rk).get ⟨j, by simpa using hj⟩ := by
      simp only [List.get_eq_getElem, List.getElem_map]
      simp only [List.get_eq_getElem] at hrow hkey
      rw [hrow]; exact hkey
    have := (List.Nodup.get_inj_iff hnd).1 h1
    simpa using this
  rw [hinfo]
  congr 1
  cases info with
  | mk row index =>
    simp only at hidx hrow
    subst hidx
    simp [← hrow]

/-! ### Selection -/

/-- The membership test of `updateAllSelected` is membership by key when a row
key is configured and by identity otherwise. -/
theorem isSelectedIn_eq_rowSelected (rowKey : Option (Row → Key)) (selection : List Row)
    (row : Row) : isSelectedIn rowKey selection row = rowSelected rowKey selection row := by
  cases rowKey with
  | none => rfl
  | some rk =>
    rw [Bool.eq_iff_iff]
    simp only [isSelectedIn, rowSelected, getRowIdentity, getKeysMap_isSome,
      List.any_eq_true, decide_eq_true_eq]

/-- The loop of `updateAllSelected`: it ends with `isAllSelected` still true
exactly when every row it visited is selected or not selectable, and then
`selectedCount` has grown by the number of selected rows. -/
theorem allSelectedLoop_spec (rowKey : Option (Row → Key)) (selection : List Row)
    (selectable : Option (Row → Nat → Bool)) (l : List Row) (i cnt : Nat) :
    ((allSelectedLoop rowKey selection selectable l i cnt).1 = true ↔
        ∀ j, ∀ hj : j < l.length,
          selectableAt selectable (l.get ⟨j, hj⟩) (i + j) = true →
          rowSelected rowKey selection (l.get ⟨j, hj⟩) = true)
    ∧ ((allSelectedLoop rowKey selection selectable l i cnt).1 = true →
        ((allSelectedLoop rowKey selection selectable l i cnt).2 = 0 ↔
          cnt = 0 ∧ ∀ x ∈ l, rowSelected rowKey selection x = false)) := by
  induction l generalizing i cnt with
  | nil => simp [allSelectedLoop]
  | cons x rest ih =>
    by_cases hsel : rowSelected rowKey selection x = true
    · have hs : isSelectedIn rowKey selection x = true := by
        rw [isSelectedIn_eq_rowSelected]; exact hsel
      simp only [allSelectedLoop, hs, Bool.not_true, Bool.false_eq_true, if_false]
      obtain ⟨ih1, ih2⟩ := ih (i + 1) (cnt + 1)
      refine ⟨?_, ?_⟩
      · rw [ih1]
        constructor
        · intro h j hj
          cases j with
          | zero => intro _; simpa using hsel
          | succ j =>
            have := h j (by simpa using hj)
            simpa [Nat.add_assoc, Nat.add_comm 1 j] using this
        · intro h j hj
          have := h (j + 1) (by simpa using hj)
          simpa [Nat.add_assoc, Nat.add_comm 1 j] using this
      · intro hb
        rw [ih2 hb]
        constructor
        · intro h; exact absurd h.1 (Nat.succ_ne_zero cnt)
        · intro h
          have := h.2 x (List.mem_cons_self x rest)
          rw [hsel] at this
          exact absurd this (by simp)
    · have hsel0 : rowSelected rowKey selection x = false := by simpa using hsel
      have hs : isSelectedIn rowKey selection x = false := by
        rw [isSelectedIn_eq_rowSelected]; exact hsel0
      cases selectable with
      | none =>
        simp only [allSelectedLoop, hs, Bool.not_false, if_true, Bool.false_eq_true,
          false_iff, false_imp_iff, and_true, not_forall]
        exact ⟨0, by simp, by simp [selectableAt], by simpa using hsel0⟩
      | some f =>
        by_cases hf : f x i = true
        · simp only [allSelectedLoop, hs, Bool.not_false, if_true, hf, Bool.false_eq_true,
            false_iff, false_imp_iff, and_true, not_forall]
          exact ⟨0, by simp, by simpa [selectableAt] using hf, by simpa using hsel0⟩
        · have hf0 : f x i = false := by simpa using hf
          simp only [allSelectedLoop, hs, Bool.not_false, if_true, hf0, Bool.false_eq_true,
            if_false]
          obtain ⟨ih1, ih2⟩ := ih (i + 1) cnt
          refine ⟨?_, ?_⟩
          · rw [ih1]
            constructor
            · intro h j hj
              cases j with
              | zero =>
                intro hsa
                exact absurd (by simpa [selectableAt] using hsa) hf
              | succ j =>
                have := h j (by simpa using hj)
                simpa [Nat.add_assoc, Nat.add_comm 1 j] using this
            · intro h j hj
              have := h (j + 1) (by simpa using hj)
              simpa [Nat.add_assoc, Nat.add_comm 1 j] using this
          · intro hb
            rw [ih2 hb]
            simp [hsel0]

/-- The flag `updateAllSelected` computes. -/
theorem updateAllSelected_flag_iff (s : Store) :
    (updateAllSelected s).states.isAllSelected = true ↔
      (∀ i, ∀ hi : i < s.states.data.length,
          selectableAt s.states.selectable (s.states.data.get ⟨i, hi⟩) i = true →
          rowSelected s.states.rowKey s.states.selection (s.states.data.get ⟨i, hi⟩) = true)
      ∧ ∃ row ∈ s.states.data,
          rowSelected s.states.rowKey s.states.selection row = true := by
  obtain ⟨h1, h2⟩ := allSelectedLoop_spec s.states.rowKey s.states.selection
    s.states.selectable s.states.data 0 0
  simp only [Nat.zero_add] at h1
  by_cases hd : s.states.data.length = 0
  · have hnil : s.states.data = [] := List.length_eq_zero.1 hd
    simp [updateAllSelected, hd, hnil]
  · simp only [updateAllSelected, hd, if_false]
    by_cases hb : (allSelectedLoop s.states.rowKey s.states.selection s.states.selectable
        s.states.data 0 0).1 = true
    · have h2 := h2 hb
      by_cases hc : (allSelectedLoop s.states.rowKey s.states.selection s.states.selectable
          s.states.data 0 0).2 = 0
      · simp only [hc, if_true, Bool.false_eq_true, false_iff, not_and, not_exists]
        intro _ row hrow
        have := (h2.1 hc).2 row hrow
        simp [this]
      · simp only [hc, if_false, hb, true_iff]
        refine ⟨h1.1 hb, ?_⟩
        by_contra hne
        apply hc
        rw [h2]
        refine ⟨rfl, fun x hx => ?_⟩
        by_contra hx1
        exact hne ⟨x, hx, by simpa using hx1⟩
    · have hb0 : (allSelectedLoop s.states.rowKey s.states.selection s.states.selectable
          s.states.data 0 0).1 = false := by simpa using hb
      have : ¬ ∀ i, ∀ hi : i < s.states.data.length,
          selectableAt s.states.selectable (s.states.data.get ⟨i, hi⟩) i = true →
          rowSelected s.states.rowKey s.states.selection (s.states.data.get ⟨i, hi⟩) = true :=
        fun h => hb (h1.2 h)
      simp only [hb0, ite_self, Bool.false_eq_true, false_iff, not_and]
      intro h
      exact absurd h this

/-- C3. After `updateAllSelected`, `isAllSelected` is true if and only if every
selectable row of the data is selected and at least one row of the data is
selected; a row counts as selected by its key when a row key is configured
and by identity otherwise, and every row is selectable when no `selectable`
predicate is configured. -/
theorem C3_updateAllSelected_isAllSelected (s : Store) :
    (updateAllSelected s).states.isAllSelected = true ↔
      (∀ i, ∀ hi : i < s.states.data.length,
          selectableAt s.states.selectable (s.states.data.get ⟨i, hi⟩) i = true →
          rowSelected s.states.rowKey s.states.selection (s.states.data.get ⟨i, hi⟩) = true)
      ∧ ∃ row ∈ s.states.data,
          rowSelected s.states.rowKey s.states.selection row = true :=
  updateAllSelected_flag_iff s

/-- Membership after `toggleRowStatus` with a forced state: the toggled row has
the forced state, every other row is as before. -/
theorem toggleRowStatus_force_mem (statusArr : List Row) (row : Row) (v : Bool) (r : Row) :
    r ∈ (toggleRowStatus statusArr row (some v)).1 ↔
      if r = row then v = true else r ∈ statusArr := by
  by_cases hin : row ∈ statusArr <;> by_cases hr : r = row <;> cases v <;>
    simp [toggleRowStatus, hin, hr]

/-- Membership after the loop of `_toggleAllSelection`: a row that the loop
met at a selectable position has the target state, every other row is as
before. -/
theorem toggleAllLoop_mem (selectable : Option (Row → Nat → Bool)) (value : Bool)
    (l : List Row) (i : Nat) (selection : List Row) (changed : Bool) (r : Row) :
    r ∈ (toggleAllLoop selectable value l i (selection, changed)).1 ↔
      ((∃ j, ∃ hj : j < l.length, l.get ⟨j, hj⟩ = r
          ∧ selectableAt selectable (l.get ⟨j, hj⟩) (i + j) = true) ∧ value = true)
      ∨ ((¬ ∃ j, ∃ hj : j < l.length, l.get ⟨j, hj⟩ = r
          ∧ selectableAt selectable (l.get ⟨j, hj⟩) (i + j) = true) ∧ r ∈ selection) := by
  induction l generalizing i selection changed with
  | nil => simp [toggleAllLoop]
  | cons x rest ih =>
    have hsplit : (∃ j, ∃ hj : j < (x :: rest).length, (x :: rest).get ⟨j, hj⟩ = r
          ∧ selectableAt selectable ((x :: rest).get ⟨j, hj⟩) (i + j) = true) ↔
        (x = r ∧ selectableAt selectable x i = true) ∨
          ∃ j, ∃ hj : j < rest.length, rest.get ⟨j, hj⟩ = r
            ∧ selectableAt selectable (rest.get ⟨j, hj⟩) (i + 1 + j) = true := by
      constructor
      · rintro ⟨j, hj, h1, h2⟩
        cases j with
        | zero => exact Or.inl ⟨by simpa using h1, by simpa using h2⟩
        | succ j =>
          refine Or.inr ⟨j, by simpa using hj, by simpa using h1, ?_⟩
          simpa [Nat.add_assoc, Nat.add_comm 1 j] using h2
      · rintro (⟨h1, h2⟩ | ⟨j, hj, h1, h2⟩)
        · exact ⟨0, by simp, by simpa using h1, by simpa using h2⟩
        · refine ⟨j + 1, by simpa using hj, by simpa using h1, ?_⟩
          simpa [Nat.add_assoc, Nat.add_comm 1 j] using h2
    rw [hsplit]
    generalize hQ : (∃ j, ∃ hj : j < rest.length, rest.get ⟨j, hj⟩ = r
            ∧ selectableAt selectable (rest.get ⟨j, hj⟩) (i + 1 + j) = true) = Q at ih ⊢
    have ih1 := fun sel ch => ih (i + 1) sel ch
    rw [hQ] at ih1
    have htoggled : ∀ ch : Bool,
        (r ∈ (toggleAllLoop selectable value rest (i + 1)
            ((toggleRowStatus selection x (some value)).1, ch)).1 ↔
          ((x = r ∨ Q) ∧ value = true) ∨ (¬ (x = r ∨ Q) ∧ r ∈ selection)) := by
      intro ch
      rw [ih1, toggleRowStatus_force_mem]
      by_cases hx : x = r
      · subst hx
        by_cases hq : Q <;> simp [hq]
      · have hx1 : ¬ r = x := fun h => hx h.symm
        simp [hx, hx1]
    cases selectable with
    | none =>
      simp only [toggleAllLoop, selectableAt, and_true] at htoggled ⊢
      exact htoggled _
    | some f =>
      by_cases hf : f x i = true
      · simp only [toggleAllLoop, hf, if_true, selectableAt, and_true] at htoggled ⊢
        exact htoggled _
      · have hf0 : f x i = false := by simpa using hf
        simp only [toggleAllLoop, hf0, Bool.false_eq_true, if_false, selectableAt,
          and_false, false_or]
        exact ih1 _ _

/-- What `_toggleAllSelection` leaves behind: the flag is the target state, and
a row is selected afterwards exactly when the loop met it at a selectable
position and the target state is true, or it was not met so and was selected
before. -/
theorem toggleAllSelection_effect (s : Store) (r : Row) :
    (_toggleAllSelection s).states.isAllSelected = toggleAllValue s.states
    ∧ (_toggleAllSelection s).states.data = s.states.data
    ∧ (r ∈ (_toggleAllSelection s).states.selection ↔
        ((∃ j, ∃ hj : j < s.states.data.length, s.states.data.get ⟨j, hj⟩ = r
            ∧ selectableAt s.states.selectable (s.states.data.get ⟨j, hj⟩) j = true)
          ∧ toggleAllValue s.states = true)
        ∨ ((¬ ∃ j, ∃ hj : j < s.states.data.length, s.states.data.get ⟨j, hj⟩ = r
            ∧ selectableAt s.states.selectable (s.states.data.get ⟨j, hj⟩) j = true)
          ∧ r ∈ s.states.selection)) := by
  have h := toggleAllLoop_mem s.states.selectable (toggleAllValue s.states) s.states.data 0
    s.states.selection false r
  simp only [Nat.zero_add] at h
  refine ⟨?_, ?_, ?_⟩
  · simp only [_toggleAllSelection, Store.emit]
    split <;> rfl
  · simp only [_toggleAllSelection, Store.emit]
    split <;> rfl
  · rw [← h]
    simp only [_toggleAllSelection, Store.emit]
    split <;> rfl

/-- C4, counterexample.  With `selectOnIndeterminate` on, nothing marked as all
selected and one of two rows selected, the claimed target state
`!(isAllSelected || anySelected)` is false, yet the call selects every row and
sets the flag: the target state it applies is true. -/
theorem C4_counterexample :
    indeterminateExample.states.selectOnIndeterminate = true
    ∧ (!(indeterminateExample.states.isAllSelected
          || decide (indeterminateExample.states.selection ≠ []))) = false
    ∧ (mutations.toggleAllSelection indeterminateExample).states.selection
        = [⟨1, 1⟩, ⟨2, 2⟩]
    ∧ (mutations.toggleAllSelection indeterminateExample).states.isAllSelected = true := by
  decide

/-- C4, as amended.  The target state that `toggleAllSelection` applies is
`!isAllSelected` when `selectOnIndeterminate` is true and
`!(isAllSelected || anySelected)` when it is false, anySelected meaning that
the selection is not empty: the flag `isAllSelected` is set to it, and every
data row at a selectable position is selected afterwards exactly when it is
true. -/
theorem C4_toggleAllSelection_target (s : Store) :
    (mutations.toggleAllSelection s).states.isAllSelected =
        (if s.states.selectOnIndeterminate = true then !s.states.isAllSelected
         else !(s.states.isAllSelected || decide (s.states.selection ≠ [])))
    ∧ ∀ i, ∀ hi : i < s.states.data.length,
        selectableAt s.states.selectable (s.states.data.get ⟨i, hi⟩) i = true →
        (s.states.data.get ⟨i, hi⟩ ∈ (mutations.toggleAllSelection s).states.selection ↔
          (if s.states.selectOnIndeterminate = true then !s.states.isAllSelected
           else !(s.states.isAllSelected || decide (s.states.selection ≠ []))) = true) := by
  have hv : toggleAllValue s.states =
      (if s.states.selectOnIndeterminate = true then !s.states.isAllSelected
       else !(s.states.isAllSelected || decide (s.states.selection ≠ []))) := by
    unfold toggleAllValue
    split
    · rfl
    · simp
  refine ⟨?_, ?_⟩
  · rw [← hv]
    exact (toggleAllSelection_effect s ⟨0, 0⟩).1
  · intro i hi hsel
    rw [← hv]
    have h := (toggleAllSelection_effect s (s.states.data.get ⟨i, hi⟩)).2.2
    have hex : ∃ j, ∃ hj : j < s.states.data.length,
        s.states.data.get ⟨j, hj⟩ = s.states.data.get ⟨i, hi⟩
          ∧ selectableAt s.states.selectable (s.states.data.get ⟨j, hj⟩) j = true :=
      ⟨i, hi, rfl, hsel⟩
    unfold mutations.toggleAllSelection
    rw [h]
    constructor
    · rintro (⟨_, hval⟩ | ⟨hno, _⟩)
      · exact hval
      · exact absurd hex hno
    · intro hval
      exact Or.inl ⟨hex, hval⟩

/-- C5, on the code.  After `toggleAllSelection` the flag `isAllSelected` is the
target state the call assigned, whatever the data, and the data is unchanged;
nothing recomputes the flag.  When the data has a row at a selectable
position, the flag is true if and only if every selectable row of the data is
in the selection and at least one row of the data is in the selection.  When
the data has no such row (no data, or no selectable row), the selection is left
as it was and the flag is the target state all the same: on the store without
data and without selection the call sets `isAllSelected` to true, where
`updateAllSelected` computes false. -/
theorem C5_toggleAllSelection_isAllSelected :
    (∀ s : Store,
        (mutations.toggleAllSelection s).states.isAllSelected = toggleAllValue s.states
        ∧ (mutations.toggleAllSelection s).states.data = s.states.data)
    ∧ (∀ s : Store,
        (∃ i, ∃ hi : i < s.states.data.length,
          selectableAt s.states.selectable (s.states.data.get ⟨i, hi⟩) i = true) →
        ((mutations.toggleAllSelection s).states.isAllSelected = true ↔
          (∀ i, ∀ hi : i < s.states.data.length,
            selectableAt s.states.selectable (s.states.data.get ⟨i, hi⟩) i = true →
            s.states.data.get ⟨i, hi⟩ ∈ (mutations.toggleAllSelection s).states.selection)
          ∧ ∃ row ∈ s.states.data,
              row ∈ (mutations.toggleAllSelection s).states.selection))
    ∧ (∀ s : Store,
        (¬ ∃ i, ∃ hi : i < s.states.data.length,
          selectableAt s.states.selectable (s.states.data.get ⟨i, hi⟩) i = true) →
        ∀ r, r ∈ (mutations.toggleAllSelection s).states.selection ↔ r ∈ s.states.selection)
    ∧ emptyExample.states.data = []
    ∧ emptyExample.states.selection = []
    ∧ (mutations.toggleAllSelection emptyExample).states.isAllSelected = true
    ∧ (updateAllSelected (mutations.toggleAllSelection emptyExample)).states.isAllSelected
        = false := by
  refine ⟨?_, ?_, ?_, by decide, by decide, by decide, by decide⟩
  · intro s
    unfold mutations.toggleAllSelection
    exact ⟨(toggleAllSelection_effect s ⟨0, 0⟩).1, (toggleAllSelection_effect s ⟨0, 0⟩).2.1⟩
  · intro s h
    have hmem : ∀ i, ∀ hi : i < s.states.data.length,
        selectableAt s.states.selectable (s.states.data.get ⟨i, hi⟩) i = true →
        (s.states.data.get ⟨i, hi⟩ ∈ (_toggleAllSelection s).states.selection ↔
          toggleAllValue s.states = true) := by
      intro i hi hsel
      rw [(toggleAllSelection_effect s (s.states.data.get ⟨i, hi⟩)).2.2]
      have hex : ∃ j, ∃ hj : j < s.states.data.length,
          s.states.data.get ⟨j, hj⟩ = s.states.data.get ⟨i, hi⟩
            ∧ selectableAt s.states.selectable (s.states.data.get ⟨j, hj⟩) j = true :=
        ⟨i, hi, rfl, hsel⟩
      constructor
      · rintro (⟨_, hval⟩ | ⟨hno, _⟩)
        · exact hval
        · exact absurd hex hno
      · intro hval
        exact Or.inl ⟨hex, hval⟩
    unfold mutations.toggleAllSelection
    rw [(toggleAllSelection_effect s ⟨0, 0⟩).1]
    obtain ⟨i0, hi0, hsel0⟩ := h
    constructor
    · intro hval
      refine ⟨fun i hi hsel => (hmem i hi hsel).2 hval, ?_⟩
      exact ⟨_, List.get_mem _ i0 hi0, (hmem i0 hi0 hsel0).2 hval⟩
    · rintro ⟨hall, _⟩
      exact (hmem i0 hi0 hsel0).1 (hall i0 hi0 hsel0)
  · intro s hno r
    unfold mutations.toggleAllSelection
    rw [(toggleAllSelection_effect s r).2.2]
    constructor
    · rintro (⟨⟨j, hj, _, hsel⟩, _⟩ | ⟨_, hin⟩)
      · exact absurd ⟨j, hj, hsel⟩ hno
      · exact hin
    · intro hin
      refine Or.inr ⟨?_, hin⟩
      rintro ⟨j, hj, _, hsel⟩
      exact hno ⟨j, hj, hsel⟩

/-- Membership after `toggleRowStatus` without a forced state: the membership
of the toggled row is flipped, every other row is as before. -/
theorem toggleRowStatus_flip_mem (statusArr : List Row) (row r : Row) :
    r ∈ (toggleRowStatus statusArr row none).1 ↔
      (r = row ∧ row ∉ statusArr) ∨ (r ≠ row ∧ r ∈ statusArr) := by
  by_cases hin : row ∈ statusArr
  · by_cases hr : r = row
    · subst hr; simp [toggleRowStatus, hin]
    · simp [toggleRowStatus, hin, hr]
  · by_cases hr : r = row
    · subst hr; simp [toggleRowStatus, hin]
    · simp [toggleRowStatus, hin, hr]

/-- Whether a row counts as selected depends on the members of the selection
only, not on their order. -/
theorem rowSelected_congr (rowKey : Option (Row → Key)) (a b : List Row)
    (h : ∀ r, r ∈ a ↔ r ∈ b) (x : Row) : rowSelected rowKey a x = rowSelected rowKey b x := by
  cases rowKey with
  | none => simp [rowSelected, h x]
  | some rk =>
    rw [Bool.eq_iff_iff]
    simp only [rowSelected, List.any_eq_true, decide_eq_true_eq]
    constructor
    · rintro ⟨y, hy, hk⟩; exact ⟨y, (h y).1 hy, hk⟩
    · rintro ⟨y, hy, hk⟩; exact ⟨y, (h y).2 hy, hk⟩

/-- The flag `updateAllSelected` computes is the same for two stores that agree
on the data, the row key, the `selectable` predicate and the members of the
selection. -/
theorem updateAllSelected_flag_congr (s t : Store) (hd : s.states.data = t.states.data)
    (hk : s.states.rowKey = t.states.rowKey) (hp : s.states.selectable = t.states.selectable)
    (hm : ∀ r, r ∈ s.states.selection ↔ r ∈ t.states.selection) :
    (updateAllSelected s).states.isAllSelected = (updateAllSelected t).states.isAllSelected := by
  rw [Bool.eq_iff_iff, updateAllSelected_flag_iff, updateAllSelected_flag_iff]
  have hsel : ∀ x, rowSelected s.states.rowKey s.states.selection x =
      rowSelected t.states.rowKey t.states.selection x := by
    intro x
    rw [hk]
    exact rowSelected_congr _ _ _ hm x
  simp only [hsel, hp]
  rw [hd]

/-- What `toggleRowSelection` changes: only the selection, where the membership
of the toggled row is flipped. -/
theorem toggleRowSelection_effect (s : Store) (row : Row) (emitChange : Bool) :
    (toggleRowSelection s row none emitChange).states.data = s.states.data
    ∧ (toggleRowSelection s row none emitChange).states.rowKey = s.states.rowKey
    ∧ (toggleRowSelection s row none emitChange).states.selectable = s.states.selectable
    ∧ ∀ r, r ∈ (toggleRowSelection s row none emitChange).states.selection ↔
        (r = row ∧ row ∉ s.states.selection) ∨ (r ≠ row ∧ r ∈ s.states.selection) := by
  have hsel : (toggleRowSelection s row none emitChange).states.selection =
      (toggleRowStatus s.states.selection row none).1 := by
    simp only [toggleRowSelection, Store.emit]
    split <;> (try split) <;> rfl
  refine ⟨?_, ?_, ?_, ?_⟩
  · simp only [toggleRowSelection, Store.emit]; split <;> (try split) <;> rfl
  · simp only [toggleRowSelection, Store.emit]; split <;> (try split) <;> rfl
  · simp only [toggleRowSelection, Store.emit]; split <;> (try split) <;> rfl
  · intro r
    rw [hsel]
    exact toggleRowStatus_flip_mem _ _ _

/-- What `updateAllSelected` leaves alone. -/
theorem updateAllSelected_frame (s : Store) :
    (updateAllSelected s).states.data = s.states.data
    ∧ (updateAllSelected s).states.rowKey = s.states.rowKey
    ∧ (updateAllSelected s).states.selectable = s.states.selectable
    ∧ (updateAllSelected s).states.selection = s.states.selection := by
  simp only [updateAllSelected]
  split <;> exact ⟨rfl, rfl, rfl, rfl⟩

/-- C6, counterexample.  At `filterSelectedExample` the flag `isAllSelected` is
false, as `updateAllSelected` computes it.  A filter change to the rows of id 1
leaves the row of id 1, which is selected, as the only visible row, and leaves
the flag false.  Toggling that row twice from there ends with the selection as
before and `isAllSelected` true.  Likewise, `toggleAllSelection` on the store
without data leaves `isAllSelected` true; toggling a row twice from there ends
with the selection empty as before and `isAllSelected` false. -/
theorem C6_counterexample :
    (updateAllSelected filterSelectedExample).states.isAllSelected
        = filterSelectedExample.states.isAllSelected
    ∧ (mutations.filterChange exampleUtil filterSelectedExample
        { column := [idFilterColumn], values := some [1] }).states.data = [⟨1, 1⟩]
    ∧ (mutations.filterChange exampleUtil filterSelectedExample
        { column := [idFilterColumn], values := some [1] }).states.selection
        = [⟨1, 1⟩]
    ∧ (mutations.filterChange exampleUtil filterSelectedExample
        { column := [idFilterColumn], values := some [1] }).states.isAllSelected
        = false
    ∧ (mutations.rowSelectedChanged (mutations.rowSelectedChanged
        (mutations.filterChange exampleUtil filterSelectedExample
          { column := [idFilterColumn], values := some [1] })
        ⟨1, 1⟩) ⟨1, 1⟩).states.selection = [⟨1, 1⟩]
    ∧ (mutations.rowSelectedChanged (mutations.rowSelectedChanged
        (mutations.filterChange exampleUtil filterSelectedExample
          { column := [idFilterColumn], values := some [1] })
        ⟨1, 1⟩) ⟨1, 1⟩).states.isAllSelected = true
    ∧ (mutations.toggleAllSelection emptyExample).states.isAllSelected = true
    ∧ (mutations.toggleAllSelection emptyExample).states.selection = []
    ∧ (mutations.rowSelectedChanged (mutations.rowSelectedChanged
        (mutations.toggleAllSelection emptyExample) ⟨1, 1⟩) ⟨1, 1⟩).states.selection = []
    ∧ (mutations.rowSelectedChanged (mutations.rowSelectedChanged
        (mutations.toggleAllSelection emptyExample) ⟨1, 1⟩) ⟨1, 1⟩).states.isAllSelected
        = false := by
  refine ⟨by decide, by decide, by decide, by decide, by decide, by decide, by decide,
    by decide, by decide, by decide⟩

/-- C6, as amended.  For every state and every row, committing
`rowSelectedChanged(row)` twice in a row restores the selection membership of
every row and leaves `isAllSelected` at the value `updateAllSelected` computes
from the prior data and selection; so the prior value of `isAllSelected` is
restored exactly when the prior flag had that value, as it has after `setData`
or `rowSelectedChanged`. -/
theorem C6_rowSelectedChanged_twice (s : Store) (row : Row) :
    (∀ r, r ∈ (mutations.rowSelectedChanged (mutations.rowSelectedChanged s row)
        row).states.selection ↔ r ∈ s.states.selection)
    ∧ (mutations.rowSelectedChanged (mutations.rowSelectedChanged s row) row).states.isAllSelected
        = (updateAllSelected s).states.isAllSelected
    ∧ ((mutations.rowSelectedChanged (mutations.rowSelectedChanged s row)
          row).states.isAllSelected = s.states.isAllSelected ↔
        s.states.isAllSelected = (updateAllSelected s).states.isAllSelected) := by
  obtain ⟨hd1, hk1, hp1, hm1⟩ := toggleRowSelection_effect s row true
  obtain ⟨fd1, fk1, fp1, fs1⟩ := updateAllSelected_frame (toggleRowSelection s row none true)
  obtain ⟨hd2, hk2, hp2, hm2⟩ := toggleRowSelection_effect
    (updateAllSelected (toggleRowSelection s row none true)) row true
  obtain ⟨fd2, fk2, fp2, fs2⟩ := updateAllSelected_frame (toggleRowSelection
    (updateAllSelected (toggleRowSelection s row none true)) row none true)
  have hmem : ∀ r, r ∈ (toggleRowSelection
      (updateAllSelected (toggleRowSelection s row none true)) row none true).states.selection
      ↔ r ∈ s.states.selection := by
    intro r
    rw [hm2, fs1, hm1, hm1]
    by_cases hr : r = row
    · subst hr
      by_cases hin : r ∈ s.states.selection <;> simp [hin]
    · simp [hr]
  have hval : (mutations.rowSelectedChanged (mutations.rowSelectedChanged s row)
      row).states.isAllSelected = (updateAllSelected s).states.isAllSelected := by
    unfold mutations.rowSelectedChanged
    apply updateAllSelected_flag_congr
    · rw [hd2, fd1, hd1]
    · rw [hk2, fk1, hk1]
    · rw [hp2, fp1, hp1]
    · exact hmem
  refine ⟨?_, hval, ?_⟩
  · intro r
    unfold mutations.rowSelectedChanged
    rw [fs2]
    exact hmem r
  · rw [hval]
    exact eq_comm

/-- C6 at `indeterminateExample`, whose flag is up to date, toggling the first
row: the flag is restored; and at the store `toggleAllSelection` leaves of the
store without data, whose flag is not up to date: the selection is restored and
the flag is the one `updateAllSelected` computes. -/
theorem C6_rowSelectedChanged_twice_witness :
    (mutations.rowSelectedChanged (mutations.rowSelectedChanged indeterminateExample
        ⟨1, 1⟩) ⟨1, 1⟩).states.isAllSelected = indeterminateExample.states.isAllSelected
    ∧ (∀ r, r ∈ (mutations.rowSelectedChanged (mutations.rowSelectedChanged
          (mutations.toggleAllSelection emptyExample) ⟨1, 1⟩) ⟨1, 1⟩).states.selection ↔
        r ∈ (mutations.toggleAllSelection emptyExample).states.selection)
    ∧ (mutations.rowSelectedChanged (mutations.rowSelectedChanged
          (mutations.toggleAllSelection emptyExample) ⟨1, 1⟩) ⟨1, 1⟩).states.isAllSelected
        = (updateAllSelected (mutations.toggleAllSelection emptyExample)).states.isAllSelected :=
  ⟨(C6_rowSelectedChanged_twice indeterminateExample ⟨1, 1⟩).2.2.2 (by decide),
    (C6_rowSelectedChanged_twice (mutations.toggleAllSelection emptyExample) ⟨1, 1⟩).1,
    (C6_rowSelectedChanged_twice (mutations.toggleAllSelection emptyExample) ⟨1, 1⟩).2.1⟩

/-! ### Current row -/

/-- C9, on the code.  `updateCurrentRow(row)` compares its argument with the
current row as the reactive state reads it back.  It emits nothing when `row`
is null and there is no current row, or when `row` is the reactive proxy of the
current row; in every other case it emits exactly one current-change with
payload (row, previous current row).  The current row is `row` afterwards, and
nothing else is touched.  So a plain row object that is already the current
row is announced again: handing the plain row r twice to a store without a
current row emits current-change (r, null) and then current-change (r, r),
where handing its reactive proxy twice emits the first only. -/
theorem C9_updateCurrentRow :
    (∀ (s : Store) (row : Option RowArg),
        (updateCurrentRow s row).emitted =
            s.emitted ++
              (match row with
               | none =>
                   if s.current.currentRow = none then []
                   else [Event.currentChange none s.current.currentRow]
               | some arg =>
                   if arg.reactive = true ∧ s.current.currentRow = some arg.row then []
                   else [Event.currentChange (some arg.row) s.current.currentRow])
        ∧ (updateCurrentRow s row).current.currentRow = row.map RowArg.row
        ∧ (updateCurrentRow s row).current._currentRowKey = s.current._currentRowKey
        ∧ (updateCurrentRow s row).states.selection = s.states.selection
        ∧ (updateCurrentRow s row).states.data = s.states.data)
    ∧ (updateCurrentRow {} (some { row := ⟨1, 1⟩, reactive := false })).current.currentRow
        = some ⟨1, 1⟩
    ∧ (updateCurrentRow (updateCurrentRow {} (some { row := ⟨1, 1⟩, reactive := false }))
        (some { row := ⟨1, 1⟩, reactive := false })).emitted
        = [Event.currentChange (some ⟨1, 1⟩) none,
           Event.currentChange (some ⟨1, 1⟩) (some ⟨1, 1⟩)]
    ∧ (updateCurrentRow (updateCurrentRow {} (some { row := ⟨1, 1⟩, reactive := true }))
        (some { row := ⟨1, 1⟩, reactive := true })).emitted
        = [Event.currentChange (some ⟨1, 1⟩) none] := by
  refine ⟨?_, by decide, by decide, by decide⟩
  intro s row
  cases row with
  | some arg =>
    by_cases h : arg.reactive = true ∧ s.current.currentRow = some arg.row
    · simp [updateCurrentRow, h]
    · simp [updateCurrentRow, h, Store.emit]
  | none =>
    cases h : s.current.currentRow with
    | none => simp [updateCurrentRow, h]
    | some old => simp [updateCurrentRow, h, Store.emit]

/-- C10 at its witness, k = 2 and rows = [{id:1},{id:2}] on a store with the row
key `id` and no data.  `setCurrentRowKey(2)` caches the key and then raises a
TypeError in `setCurrentRowByKey`; the following `setData` raises the same
TypeError when it comes to the cached key, so no current row is ever set, no
current-change is emitted and the cached key is not cleared.  For every store
and key `setCurrentRowKey` raises and leaves the current row as it was. -/
theorem C10_setCurrentRowKey_then_setData :
    (∀ (s : Store) (k : Option Key),
        (setCurrentRowKey s k).error ≠ none
        ∧ (setCurrentRowKey s k).store.current.currentRow = s.current.currentRow
        ∧ (setCurrentRowKey s k).store.emitted = s.emitted)
    ∧ (setCurrentRowKey keyedExample (some 2)).error = some Err.typeError
    ∧ (setCurrentRowKey keyedExample (some 2)).store.current._currentRowKey = some 2
    ∧ (setCurrentRowKey keyedExample (some 2)).store.current.currentRow = none
    ∧ (mutations.setData exampleUtil (setCurrentRowKey keyedExample (some 2)).store
        { ref := 1, rows := [⟨1, 1⟩, ⟨2, 2⟩] }).error = some Err.typeError
    ∧ (mutations.setData exampleUtil (setCurrentRowKey keyedExample (some 2)).store
        { ref := 1, rows := [⟨1, 1⟩, ⟨2, 2⟩] }).store.states.data = [⟨1, 1⟩, ⟨2, 2⟩]
    ∧ (mutations.setData exampleUtil (setCurrentRowKey keyedExample (some 2)).store
        { ref := 1, rows := [⟨1, 1⟩, ⟨2, 2⟩] }).store.current.currentRow = none
    ∧ (mutations.setData exampleUtil (setCurrentRowKey keyedExample (some 2)).store
        { ref := 1, rows := [⟨1, 1⟩, ⟨2, 2⟩] }).store.current._currentRowKey = some 2
    ∧ (mutations.setData exampleUtil (setCurrentRowKey keyedExample (some 2)).store
        { ref := 1, rows := [⟨1, 1⟩, ⟨2, 2⟩] }).store.emitted = [] := by
  refine ⟨?_, by decide⟩
  intro s k
  cases hk : s.states.rowKey with
  | none => simp [setCurrentRowKey, assertRowKey, hk, Outcome.error, Outcome.store]
  | some rk =>
    simp [setCurrentRowKey, assertRowKey, hk, setCurrentRowByKey, Outcome.error, Outcome.store]

/-! ### Reconciling the selection on `setData` -/

/-- In the key index of a selection with pairwise distinct keys, the entry of
the key of a row points at the one position of the selection with that key. -/
theorem getKeysMap_index_of_nodup (rk : Row → Key) (sel0 : List Row)
    (hnd : (sel0.map rk).Nodup) (k : Key) (info : RowInfo)
    (h : (getKeysMap sel0 rk).get k = some info) (i : Nat) (hi : i < sel0.length)
    (hk : rk (sel0.get ⟨i, hi⟩) = k) : info.index = i := by
  obtain ⟨hj, hrow, hkey⟩ := getKeysMap_get rk sel0 k info h
  have h1 : (sel0.map rk).get ⟨info.index, by simpa using hj⟩ =
      (sel0.map rk).get ⟨i, by simpa using hi⟩ := by
    simp only [List.get_eq_getElem, List.getElem_map]
    simp only [List.get_eq_getElem] at hrow hk
    rw [hrow, hkey, hk]
  simpa using (List.Nodup.get_inj_iff hnd).1 h1

/-- The loop of `updateSelectionByRowKey` over the rows `l`, started on a
selection `sel` that has the keys of `sel0` position by position: the result
has the same length and the same keys; a position whose key no row of `l`
has is left as it was, and when the rows of `l` have pairwise distinct keys a
position whose key a row of `l` has holds that row. -/
theorem updateSelectionLoop_spec (rk : Row → Key) (sel0 : List Row)
    (hnd : (sel0.map rk).Nodup) (l : List Row) (sel : List Row)
    (hkeys : sel.map rk = sel0.map rk) :
    (updateSelectionLoop rk (getKeysMap sel0 rk) l sel).map rk = sel0.map rk
    ∧ ∀ i, ∀ hi : i < sel0.length, ∀ hs : i < sel.length,
        ∀ hr : i < (updateSelectionLoop rk (getKeysMap sel0 rk) l sel).length,
        ((∀ row ∈ l, rk row ≠ rk (sel0.get ⟨i, hi⟩)) →
          (updateSelectionLoop rk (getKeysMap sel0 rk) l sel).get ⟨i, hr⟩ = sel.get ⟨i, hs⟩)
        ∧ ((l.map rk).Nodup → ∀ row ∈ l, rk row = rk (sel0.get ⟨i, hi⟩) →
          (updateSelectionLoop rk (getKeysMap sel0 rk) l sel).get ⟨i, hr⟩ = row) := by
  induction l generalizing sel with
  | nil =>
    refine ⟨by simpa [updateSelectionLoop] using hkeys, ?_⟩
    intro i hi hs hr
    simp [updateSelectionLoop]
  | cons x rest ih =>
    have hlen : sel.length = sel0.length := by
      have := congrArg List.length hkeys
      simpa using this
    cases hget : (getKeysMap sel0 rk).get (getRowIdentity x rk) with
    | none =>
      have hno : ∀ i, ∀ hi : i < sel0.length, rk x ≠ rk (sel0.get ⟨i, hi⟩) := by
        intro i hi heq
        have hsome : ((getKeysMap sel0 rk).get (rk x)).isSome = true :=
          (getKeysMap_isSome rk sel0 _).2 ⟨_, List.get_mem sel0 i hi, heq.symm⟩
        simp only [getRowIdentity] at hget
        rw [hget] at hsome
        exact absurd hsome (by simp)
      have hstep : updateSelectionLoop rk (getKeysMap sel0 rk) (x :: rest) sel =
          updateSelectionLoop rk (getKeysMap sel0 rk) rest sel := by
        simp [updateSelectionLoop, hget]
      rw [hstep]
      obtain ⟨ihk, ihp⟩ := ih sel hkeys
      refine ⟨ihk, ?_⟩
      intro i hi hs hr
      obtain ⟨p1, p2⟩ := ihp i hi hs hr
      refine ⟨fun hall => p1 (fun row hrow => hall row (List.mem_cons_of_mem _ hrow)), ?_⟩
      intro hndl row hrow hk
      rcases List.mem_cons.1 hrow with hx | hrest
      · subst hx
        exact absurd hk (hno i hi)
      · have hndl' : (∀ r ∈ rest, ¬ rk r = rk x) ∧ (rest.map rk).Nodup := by
          simpa using hndl
        exact p2 hndl'.2 row hrest hk
    | some info =>
      obtain ⟨hj, hjrow, hjkey⟩ := getKeysMap_get rk sel0 _ info hget
      simp only [getRowIdentity] at hjkey hget
      have hkeyj : rk (sel0.get ⟨info.index, hj⟩) = rk x := by rw [hjrow]; exact hjkey
      have hkeys' : (sel.set info.index x).map rk = sel0.map rk := by
        rw [List.map_set, hkeys]
        apply List.ext_getElem (by simp)
        intro n h1 h2
        rw [List.getElem_set]
        split
        · rename_i hn
          subst hn
          simp only [List.get_eq_getElem] at hkeyj
          simp [hkeyj]
        · rfl
      have hstep : updateSelectionLoop rk (getKeysMap sel0 rk) (x :: rest) sel =
          updateSelectionLoop rk (getKeysMap sel0 rk) rest (sel.set info.index x) := by
        simp [updateSelectionLoop, getRowIdentity, hget]
      rw [hstep]
      obtain ⟨ihk, ihp⟩ := ih (sel.set info.index x) hkeys'
      refine ⟨ihk, ?_⟩
      intro i hi hs hr
      obtain ⟨p1, p2⟩ := ihp i hi (by simpa using hs) hr
      constructor
      · intro hall
        have hne : info.index ≠ i := by
          intro heq
          subst heq
          exact hall x (List.mem_cons_self _ _) hkeyj.symm
        rw [p1 (fun row hrow => hall row (List.mem_cons_of_mem _ hrow))]
        simp only [List.get_eq_getElem]
        exact List.getElem_set_ne hne _
      · intro hndl row hrow hk
        have hndl' : (∀ r ∈ rest, ¬ rk r = rk x) ∧ (rest.map rk).Nodup := by
          simpa using hndl
        rcases List.mem_cons.1 hrow with hx | hrest
        · have hkx : rk x = rk (sel0.get ⟨i, hi⟩) := by rw [← hx]; exact hk
          have hidx : info.index = i :=
            getKeysMap_index_of_nodup rk sel0 hnd _ info hget i hi hkx.symm
          have hnone : ∀ r ∈ rest, rk r ≠ rk (sel0.get ⟨i, hi⟩) := by
            intro r hr' heq
            exact hndl'.1 r hr' (heq.trans hkx.symm)
          rw [p1 hnone, hx]
          simp only [List.get_eq_getElem]
          rw [List.getElem_set]
          simp [hidx]
        · exact p2 hndl'.2 row hrest hk

/-- What `updateCurrentRowData` does to the store: it raises exactly when it
comes to call `setCurrentRowByKey`; it never touches the `states` of index.js
nor those of expand.js, and the only thing it may emit is one current-change. -/
theorem updateCurrentRowData_effect (s : Store) :
    (updateCurrentRowData s).store.states = s.states
    ∧ (updateCurrentRowData s).store.expand = s.expand
    ∧ ((updateCurrentRowData s).store.emitted = s.emitted
        ∨ ∃ old, (updateCurrentRowData s).store.emitted =
            s.emitted ++ [Event.currentChange none (some old)])
    ∧ (updateCurrentRowData s).error =
        (match s.current.currentRow with
         | none => if keyTruthy s.current._currentRowKey then some Err.typeError else none
         | some old =>
             if old ∉ s.current.data.getD [] then
               (match s.current.rowKey with
                | some _ => some Err.typeError
                | none => none)
             else if keyTruthy s.current._currentRowKey then some Err.typeError else none) := by
  unfold updateCurrentRowData
  cases hrow : s.current.currentRow with
  | none =>
    by_cases hk : keyTruthy s.current._currentRowKey = true
    · simp [hrow, hk, setCurrentRowByKey, Outcome.store, Outcome.error]
    · simp [hrow, hk, Outcome.store, Outcome.error]
  | some old =>
    by_cases hin : old ∈ s.current.data.getD []
    · by_cases hk : keyTruthy s.current._currentRowKey = true
      · simp [hrow, hin, hk, setCurrentRowByKey, Outcome.store, Outcome.error]
      · simp [hrow, hin, hk, Outcome.store, Outcome.error]
    · cases hrk : s.current.rowKey with
      | some rk => simp [hrow, hin, hrk, setCurrentRowByKey, Outcome.store, Outcome.error]
      | none => simp [hrow, hin, hrk, Outcome.store, Outcome.error, Store.emit]

/-- Whether `updateCurrentRowData` raises depends on the `states` of current.js
only. -/
theorem updateCurrentRowData_error_congr (s t : Store) (h : s.current = t.current) :
    (updateCurrentRowData s).error = (updateCurrentRowData t).error := by
  rw [(updateCurrentRowData_effect s).2.2.2, (updateCurrentRowData_effect t).2.2.2, h]

/-- The filter and sort pass of `setData`: the visible rows are the raw rows
that pass the filters, sorted; nothing but `_data`, `filteredData` and `data`
is touched. -/
theorem execQuery_setData_effect (u : Util) (s : Store) (d : DataArr) :
    (execQuery u { s with states := { s.states with _data := some d } } false).states.data
        = visibleRows u s.states d.rows
    ∧ (execQuery u { s with states := { s.states with _data := some d } } false).states.selection
        = s.states.selection
    ∧ (execQuery u { s with states := { s.states with _data := some d } } false).states.rowKey
        = s.states.rowKey
    ∧ (execQuery u { s with states := { s.states with _data := some d } }
        false).states.reserveSelection = s.states.reserveSelection
    ∧ (execQuery u { s with states := { s.states with _data := some d } } false).states.selectable
        = s.states.selectable
    ∧ (execQuery u { s with states := { s.states with _data := some d } } false).current
        = s.current
    ∧ (execQuery u { s with states := { s.states with _data := some d } } false).emitted
        = s.emitted := by
  have hf := execFilter_filteredData
    { s with states := { s.states with _data := some d } } d rfl
  have hk : filterKeeps { s.states with _data := some d } = filterKeeps s.states := rfl
  rw [hk] at hf
  refine ⟨?_, rfl, rfl, rfl, rfl, rfl, rfl⟩
  simp only [execQuery, Bool.not_false, if_true, execSort, hf, visibleRows]
  rfl

/-- The cascade of `setData` when the current-row step does not raise: the
selection is reconciled on a store `s3` whose `states` are those left by the
filter and sort pass, and whose log has at most one current-change more. -/
theorem setData_of_current_ok (u : Util) (s : Store) (d : DataArr)
    (hcur : (updateCurrentRowData s).error = none) :
    ∃ s3 : Store,
      s3.states = (execQuery u { s with states := { s.states with _data := some d } }
        false).states
      ∧ (s3.emitted = s.emitted
          ∨ ∃ old, s3.emitted = s.emitted ++ [Event.currentChange none (some old)])
      ∧ mutations.setData u s d =
          (if s.states.reserveSelection = true then
            match s.states.rowKey with
            | none => Outcome.throw Err.rowKeyRequired s3
            | some rk =>
                Outcome.ok (updateTableScrollY (updateAllSelected (updateSelectionByRowKey s3 rk)))
          else if dataInstanceChanged s.states d = true then
            Outcome.ok (updateTableScrollY (updateAllSelected (clearSelection s3)))
          else Outcome.ok (updateTableScrollY (updateAllSelected (cleanSelection s3)))) := by
  obtain ⟨_, _, hkey, hres, _, hcurrent, hemit⟩ := execQuery_setData_effect u s d
  have hc : (updateCurrentRowData (execQuery u
      { s with states := { s.states with _data := some d } } false)).error = none := by
    rw [updateCurrentRowData_error_congr _ s hcurrent]; exact hcur
  obtain ⟨hst, _, hem, _⟩ := updateCurrentRowData_effect (execQuery u
      { s with states := { s.states with _data := some d } } false)
  cases hout : updateCurrentRowData (execQuery u
      { s with states := { s.states with _data := some d } } false) with
  | throw e s2 => rw [hout] at hc; simp [Outcome.error] at hc
  | ok s2 =>
    rw [hout] at hst hem
    simp only [Outcome.store] at hst hem
    rw [hemit] at hem
    refine ⟨updateExpandRows s2, ?_, ?_, ?_⟩
    · simpa [updateExpandRows] using hst
    · simpa [updateExpandRows] using hem
    · have h1 : (updateExpandRows s2).states.reserveSelection = s.states.reserveSelection := by
        simp only [updateExpandRows]; rw [hst, hres]
      have h2 : (updateExpandRows s2).states.rowKey = s.states.rowKey := by
        simp only [updateExpandRows]; rw [hst, hkey]
      simp only [mutations.setData, hout, h1, h2]
      by_cases hr : s.states.reserveSelection = true
      · simp only [hr, if_true]
        cases s.states.rowKey <;> rfl
      · simp only [hr, if_false, Bool.false_eq_true]
        by_cases hch : dataInstanceChanged s.states d = true
        · simp [hch]
        · simp [hch]

/-- C7, counterexample.  Under the reserve policy with the row key `id`, the
row of id 2 is selected and a filter lets only the rows of id 3 pass.  After
`setData` with [{id:2},{id:3},{id:4}] the key 2 occurs in the new data, yet the
selection still holds the old row object of id 2, not the new one. -/
theorem C7_counterexample :
    reserveFilteredExample.states.reserveSelection = true
    ∧ reserveFilteredExample.states.rowKey.map (fun rk => reserveNewData.rows.map rk)
        = some [2, 3, 4]
    ∧ reserveFilteredExample.states.selection = [⟨2, 2⟩]
    ∧ (mutations.setData exampleUtil reserveFilteredExample reserveNewData).error = none
    ∧ (mutations.setData exampleUtil reserveFilteredExample reserveNewData).store.states.data
        = [⟨13, 3⟩]
    ∧ (mutations.setData exampleUtil reserveFilteredExample reserveNewData).store.states.selection
        = [⟨2, 2⟩]
    ∧ (⟨12, 2⟩ : Row) ∈ reserveNewData.rows := by
  decide

/-- C7, as amended.  Under the reserve policy with a configured row key, for a
selection with pairwise distinct keys and new data whose visible rows (the rows
that pass the filters, sorted) have pairwise distinct keys, when the
current-row step of `setData` does not raise: `setData` completes, the
selection has the same length and the same key at every position as before,
each entry whose key occurs among the visible rows is the visible row with
that key, and each entry whose key does not occur there is kept unchanged. -/
theorem C7_setData_reserve (u : Util) (s : Store) (d : DataArr) (rk : Row → Key)
    (hres : s.states.reserveSelection = true) (hrk : s.states.rowKey = some rk)
    (hsel : (s.states.selection.map rk).Nodup)
    (hvis : ((visibleRows u s.states d.rows).map rk).Nodup)
    (hcur : (updateCurrentRowData s).error = none) :
    (mutations.setData u s d).error = none
    ∧ (mutations.setData u s d).store.states.data = visibleRows u s.states d.rows
    ∧ (mutations.setData u s d).store.states.selection.length = s.states.selection.length
    ∧ (mutations.setData u s d).store.states.selection.map rk = s.states.selection.map rk
    ∧ ∀ i, ∀ hi : i < s.states.selection.length,
        ∀ hi' : i < (mutations.setData u s d).store.states.selection.length,
        (∀ row ∈ visibleRows u s.states d.rows,
            rk row = rk (s.states.selection.get ⟨i, hi⟩) →
            (mutations.setData u s d).store.states.selection.get ⟨i, hi'⟩ = row)
        ∧ ((∀ row ∈ visibleRows u s.states d.rows,
              rk row ≠ rk (s.states.selection.get ⟨i, hi⟩)) →
            (mutations.setData u s d).store.states.selection.get ⟨i, hi'⟩
              = s.states.selection.get ⟨i, hi⟩) := by
  obtain ⟨s3, hst, _, hset⟩ := setData_of_current_ok u s d hcur
  obtain ⟨hdata, hselq, _, _, _, _, _⟩ := execQuery_setData_effect u s d
  rw [← hst] at hdata hselq
  rw [hres, hrk] at hset
  simp only [if_true] at hset
  have hfinal : (mutations.setData u s d).store.states.selection =
      updateSelectionLoop rk (getKeysMap s.states.selection rk)
        (visibleRows u s.states d.rows) s.states.selection := by
    rw [hset]
    simp only [Outcome.store, updateTableScrollY, Store.emit,
      (updateAllSelected_frame (updateSelectionByRowKey s3 rk)).2.2.2]
    simp only [updateSelectionByRowKey, hdata, hselq]
  have hfdata : (mutations.setData u s d).store.states.data =
      visibleRows u s.states d.rows := by
    rw [hset]
    simp only [Outcome.store, updateTableScrollY, Store.emit,
      (updateAllSelected_frame (updateSelectionByRowKey s3 rk)).1]
    simp only [updateSelectionByRowKey, hdata]
  obtain ⟨hkeys, hpos⟩ := updateSelectionLoop_spec rk s.states.selection hsel
    (visibleRows u s.states d.rows) s.states.selection rfl
  rw [← hfinal] at hkeys hpos
  refine ⟨by rw [hset]; rfl, hfdata, ?_, hkeys, ?_⟩
  · have := congrArg List.length hkeys
    simpa using this
  · intro i hi hi'
    obtain ⟨p1, p2⟩ := hpos i hi hi hi'
    exact ⟨fun row hrow hk => p2 hvis row hrow hk, p1⟩

/-- C7 at the reserve example: selecting id 2 in [{id:1},{id:2},{id:3}] and
setting [{id:2},{id:3},{id:4}] leaves the selection holding the new row object
of id 2. -/
theorem C7_setData_reserve_witness :
    (mutations.setData exampleUtil reserveExample reserveNewData).error = none
    ∧ (mutations.setData exampleUtil reserveExample reserveNewData).store.states.selection.map
        Row.id = reserveExample.states.selection.map Row.id
    ∧ (mutations.setData exampleUtil reserveExample reserveNewData).store.states.selection
        = [⟨12, 2⟩] :=
  ⟨(C7_setData_reserve exampleUtil reserveExample reserveNewData Row.id rfl rfl
      (by decide) (by decide) (by decide)).1,
    (C7_setData_reserve exampleUtil reserveExample reserveNewData Row.id rfl rfl
      (by decide) (by decide) (by decide)).2.2.2.1,
    by decide⟩

/-- The rows `cleanSelection` collects in `deleted`, when the selected rows
have pairwise distinct keys: the selected rows that are not present in the
data. -/
theorem mem_cleanSelectionDeleted (states : States)
    (hnd : ∀ rk, states.rowKey = some rk → (states.selection.map rk).Nodup) (item : Row) :
    item ∈ cleanSelectionDeleted states ↔
      item ∈ states.selection ∧ rowPresent states.rowKey states.data item = false := by
  cases hrk : states.rowKey with
  | none =>
    simp [cleanSelectionDeleted, hrk, rowPresent, List.mem_filter]
  | some rk =>
    have hnd' := hnd rk hrk
    have hmapnd : ((getKeysMap states.selection rk).map Prod.fst).Nodup :=
      getKeysMapLoop_nodup rk states.selection 0 [] (by simp)
    have hpres : ∀ k : Key, ((getKeysMap states.data rk).get k).isNone = true ↔
        ¬ ∃ x ∈ states.data, rk x = k := by
      intro k
      rw [← getKeysMap_isSome rk states.data k]
      cases (getKeysMap states.data rk).get k <;> simp
    simp only [cleanSelectionDeleted, hrk, List.mem_map, List.mem_filter, rowPresent,
      Prod.exists]
    constructor
    · rintro ⟨k, info, ⟨hmem, hnone⟩, hrow⟩
      have hget := (KeysMap.mem_iff_get _ hmapnd k info).1 hmem
      obtain ⟨hj, hjrow, hjkey⟩ := getKeysMap_get rk states.selection k info hget
      subst hrow
      refine ⟨?_, ?_⟩
      · rw [← hjrow]; exact List.get_mem _ _ _
      · have := (hpres k).1 hnone
        rw [← hjkey] at this
        simpa using this
    · rintro ⟨hsel, hnot⟩
      obtain ⟨n, hn⟩ := List.get_of_mem hsel
      have hget := getKeysMap_get_of_nodup rk states.selection hnd' n.1 n.2
      rw [show states.selection.get ⟨n.1, n.2⟩ = item from hn] at hget
      refine ⟨rk item, { row := item, index := n.1 }, ⟨?_, ?_⟩, rfl⟩
      · exact (KeysMap.mem_iff_get _ hmapnd _ _).2 hget
      · rw [hpres]
        simpa using hnot

/-- What `cleanSelection` does when the selected rows have pairwise distinct
keys: the selection keeps exactly its rows present in the data, and a
selection-change with the new selection is emitted exactly when a row was
dropped. -/
theorem cleanSelection_spec (s : Store)
    (hnd : ∀ rk, s.states.rowKey = some rk → (s.states.selection.map rk).Nodup) :
    (cleanSelection s).states.selection =
        s.states.selection.filter (rowPresent s.states.rowKey s.states.data)
    ∧ (cleanSelection s).emitted = s.emitted ++
        (if s.states.selection.filter (rowPresent s.states.rowKey s.states.data)
            ≠ s.states.selection
         then [Event.selectionChange
            (s.states.selection.filter (rowPresent s.states.rowKey s.states.data))]
         else [])
    ∧ (cleanSelection s).states.data = s.states.data
    ∧ (cleanSelection s).states.rowKey = s.states.rowKey
    ∧ (cleanSelection s).states.selectable = s.states.selectable := by
  have hfilter : s.states.selection.filter
        (fun item => decide (item ∉ cleanSelectionDeleted s.states)) =
      s.states.selection.filter (rowPresent s.states.rowKey s.states.data) := by
    apply List.filter_congr
    intro item hitem
    rw [Bool.eq_iff_iff]
    simp only [decide_eq_true_eq, mem_cleanSelectionDeleted s.states hnd item, hitem,
      true_and]
    cases rowPresent s.states.rowKey s.states.data item <;> simp
  have hempty : (cleanSelectionDeleted s.states).length ≠ 0 ↔
      s.states.selection.filter (rowPresent s.states.rowKey s.states.data)
        ≠ s.states.selection := by
    rw [Ne, List.length_eq_zero, Ne, List.filter_eq_self, List.eq_nil_iff_forall_not_mem]
    constructor
    · intro h hall
      apply h
      intro item hitem
      have := (mem_cleanSelectionDeleted s.states hnd item).1 hitem
      rw [hall item this.1] at this
      exact absurd this.2 (by simp)
    · intro h hnone
      apply h
      intro item hitem
      by_contra hp
      exact hnone item ((mem_cleanSelectionDeleted s.states hnd item).2
        ⟨hitem, by simpa using hp⟩)
  by_cases hd : (cleanSelectionDeleted s.states).length ≠ 0
  · have hne := hempty.1 hd
    simp only [cleanSelection, hd, if_true, Store.emit, hfilter, hne, ne_eq, not_false_eq_true]
    exact ⟨trivial, trivial, trivial, trivial, trivial⟩
  · have heq : s.states.selection.filter (rowPresent s.states.rowKey s.states.data)
        = s.states.selection := by
      by_contra hne
      exact hd (hempty.2 hne)
    simp only [cleanSelection, hd, if_false, heq, ne_eq, not_true_eq_false, List.append_nil]
    exact ⟨trivial, trivial, trivial, trivial, trivial⟩

/-- What `clearSelection` does: the selection is emptied, and one
selection-change with the empty selection is emitted when it was not empty. -/
theorem clearSelection_spec (s : Store) :
    (clearSelection s).states.selection = []
    ∧ (clearSelection s).emitted = s.emitted ++
        (if ([] : List Row) ≠ s.states.selection then [Event.selectionChange []] else [])
    ∧ (clearSelection s).states.data = s.states.data
    ∧ (clearSelection s).states.rowKey = s.states.rowKey
    ∧ (clearSelection s).states.selectable = s.states.selectable := by
  cases hsel : s.states.selection with
  | nil => simp [clearSelection, hsel]
  | cons x rest => simp [clearSelection, hsel, Store.emit]

/-- The function `updateAllSelected` emits nothing. -/
theorem updateAllSelected_emitted (s : Store) : (updateAllSelected s).emitted = s.emitted := by
  simp only [updateAllSelected]
  split <;> rfl

/-- C8, counterexample.  With the row key `id` and reserve-selection off, two
different row objects with the same id 7 are selected; `setData` with the same
array instance, handed over as the reactive array and now holding a row of id 3
only, drops one of the two and keeps the other, whose key is not a key of the
new visible data. -/
theorem C8_counterexample :
    duplicateKeyExample.states.reserveSelection = false
    ∧ (mutations.setData exampleUtil duplicateKeyExample
        { ref := 1, rows := [⟨3, 3⟩], reactive := true }).error = none
    ∧ (mutations.setData exampleUtil duplicateKeyExample
        { ref := 1, rows := [⟨3, 3⟩], reactive := true }).store.states.data = [⟨3, 3⟩]
    ∧ (mutations.setData exampleUtil duplicateKeyExample
        { ref := 1, rows := [⟨3, 3⟩], reactive := true }).store.states.selection = [⟨1, 7⟩]
    ∧ rowPresent duplicateKeyExample.states.rowKey [⟨3, 3⟩] ⟨1, 7⟩ = false := by
  decide

/-- C8, as amended.  With reserve-selection off, for a prior state whose
selected rows have pairwise distinct keys when a row key is configured, and
for every new raw data, when the current-row step of `setData` does not raise:
`setData` completes and every member of the selection is present in the new
visible data, by row key when a row key is configured and by identity
otherwise.  The selection is empty when the test `states._data !== data` of
`setData` holds, and otherwise it is the old selection without the rows that
are not present; a selection-change, carrying the new selection, is emitted if
and only if the selection lost a row.  The test fails exactly when the new
data is the array the store holds, handed over as the reactive proxy the store
reads back; it holds for another array and for a plain array. -/
theorem C8_setData_unreserved (u : Util) (s : Store) (d : DataArr)
    (hres : s.states.reserveSelection = false)
    (hsel : ∀ rk, s.states.rowKey = some rk → (s.states.selection.map rk).Nodup)
    (hcur : (updateCurrentRowData s).error = none) :
    (mutations.setData u s d).error = none
    ∧ (mutations.setData u s d).store.states.data = visibleRows u s.states d.rows
    ∧ (∀ r ∈ (mutations.setData u s d).store.states.selection,
        rowPresent s.states.rowKey (mutations.setData u s d).store.states.data r = true)
    ∧ (mutations.setData u s d).store.states.selection =
        (if dataInstanceChanged s.states d = true then []
         else s.states.selection.filter
           (rowPresent s.states.rowKey (visibleRows u s.states d.rows)))
    ∧ selectionChanges (mutations.setData u s d).store.emitted =
        selectionChanges s.emitted ++
          (if (mutations.setData u s d).store.states.selection ≠ s.states.selection
           then [Event.selectionChange (mutations.setData u s d).store.states.selection]
           else [])
    ∧ (dataInstanceChanged s.states d = false ↔
        d.reactive = true ∧ ∃ old, s.states._data = some old ∧ old.ref = d.ref) := by
  have htest : dataInstanceChanged s.states d = false ↔
      d.reactive = true ∧ ∃ old, s.states._data = some old ∧ old.ref = d.ref := by
    unfold dataInstanceChanged
    cases hd : s.states._data with
    | none => simp
    | some old =>
      by_cases hr : old.ref = d.ref <;> by_cases hp : d.reactive = true <;> simp [hr, hp]
  obtain ⟨s3, hst, hem, hset⟩ := setData_of_current_ok u s d hcur
  obtain ⟨hdata, hselq, hkey, _, _, _, _⟩ := execQuery_setData_effect u s d
  rw [← hst] at hdata hselq hkey
  have hem3 : selectionChanges s3.emitted = selectionChanges s.emitted := by
    rcases hem with h | ⟨old, h⟩
    · rw [h]
    · rw [h]; simp [selectionChanges, List.filter_append]
  have hnd3 : ∀ rk, s3.states.rowKey = some rk → (s3.states.selection.map rk).Nodup := by
    intro rk h
    rw [hselq]
    exact hsel rk (by rw [← hkey]; exact h)
  have hres' : ¬ s.states.reserveSelection = true := by simp [hres]
  rw [if_neg hres'] at hset
  by_cases hch : dataInstanceChanged s.states d = true
  · rw [if_pos hch] at hset
    obtain ⟨c1, c2, c3, _, _⟩ := clearSelection_spec s3
    obtain ⟨f1, _, _, f4⟩ := updateAllSelected_frame (clearSelection s3)
    have hfs : (mutations.setData u s d).store.states.selection = [] := by
      rw [hset]; simp only [Outcome.store, updateTableScrollY, Store.emit, f4, c1]
    have hfd : (mutations.setData u s d).store.states.data =
        visibleRows u s.states d.rows := by
      rw [hset]; simp only [Outcome.store, updateTableScrollY, Store.emit, f1, c3, hdata]
    have hfe : (mutations.setData u s d).store.emitted =
        (clearSelection s3).emitted ++ [Event.updateScrollY] := by
      rw [hset]
      simp only [Outcome.store, updateTableScrollY, Store.emit, updateAllSelected_emitted]
    refine ⟨by rw [hset]; rfl, hfd, ?_, ?_, ?_, htest⟩
    · rw [hfs]; intro r hr; simp at hr
    · rw [hfs, if_pos hch]
    · rw [hfe, c2, hfs, hselq]
      have hsplit : selectionChanges ((s3.emitted ++
          if ([] : List Row) ≠ s.states.selection then [Event.selectionChange []] else [])
            ++ [Event.updateScrollY]) =
          selectionChanges s3.emitted ++
            (if ([] : List Row) ≠ s.states.selection then [Event.selectionChange []]
             else []) := by
        simp only [selectionChanges, List.filter_append]
        split <;> simp
      rw [hsplit, hem3]
  · rw [if_neg hch] at hset
    obtain ⟨c1, c2, c3, _, _⟩ := cleanSelection_spec s3 hnd3
    obtain ⟨f1, _, _, f4⟩ := updateAllSelected_frame (cleanSelection s3)
    rw [hselq, hkey, hdata] at c1 c2
    have hfs : (mutations.setData u s d).store.states.selection =
        s.states.selection.filter
          (rowPresent s.states.rowKey (visibleRows u s.states d.rows)) := by
      rw [hset]; simp only [Outcome.store, updateTableScrollY, Store.emit, f4, c1]
    have hfd : (mutations.setData u s d).store.states.data =
        visibleRows u s.states d.rows := by
      rw [hset]; simp only [Outcome.store, updateTableScrollY, Store.emit, f1, c3, hdata]
    have hfe : (mutations.setData u s d).store.emitted =
        (cleanSelection s3).emitted ++ [Event.updateScrollY] := by
      rw [hset]
      simp only [Outcome.store, updateTableScrollY, Store.emit, updateAllSelected_emitted]
    refine ⟨by rw [hset]; rfl, hfd, ?_, ?_, ?_, htest⟩
    · rw [hfs, hfd]
      intro r hr
      exact (List.mem_filter.1 hr).2
    · rw [hfs, if_neg hch]
    · rw [hfe, c2, hfs]
      have hsplit : ∀ tail : List Event,
          (tail = [] ∨ ∃ sel, tail = [Event.selectionChange sel]) →
          selectionChanges ((s3.emitted ++ tail) ++ [Event.updateScrollY]) =
            selectionChanges s3.emitted ++ tail := by
        intro tail ht
        rcases ht with h | ⟨sel, h⟩ <;> subst h <;>
          simp [selectionChanges, List.filter_append]
      rw [hsplit, hem3]
      split
      · exact Or.inr ⟨_, rfl⟩
      · exact Or.inl rfl

/-- C8 at `cleanExample`: the rows of id 1 and 2 are selected and the same
array instance comes back, as the reactive array, holding the rows of id 2, 3
and 4: the row of id 2 stays selected.  When the same instance comes back as a
plain array, the selection is emptied. -/
theorem C8_setData_unreserved_witness :
    (mutations.setData exampleUtil cleanExample
        { ref := 1, rows := [⟨2, 2⟩, ⟨3, 3⟩, ⟨4, 4⟩], reactive := true }).error = none
    ∧ (mutations.setData exampleUtil cleanExample
        { ref := 1, rows := [⟨2, 2⟩, ⟨3, 3⟩, ⟨4, 4⟩],
          reactive := true }).store.states.selection = [⟨2, 2⟩]
    ∧ selectionChanges (mutations.setData exampleUtil cleanExample
        { ref := 1, rows := [⟨2, 2⟩, ⟨3, 3⟩, ⟨4, 4⟩], reactive := true }).store.emitted
        = [Event.selectionChange [⟨2, 2⟩]]
    ∧ (mutations.setData exampleUtil cleanExample
        { ref := 1, rows := [⟨2, 2⟩, ⟨3, 3⟩, ⟨4, 4⟩],
          reactive := false }).store.states.selection = [] :=
  ⟨(C8_setData_unreserved exampleUtil cleanExample
      { ref := 1, rows := [⟨2, 2⟩, ⟨3, 3⟩, ⟨4, 4⟩], reactive := true } rfl
      (fun rk h => by
        have hk : rk = Row.id := (Option.some.inj h).symm
        subst hk
        decide)
      (by decide)).1,
    by decide, by decide, by decide⟩

/-- C3 at `allSelectedExample`: both rows are selected, so the flag is set. -/
theorem C3_updateAllSelected_isAllSelected_witness :
    (updateAllSelected allSelectedExample).states.isAllSelected = true :=
  (C3_updateAllSelected_isAllSelected allSelectedExample).2
    ⟨by decide, ⟨1, 1⟩, by decide, by decide⟩

/-- C4 at `indeterminateExample`: the second row, not selected before, is
selected by the call, the target state being true. -/
theorem C4_toggleAllSelection_target_witness :
    (⟨2, 2⟩ : Row) ∈ (mutations.toggleAllSelection indeterminateExample).states.selection :=
  ((C4_toggleAllSelection_target indeterminateExample).2 1 (by decide) (by decide)).2
    (by decide)

/-! ### The current row on `setData` -/

/-- What `updateCurrentRowData` does to the `states` of current.js and to the
log: the current row is cleared, with one current-change, when
`currentRowCleared` names it; nothing else is touched, whether the call
raises or not. -/
theorem updateCurrentRowData_current (s : Store) :
    (updateCurrentRowData s).store.current =
        (match currentRowCleared s.current with
         | some _ => { s.current with currentRow := none }
         | none => s.current)
    ∧ (updateCurrentRowData s).store.emitted = s.emitted ++
        (match currentRowCleared s.current with
         | some old => [Event.currentChange none (some old)]
         | none => []) := by
  unfold updateCurrentRowData currentRowCleared
  cases hrow : s.current.currentRow with
  | none =>
    by_cases hk : keyTruthy s.current._currentRowKey = true
    · simp [hrow, hk, setCurrentRowByKey, Outcome.store]
    · simp [hrow, hk, Outcome.store]
  | some old =>
    by_cases hin : old ∈ s.current.data.getD []
    · by_cases hk : keyTruthy s.current._currentRowKey = true
      · simp [hrow, hin, hk, setCurrentRowByKey, Outcome.store]
      · simp [hrow, hin, hk, Outcome.store]
    · cases hrk : s.current.rowKey with
      | some rk => simp [hrow, hin, hrk, setCurrentRowByKey, Outcome.store]
      | none => simp [hrow, hin, hrk, Outcome.store, Store.emit]

/-- The steps of `setData` after the current-row step leave the `states` of
current.js alone and emit no current-change. -/
theorem selection_steps_current (s : Store) (rk : Row → Key) :
    ((updateExpandRows s).current = s.current
      ∧ currentChanges (updateExpandRows s).emitted = currentChanges s.emitted)
    ∧ ((clearSelection s).current = s.current
      ∧ currentChanges (clearSelection s).emitted = currentChanges s.emitted)
    ∧ ((cleanSelection s).current = s.current
      ∧ currentChanges (cleanSelection s).emitted = currentChanges s.emitted)
    ∧ ((updateSelectionByRowKey s rk).current = s.current
      ∧ currentChanges (updateSelectionByRowKey s rk).emitted = currentChanges s.emitted)
    ∧ ((updateAllSelected s).current = s.current
      ∧ currentChanges (updateAllSelected s).emitted = currentChanges s.emitted)
    ∧ ((updateTableScrollY s).current = s.current
      ∧ currentChanges (updateTableScrollY s).emitted = currentChanges s.emitted) := by
  refine ⟨⟨rfl, rfl⟩, ?_, ?_, ⟨rfl, rfl⟩, ?_, ?_⟩
  · simp only [clearSelection, Store.emit]
    split
    · exact ⟨rfl, by simp [currentChanges, List.filter_append]⟩
    · exact ⟨rfl, rfl⟩
  · simp only [cleanSelection, Store.emit]
    split
    · exact ⟨rfl, by simp [currentChanges, List.filter_append]⟩
    · exact ⟨rfl, rfl⟩
  · simp only [updateAllSelected]
    split <;> exact ⟨rfl, rfl⟩
  · exact ⟨rfl, by simp [updateTableScrollY, Store.emit, currentChanges, List.filter_append]⟩

/-- The current-row part of `setData`: whatever the rest of the cascade does,
and whether or not the call raises, the `states` of current.js and the
current-change notifications are those of the current-row step. -/
theorem setData_current (u : Util) (s : Store) (d : DataArr) :
    (mutations.setData u s d).store.current =
        (match currentRowCleared s.current with
         | some _ => { s.current with currentRow := none }
         | none => s.current)
    ∧ currentChanges (mutations.setData u s d).store.emitted =
        currentChanges s.emitted ++
          (match currentRowCleared s.current with
           | some old => [Event.currentChange none (some old)]
           | none => []) := by
  obtain ⟨_, _, _, _, _, hcurrent, hemit⟩ := execQuery_setData_effect u s d
  obtain ⟨hc, he⟩ := updateCurrentRowData_current (execQuery u
      { s with states := { s.states with _data := some d } } false)
  rw [hcurrent] at hc
  rw [hcurrent, hemit] at he
  have hcc : currentChanges (updateCurrentRowData (execQuery u
      { s with states := { s.states with _data := some d } } false)).store.emitted =
      currentChanges s.emitted ++
          (match currentRowCleared s.current with
           | some old => [Event.currentChange none (some old)]
           | none => []) := by
    rw [he]
    cases currentRowCleared s.current <;> simp [currentChanges, List.filter_append]
  rw [← hc, ← hcc]
  simp only [mutations.setData]
  cases hout : updateCurrentRowData (execQuery u
      { s with states := { s.states with _data := some d } } false) with
  | throw e s2 => exact ⟨rfl, rfl⟩
  | ok s2 =>
    simp only [Outcome.store]
    have hx := selection_steps_current s2 (fun r => r.id)
    obtain ⟨⟨x1, x2⟩, _⟩ := hx
    by_cases hr : (updateExpandRows s2).states.reserveSelection = true
    · simp only [hr, if_true]
      cases hrk : (updateExpandRows s2).states.rowKey with
      | none => exact ⟨x1, x2⟩
      | some rk =>
        obtain ⟨_, _, _, ⟨a1, a2⟩, _, _⟩ := selection_steps_current (updateExpandRows s2) rk
        obtain ⟨_, _, _, _, ⟨b1, b2⟩, _⟩ :=
          selection_steps_current (updateSelectionByRowKey (updateExpandRows s2) rk) rk
        obtain ⟨_, _, _, _, _, ⟨c1, c2⟩⟩ := selection_steps_current
          (updateAllSelected (updateSelectionByRowKey (updateExpandRows s2) rk)) rk
        exact ⟨by rw [c1, b1, a1, x1], by rw [c2, b2, a2, x2]⟩
    · simp only [hr, if_false, Bool.false_eq_true]
      by_cases hch : dataInstanceChanged s.states d = true
      · simp only [hch, if_true]
        obtain ⟨_, ⟨a1, a2⟩, _⟩ := selection_steps_current (updateExpandRows s2) (fun r => r.id)
        obtain ⟨_, _, _, _, ⟨b1, b2⟩, _⟩ :=
          selection_steps_current (clearSelection (updateExpandRows s2)) (fun r => r.id)
        obtain ⟨_, _, _, _, _, ⟨c1, c2⟩⟩ := selection_steps_current
          (updateAllSelected (clearSelection (updateExpandRows s2))) (fun r => r.id)
        exact ⟨by rw [c1, b1, a1, x1], by rw [c2, b2, a2, x2]⟩
      · simp only [hch, if_false, Bool.false_eq_true]
        obtain ⟨_, _, ⟨a1, a2⟩, _⟩ := selection_steps_current (updateExpandRows s2) (fun r => r.id)
        obtain ⟨_, _, _, _, ⟨b1, b2⟩, _⟩ :=
          selection_steps_current (cleanSelection (updateExpandRows s2)) (fun r => r.id)
        obtain ⟨_, _, _, _, _, ⟨c1, c2⟩⟩ := selection_steps_current
          (updateAllSelected (cleanSelection (updateExpandRows s2))) (fun r => r.id)
        exact ⟨by rw [c1, b1, a1, x1], by rw [c2, b2, a2, x2]⟩

/-- C11. For a state with a current row r, `setData` leaves no current row and
emits exactly one current-change, with payload (none, r).  The `states` object
of current.js holds neither the rows nor a row key (nothing assigns them
there), which the two hypotheses say; so the current row is not found and it
is cleared, whatever data is installed and whether or not the store has a row
key configured. -/
theorem C11_setData_clears_current_row (u : Util) (s : Store) (d : DataArr) (r : Row)
    (hrow : s.current.currentRow = some r)
    (hkey : s.current.rowKey = none)
    (hdata : r ∉ s.current.data.getD []) :
    (mutations.setData u s d).store.current.currentRow = none
    ∧ currentChanges (mutations.setData u s d).store.emitted =
        currentChanges s.emitted ++ [Event.currentChange none (some r)] := by
  have hcl : currentRowCleared s.current = some r := by
    simp [currentRowCleared, hrow, hkey, hdata]
  obtain ⟨h1, h2⟩ := setData_current u s d
  rw [hcl] at h1 h2
  exact ⟨by rw [h1], h2⟩

/-- C11 at `currentRowExample`, a store with the row key `id` configured and
the row of id 1 current, when the rows of id 3 and 4 are installed. -/
theorem C11_setData_clears_current_row_witness :
    (mutations.setData exampleUtil currentRowExample
        { ref := 2, rows := [⟨3, 3⟩, ⟨4, 4⟩] }).store.current.currentRow = none
    ∧ currentChanges (mutations.setData exampleUtil currentRowExample
        { ref := 2, rows := [⟨3, 3⟩, ⟨4, 4⟩] }).store.emitted =
        currentChanges currentRowExample.emitted ++ [Event.currentChange none (some ⟨1, 1⟩)] :=
  C11_setData_clears_current_row exampleUtil currentRowExample
    { ref := 2, rows := [⟨3, 3⟩, ⟨4, 4⟩] } ⟨1, 1⟩ rfl rfl (by decide)

/-- C16, counterexample.  With a current row, reserve-selection on and no row
key, `setData` raises the row-key error after it has emitted a
current-change. -/
theorem C16_counterexample :
    reserveNoKeyExample.states.reserveSelection = true
    ∧ reserveNoKeyExample.states.rowKey.isNone = true
    ∧ (mutations.setData exampleUtil reserveNoKeyExample
        { ref := 1, rows := [⟨2, 2⟩] }).error = some Err.rowKeyRequired
    ∧ (mutations.setData exampleUtil reserveNoKeyExample
        { ref := 1, rows := [⟨2, 2⟩] }).store.emitted
        = [Event.currentChange none (some ⟨1, 1⟩)]
    ∧ (mutations.setData exampleUtil reserveNoKeyExample
        { ref := 1, rows := [⟨2, 2⟩] }).store.states.data = [⟨2, 2⟩] := by
  decide

/-- C16, as amended.  When `setData` raises because reserve-selection is on
and no row key is configured (the current-row step not raising), what the call
has sent to its host before the error is one current-change (none, old current
row) if the call cleared the current row, and nothing otherwise; in particular
no selection-change.  The rows already assigned stay assigned. -/
theorem C16_setData_raise_notifications (u : Util) (s : Store) (d : DataArr)
    (hres : s.states.reserveSelection = true) (hrk : s.states.rowKey = none)
    (hcur : (updateCurrentRowData s).error = none) :
    (mutations.setData u s d).error = some Err.rowKeyRequired
    ∧ (mutations.setData u s d).store.emitted = s.emitted ++
        (match currentRowCleared s.current with
         | some old => [Event.currentChange none (some old)]
         | none => [])
    ∧ (mutations.setData u s d).store.states.data = visibleRows u s.states d.rows
    ∧ (mutations.setData u s d).store.states.selection = s.states.selection := by
  obtain ⟨hdata, hselq, hkey, hresq, _, hcurrent, hemit⟩ := execQuery_setData_effect u s d
  have hc : (updateCurrentRowData (execQuery u
      { s with states := { s.states with _data := some d } } false)).error = none := by
    rw [updateCurrentRowData_error_congr _ s hcurrent]; exact hcur
  obtain ⟨hst, _, _, _⟩ := updateCurrentRowData_effect (execQuery u
      { s with states := { s.states with _data := some d } } false)
  obtain ⟨_, he⟩ := updateCurrentRowData_current (execQuery u
      { s with states := { s.states with _data := some d } } false)
  rw [hcurrent, hemit] at he
  cases hout : updateCurrentRowData (execQuery u
      { s with states := { s.states with _data := some d } } false) with
  | throw e s2 => rw [hout] at hc; simp [Outcome.error] at hc
  | ok s2 =>
    rw [hout] at hst he
    simp only [Outcome.store] at hst he
    have h1 : (updateExpandRows s2).states.reserveSelection = true := by
      simp only [updateExpandRows]; rw [hst, hresq, hres]
    have h2 : (updateExpandRows s2).states.rowKey = none := by
      simp only [updateExpandRows]; rw [hst, hkey, hrk]
    simp only [mutations.setData, hout, h1, h2, if_true, Outcome.error, Outcome.store]
    refine ⟨trivial, ?_, ?_, ?_⟩
    · simpa [updateExpandRows] using he
    · simp only [updateExpandRows]; rw [hst, hdata]
    · simp only [updateExpandRows]; rw [hst, hselq]

/-- C16 at a store with reserve-selection on, no row key and no current row:
the call raises and has emitted nothing. -/
theorem C16_setData_raise_notifications_witness :
    (mutations.setData exampleUtil { states := { reserveSelection := true } }
        { ref := 1, rows := [⟨2, 2⟩] }).error = some Err.rowKeyRequired
    ∧ (mutations.setData exampleUtil { states := { reserveSelection := true } }
        { ref := 1, rows := [⟨2, 2⟩] }).store.emitted = [] :=
  ⟨(C16_setData_raise_notifications exampleUtil { states := { reserveSelection := true } }
      { ref := 1, rows := [⟨2, 2⟩] } rfl rfl (by decide)).1,
    (C16_setData_raise_notifications exampleUtil { states := { reserveSelection := true } }
      { ref := 1, rows := [⟨2, 2⟩] } rfl rfl (by decide)).2.1⟩

/-! ### Expanded rows -/

/-- C12, on the code.  `updateExpandRows` leaves no expanded row, whatever the
rows expanded before and whatever the data and the row key of the table: the
data and the row key it works with are those of the `states` of expand.js,
which has neither, so `data` is `[]` and `rowKey` is `undefined`.  It touches
nothing but the expanded rows.  At `expandExample`, with the row key `id` and
the row of id 1 expanded, `setData` with the rows of id 1 and 2 completes and
leaves no row expanded, although the key 1 is a key of the new data. -/
theorem C12_updateExpandRows :
    (∀ s : Store,
        (updateExpandRows s).expand.expandRows = []
        ∧ (updateExpandRows s).states = s.states
        ∧ (updateExpandRows s).emitted = s.emitted)
    ∧ expandExample.states.rowKey.isSome = true
    ∧ expandExample.expand.expandRows = [⟨1, 1⟩]
    ∧ (mutations.setData exampleUtil expandExample
        { ref := 2, rows := [⟨1, 1⟩, ⟨2, 2⟩] }).error = none
    ∧ (mutations.setData exampleUtil expandExample
        { ref := 2, rows := [⟨1, 1⟩, ⟨2, 2⟩] }).store.states.data = [⟨1, 1⟩, ⟨2, 2⟩]
    ∧ (mutations.setData exampleUtil expandExample
        { ref := 2, rows := [⟨1, 1⟩, ⟨2, 2⟩] }).store.expand.expandRows = [] := by
  refine ⟨?_, by decide, by decide, by decide, by decide, by decide⟩
  intro s
  refine ⟨?_, rfl, rfl⟩
  simp only [updateExpandRows]
  split <;> rfl

/-! ### Recomputing the columns again -/

/-- A filter is non-empty exactly when some element passes. -/
theorem filter_length_pos_iff_any (p : Column → Bool) (l : List Column) :
    decide ((l.filter p).length > 0) = l.any p := by
  induction l with
  | nil => simp
  | cons a l ih =>
    by_cases ha : p a = true
    · simp [List.filter_cons, ha]
    · have ha0 : p a = false := by simpa using ha
      simp only [List.filter_cons, ha0, Bool.false_eq_true, if_false, List.any_cons,
        Bool.false_or]
      exact ih

/-- The function `updateColumns` computes the column state of the root list
with the compatibility rule applied. -/
theorem updateColumns_eq_recompute (s : Store) :
    updateColumns s =
      { s with states := recomputeColumns (promoteSelection s.states._columns) s.states } := by
  have hpos : ∀ l : List Column, (0 < (l.filter isFixedLeft).length) ↔
      l.any isFixedLeft = true := by
    intro l
    have := filter_length_pos_iff_any isFixedLeft l
    rw [← this]
    simp
  cases hc : s.states._columns with
  | nil =>
    simp [updateColumns, hc, recomputeColumns, promoteSelection, doFlattenColumns_eq_flatten,
      flatten]
  | cons c0 rest =>
    by_cases hp : (c0 :: rest).any isFixedLeft = true
        ∧ c0.info.type = "selection" ∧ c0.fixed.truthy = false
    · have hp1 : (0 < ((c0 :: rest).filter isFixedLeft).length)
          ∧ c0.info.type = "selection" ∧ c0.fixed.truthy = false :=
        ⟨(hpos _).2 hp.1, hp.2⟩
      have hany : (c0.setFixed Fixed.tru :: rest).any isFixedLeft = true := by
        have : isFixedLeft (c0.setFixed Fixed.tru) = true := by cases c0 <;> rfl
        simp [this]
      simp only [updateColumns, hc, gt_iff_lt, hp1, and_self, if_true, recomputeColumns,
        promoteSelection, hp, doFlattenColumns_eq_flatten, List.nil_append,
        filter_length_pos_iff_any, hany, Bool.true_or]
      rw [← filter_isFixedLeft_promote c0 rest hp.2.2,
        ← filter_isFixedRight_promote c0 rest hp.2.2]
      have hlenpos := (hpos _).2 hany
      simp [hany, hlenpos]
    · have hp1 : ¬ ((0 < ((c0 :: rest).filter isFixedLeft).length)
          ∧ c0.info.type = "selection" ∧ c0.fixed.truthy = false) :=
        fun h => hp ⟨(hpos _).1 h.1, h.2⟩
      simp only [updateColumns, hc, gt_iff_lt, hp1, if_false, recomputeColumns,
        promoteSelection, hp, doFlattenColumns_eq_flatten, List.nil_append,
        filter_length_pos_iff_any]

/-- The compatibility rule of `updateColumns` applies at most once. -/
theorem promoteSelection_idem (cols : List Column) :
    promoteSelection (promoteSelection cols) = promoteSelection cols := by
  cases cols with
  | nil => rfl
  | cons c0 rest =>
    by_cases hp : (c0 :: rest).any isFixedLeft = true
        ∧ c0.info.type = "selection" ∧ c0.fixed.truthy = false
    · have ht : (c0.setFixed Fixed.tru).fixed.truthy = true := by cases c0 <;> rfl
      have h1 : promoteSelection (c0 :: rest) = c0.setFixed Fixed.tru :: rest := by
        simp only [promoteSelection, if_pos hp]
      have h2 : promoteSelection (c0.setFixed Fixed.tru :: rest)
          = c0.setFixed Fixed.tru :: rest := by
        simp only [promoteSelection]
        rw [if_neg]
        intro h
        rw [ht] at h
        exact absurd h.2.2 (by simp)
      rw [h1, h2]
    · have h1 : promoteSelection (c0 :: rest) = c0 :: rest := by
        simp only [promoteSelection, if_neg hp]
      rw [h1, h1]

/-- C18. `updateColumns` is idempotent: a second run leaves the store exactly
as the first run left it, so `fixedColumns`, `rightFixedColumns`,
`originColumns`, `columns`, the three leaf counts, `isComplex` and the `fixed`
attribute of every root column are the same after two runs as after one, also
when the first run gave `fixed = true` to a leading selection column. -/
theorem C18_updateColumns_idempotent (s : Store) :
    updateColumns (updateColumns s) = updateColumns s := by
  rw [updateColumns_eq_recompute (updateColumns s), updateColumns_eq_recompute s]
  simp only [recomputeColumns, promoteSelection_idem]

/-- C18 at `promoteExample`, where the first run gives `fixed = true` to the
leading selection column: the leaf columns after two runs. -/
theorem C18_updateColumns_idempotent_witness :
    (updateColumns (updateColumns promoteExample)).states.columns.map Column.id
        = ["S", "A", "C", "D"]
    ∧ (updateColumns promoteExample).states.columns.map Column.id = ["S", "A", "C", "D"] :=
  ⟨by rw [C18_updateColumns_idempotent]; decide, by decide⟩

/-! ### Filtering and sorting again -/

/-- C19. Running `execQuery` twice with unchanged raw data, filters and sort
state gives the visible rows of one run; `execQuery` with the skip-filter flag
gives the visible rows of a full `execQuery` when it follows a full run, and
more generally whenever `filteredData` is what a filter pass over the present
raw data and filters yields. -/
theorem C19_execQuery_idempotent (u : Util) (s : Store) :
    (execQuery u (execQuery u s false) false).states.data = (execQuery u s false).states.data
    ∧ (execQuery u (execQuery u s false) true).states.data = (execQuery u s false).states.data
    ∧ (s.states.filteredData = (execFilter s).states.filteredData →
        (execQuery u s true).states.data = (execQuery u s false).states.data) := by
  refine ⟨rfl, rfl, ?_⟩
  intro h
  simp only [execQuery, Bool.not_true, Bool.not_false, Bool.false_eq_true, if_false, if_true,
    execSort]
  rw [h]
  rfl

/-- C19 at `sortedFilterExample` with an `orderBy` that reverses: the visible
rows after two runs are those after one run. -/
theorem C19_execQuery_idempotent_witness :
    (execQuery reverseUtil (execQuery reverseUtil sortedFilterExample false) false).states.data
        = [⟨13, 2⟩, ⟨12, 3⟩, ⟨11, 2⟩]
    ∧ (execQuery reverseUtil (execQuery reverseUtil sortedFilterExample false) true).states.data
        = (execQuery reverseUtil (execQuery reverseUtil sortedFilterExample false)
            false).states.data :=
  ⟨by rw [(C19_execQuery_idempotent reverseUtil sortedFilterExample).1]; decide,
    (C19_execQuery_idempotent reverseUtil
      (execQuery reverseUtil sortedFilterExample false)).2.2 rfl⟩

/-! ### Sort condition -/

/-- The function `sortData` returns the rows as they are when there is no
sorting column or the `sortable` of the sorting column is a string. -/
theorem sortData_unsorted (u : Util) (data : List Row) (states : States)
    (h : states.sortingColumn = none
      ∨ ∃ c m, states.sortingColumn = some c ∧ c.info.sortable = Sortable.str m) :
    sortData u data states = data := by
  rcases h with h | ⟨c, m, hc, hm⟩
  · simp [sortData, h]
  · simp [sortData, hc, hm]

/-- C20. For a state whose sort order is none, after `changeSortCondition` the
sorting column and the sort property are cleared, and the visible rows are the
filtered rows in their order.  One sort-change carrying the former column, the
former property and the order is emitted, unless the call is silent or init,
in which case none is.  More generally `sortData` returns the filtered rows
unchanged whenever there is no sorting column or the `sortable` of the sorting
column is a string. -/
theorem C20_changeSortCondition (u : Util) (s : Store) (options : Option SortConditionOptions)
    (horder : s.states.sortOrder = none) :
    (mutations.changeSortCondition u s options).states.sortingColumn = none
    ∧ (mutations.changeSortCondition u s options).states.sortProp = none
    ∧ (mutations.changeSortCondition u s options).states.data = s.states.filteredData
    ∧ (mutations.changeSortCondition u s options).states.filteredData = s.states.filteredData
    ∧ (mutations.changeSortCondition u s options).emitted =
        s.emitted
          ++ (match options with
              | some o =>
                  if o.silent = true ∨ o.init = true then []
                  else [Event.sortChange (s.states.sortingColumn.map Column.id)
                    s.states.sortProp none]
              | none =>
                  [Event.sortChange (s.states.sortingColumn.map Column.id)
                    s.states.sortProp none])
          ++ [Event.updateScrollY]
    ∧ ∀ (states : States) (data : List Row),
        (states.sortingColumn = none
          ∨ ∃ c m, states.sortingColumn = some c ∧ c.info.sortable = Sortable.str m) →
        sortData u data states = data := by
  refine ⟨?_, ?_, ?_, ?_, ?_, fun states data h => sortData_unsorted u data states h⟩
  · simp only [mutations.changeSortCondition, horder, updateTableScrollY, Store.emit]
    split <;> rfl
  · simp only [mutations.changeSortCondition, horder, updateTableScrollY, Store.emit]
    split <;> rfl
  · simp only [mutations.changeSortCondition, horder, updateTableScrollY, Store.emit]
    split <;> rfl
  · simp only [mutations.changeSortCondition, horder, updateTableScrollY, Store.emit]
    split <;> rfl
  · cases options with
    | none =>
      simp [mutations.changeSortCondition, horder, updateTableScrollY, Store.emit, execQuery,
        execSort]
    | some o =>
      by_cases hq : o.silent = true ∨ o.init = true
      · have hq' : (o.silent || o.init) = true := by simpa using hq
        simp [mutations.changeSortCondition, horder, updateTableScrollY, Store.emit, execQuery,
          execSort, hq', hq]
      · have hq' : (o.silent || o.init) = false := by simpa using hq
        simp [mutations.changeSortCondition, horder, updateTableScrollY, Store.emit, execQuery,
          execSort, hq', hq]

/-- C20 at `sortClearedExample`: the sorting column is cleared, the visible rows
are the filtered rows, and one sort-change is emitted. -/
theorem C20_changeSortCondition_witness :
    (mutations.changeSortCondition reverseUtil sortClearedExample none).states.data
        = [⟨2, 2⟩, ⟨1, 1⟩, ⟨3, 3⟩]
    ∧ (mutations.changeSortCondition reverseUtil sortClearedExample none).emitted
        = [Event.sortChange (some "c1") (some "id") none, Event.updateScrollY] :=
  ⟨(C20_changeSortCondition reverseUtil sortClearedExample none rfl).2.2.1,
    (C20_changeSortCondition reverseUtil sortClearedExample none rfl).2.2.2.2.1⟩

/-! ### The tree of lazily loaded rows -/

/-- Reading a JavaScript object after an assignment to it. -/
theorem objGet_objSet {κ α : Type} [DecidableEq κ] (o : List (κ × α)) (k k' : κ) (v : α) :
    objGet (objSet o k v) k' = if k = k' then some v else objGet o k' := by
  induction o with
  | nil => simp [objSet, objGet]
  | cons e rest ih =>
    obtain ⟨k0, old⟩ := e
    by_cases h0 : k0 = k
    · subst h0
      by_cases h1 : k0 = k' <;> simp [objSet, objGet, h1]
    · by_cases h1 : k0 = k'
      · subst h1
        have h2 : ¬ k = k0 := fun h => h0 h.symm
        simp [objSet, objGet, h0, h2]
      · simp [objSet, objGet, h0, h1, ih]

/-- C13, on the code.  `updateTreeData` raises a TypeError on every store and
leaves the store as it found it, so no entry of `treeData` is ever merged; so
does `updateTreeExpandKeys`, after it has assigned the expand keys.  At the
store whose tree map holds the expanded node of key 1, the map is unchanged and
the call has raised. -/
theorem C13_updateTreeData_raises :
    (∀ s : Store, (updateTreeData s).error = some Err.typeError
        ∧ (updateTreeData s).store.tree.treeData = s.tree.treeData
        ∧ (updateTreeData s).store.emitted = s.emitted)
    ∧ (∀ (s : Store) (keys : List Key),
        (updateTreeExpandKeys s keys).error = some Err.typeError
        ∧ (updateTreeExpandKeys s keys).store.tree.treeData = s.tree.treeData)
    ∧ (updateTreeData { tree := { treeData := [(1, { expanded := some true })] } }).error
        = some Err.typeError
    ∧ (updateTreeData
        { tree := { treeData := [(1, { expanded := some true })] } }).store.tree.treeData
        = [(1, { expanded := some true })] := by
  refine ⟨fun s => ⟨rfl, rfl, rfl⟩, fun s keys => ⟨rfl, rfl⟩, rfl, rfl⟩

/-- The function `toggleTreeExpansion` finds no node: it ends with the test of
the row key of index.js. -/
theorem toggleTreeExpansion_eq (s : Store) (row : Row) (expanded : Option Bool) :
    toggleTreeExpansion s row expanded = assertRowKey s := by
  unfold toggleTreeExpansion assertRowKey
  cases s.states.rowKey <;> rfl

/-- C14, on the code.  `loadOrToggle(row)` hands no node to the loader.  The
`states` of tree.js has no `rowKey`, so the identity of the row is `undefined`,
no node is found under it, and `toggleTreeExpansion`, which the call falls back
on, finds none either: on every store the call raises the row-key error when
index.js has no row key, and otherwise returns with the store as it found it.
No node gets `loading` true, the loader is not called, so no completion
callback runs and no expand-change is emitted.  At `lazyExample`, where a
loader is supplied and the tree state is seeded with lazy mode on and the lazy
node of key 1 with `loaded` false, the call for the row of key 1 leaves the
node and the log as they were. -/
theorem C14_loadOrToggle_never_loads :
    (∀ (s : Store) (row : Row),
        loadOrToggle s row = assertRowKey s
        ∧ (loadOrToggle s row).store = s
        ∧ loadCalls (loadOrToggle s row).store.emitted = loadCalls s.emitted)
    ∧ (∀ (s : Store) (row : Row), s.states.rowKey.isSome = true →
        loadOrToggle s row = Outcome.ok s)
    ∧ lazyExample.hasLoad = true
    ∧ lazyExample.tree.lazy = true
    ∧ objGet lazyExample.tree.treeData 1
        = some { lazy := some true, level := some 0, expanded := some false
                 loaded := some false, loading := some false }
    ∧ (loadOrToggle lazyExample ⟨1, 1⟩).error = none
    ∧ objGet (loadOrToggle lazyExample ⟨1, 1⟩).store.tree.treeData 1
        = some { lazy := some true, level := some 0, expanded := some false
                 loaded := some false, loading := some false }
    ∧ (loadOrToggle lazyExample ⟨1, 1⟩).store.emitted = [] := by
  have hmain : ∀ (s : Store) (row : Row), loadOrToggle s row = assertRowKey s := by
    intro s row
    unfold loadOrToggle
    cases hk : assertRowKey s with
    | throw e t => rfl
    | ok t =>
      simp only [toggleTreeExpansion_eq]
      unfold assertRowKey at hk ⊢
      cases hr : s.states.rowKey with
      | none => simp [hr] at hk
      | some rk =>
        simp only [hr, Outcome.ok.injEq] at hk
        subst hk
        simp [hr]
  refine ⟨?_, ?_, by decide, by decide, by decide, by decide, by decide, by decide⟩
  · intro s row
    rw [hmain]
    refine ⟨rfl, ?_, ?_⟩ <;>
      (unfold assertRowKey; cases s.states.rowKey <;> rfl)
  · intro s row hk
    rw [hmain]
    unfold assertRowKey
    cases hr : s.states.rowKey with
    | none => simp [hr] at hk
    | some rk => rfl

/-! ### Inserting and removing columns -/

/-- `indexOf` finds no column exactly when no column of the array has the id. -/
theorem indexOfColumn_eq_none (array : List Column) (column : Column) :
    indexOfColumn array column = none ↔ ∀ x ∈ array, x.id ≠ column.id := by
  induction array with
  | nil => simp [indexOfColumn]
  | cons c rest ih =>
    by_cases hc : c.id = column.id
    · simp [indexOfColumn, hc]
    · simp [indexOfColumn, hc, ih]

/-- When the column is in the array, `splice(indexOf(column), 1)` removes its
first occurrence. -/
theorem spliceIndexOf_of_mem (array : List Column) (column : Column)
    (h : ∃ x ∈ array, x.id = column.id) :
    spliceIndexOf array column = array.eraseP (fun x => decide (x.id = column.id)) := by
  induction array with
  | nil => simp at h
  | cons c rest ih =>
    by_cases hc : c.id = column.id
    · simp [spliceIndexOf, indexOfColumn, hc, List.eraseP_cons]
    · have h' : ∃ x ∈ rest, x.id = column.id := by
        obtain ⟨x, hx, hid⟩ := h
        rcases List.mem_cons.1 hx with hxc | hxr
        · subst hxc; exact absurd hid hc
        · exact ⟨x, hxr, hid⟩
      have ih' := ih h'
      simp only [spliceIndexOf, indexOfColumn, hc, if_false] at ih' ⊢
      cases hidx : indexOfColumn rest column with
      | none =>
        exact absurd h' (by simpa using (indexOfColumn_eq_none rest column).1 hidx)
      | some i =>
        rw [hidx] at ih'
        simp only [Option.map_some', List.eraseIdx_cons_succ] at ih' ⊢
        rw [ih']
        simp [List.eraseP_cons, hc]

/-- When the column is not in the array, `splice(indexOf(column), 1)` is
`splice(-1, 1)` and removes the last element. -/
theorem spliceIndexOf_of_not_mem (array : List Column) (column : Column)
    (h : ∀ x ∈ array, x.id ≠ column.id) :
    spliceIndexOf array column = array.dropLast := by
  simp [spliceIndexOf, (indexOfColumn_eq_none array column).2 h]

/-- Removing a column right after it was put into an array that did not hold
it gives the array back. -/
theorem spliceIndexOf_insertAt (array : List Column) (index : Option Nat) (column : Column)
    (h : ∀ x ∈ array, x.id ≠ column.id) :
    spliceIndexOf (insertAt array index column) column = array := by
  have hgen : ∀ a b : List Column, (∀ x ∈ a, x.id ≠ column.id) →
      spliceIndexOf (a ++ column :: b) column = a ++ b := by
    intro a b ha
    rw [spliceIndexOf_of_mem _ _ ⟨column, by simp, rfl⟩]
    induction a with
    | nil => simp [List.eraseP_cons]
    | cons c rest ih =>
      have hc : ¬ c.id = column.id := ha c (List.mem_cons_self _ _)
      simp only [List.cons_append, List.eraseP_cons, hc, decide_False, Bool.false_eq_true,
        if_false]
      rw [ih (fun x hx => ha x (List.mem_cons_of_mem _ hx))]
      rfl
  cases index with
  | none =>
    simpa [insertAt] using hgen array [] h
  | some i =>
    have := hgen (array.take i) (array.drop i)
      (fun x hx => h x (List.mem_of_mem_take hx))
    simpa [insertAt] using this

/-- The compatibility rule of `updateColumns` keeps the column objects of the
root list. -/
theorem promoteSelection_ids (cols : List Column) :
    (promoteSelection cols).map Column.id = cols.map Column.id := by
  cases cols with
  | nil => rfl
  | cons c0 rest =>
    simp only [promoteSelection]
    split
    · cases c0 <;> simp [Column.setFixed, Column.id, Column.info]
    · rfl

/-- C17, on the code.  `removeColumn(c)` leaves the root list
`splice(indexOf(c), 1)` makes of it (up to the `fixed` attribute that
`updateColumns` may assign to the first column when the table is ready).  When
c is in the list, that is the list without the first occurrence of c, the other
columns in their order; and `insertColumn(c, i)` followed by `removeColumn(c)`
restores a list that did not hold c.  When c is not in the list, `indexOf`
yields -1 and the last column is removed: removing the column C from the roots
[A, B] leaves [A]. -/
theorem C17_removeColumn :
    (∀ (s : Store) (c : Column),
        (mutations.removeColumn s c none).states._columns.map Column.id
          = (spliceIndexOf s.states._columns c).map Column.id)
    ∧ (∀ (l : List Column) (c : Column), (∃ x ∈ l, x.id = c.id) →
        spliceIndexOf l c = l.eraseP (fun x => decide (x.id = c.id)))
    ∧ (∀ (l : List Column) (c : Column), (∀ x ∈ l, x.id ≠ c.id) →
        spliceIndexOf l c = l.dropLast)
    ∧ (∀ (s : Store) (c : Column) (i : Option Nat), s.ready = false →
        (∀ x ∈ s.states._columns, x.id ≠ c.id) →
        (mutations.removeColumn (mutations.insertColumn s c i none) c none).states._columns
          = s.states._columns)
    ∧ (mutations.removeColumn twoColumnsExample (Column.leaf { id := "C" })
        none).states._columns.map Column.id = ["A"] := by
  refine ⟨?_, spliceIndexOf_of_mem, spliceIndexOf_of_not_mem, ?_, by decide⟩
  · intro s c
    by_cases hr : s.ready = true
    · simp only [mutations.removeColumn, hr, if_true, scheduleLayout, Store.emit,
        Bool.false_eq_true, if_false]
      rw [updateColumns_eq_recompute]
      simp only [recomputeColumns]
      exact promoteSelection_ids _
    · simp [mutations.removeColumn, hr]
  · intro s c i hr h
    have h1 : (mutations.insertColumn s c i none).states._columns
        = insertAt s.states._columns i c := by
      simp only [mutations.insertColumn, hr, Bool.false_eq_true, if_false]
      split <;> rfl
    have h2 : (mutations.insertColumn s c i none).ready = false := by
      simp only [mutations.insertColumn, hr, Bool.false_eq_true, if_false]
    simp only [mutations.removeColumn, h2, Bool.false_eq_true, if_false, h1]
    exact spliceIndexOf_insertAt _ _ _ h

/-! ### `commit` -/

/-- The only error `updateCurrentRowData` raises is the TypeError of
`setCurrentRowByKey`. -/
theorem updateCurrentRowData_error_cases (s : Store) :
    (updateCurrentRowData s).error = none
    ∨ (updateCurrentRowData s).error = some Err.typeError := by
  rw [(updateCurrentRowData_effect s).2.2.2]
  cases s.current.currentRow with
  | none =>
    simp only
    split
    · exact Or.inr rfl
    · exact Or.inl rfl
  | some old =>
    simp only
    split
    · cases s.current.rowKey with
      | none => exact Or.inl rfl
      | some rk => exact Or.inr rfl
    · split
      · exact Or.inr rfl
      · exact Or.inl rfl

/-- The errors `setData` can raise: the TypeError of the current-row step and
the row-key error of the reserve branch. -/
theorem setData_error (u : Util) (s : Store) (d : DataArr) :
    (mutations.setData u s d).error = none
    ∨ (mutations.setData u s d).error = some Err.typeError
    ∨ (mutations.setData u s d).error = some Err.rowKeyRequired := by
  have herr := updateCurrentRowData_error_cases (execQuery u
      { s with states := { s.states with _data := some d } } false)
  simp only [mutations.setData]
  cases hout : updateCurrentRowData (execQuery u
      { s with states := { s.states with _data := some d } } false) with
  | throw e s2 =>
    rw [hout] at herr
    simp only [Outcome.error] at herr ⊢
    rcases herr with h | h
    · exact absurd h (by simp)
    · exact Or.inr (Or.inl h)
  | ok s2 =>
    simp only
    by_cases hr : (updateExpandRows s2).states.reserveSelection = true
    · simp only [hr, if_true]
      cases (updateExpandRows s2).states.rowKey with
      | none => exact Or.inr (Or.inr rfl)
      | some rk => exact Or.inl rfl
    · simp only [hr, if_false, Bool.false_eq_true]
      by_cases hch : dataInstanceChanged s.states d = true
      · simp only [hch, if_true]; exact Or.inl rfl
      · simp only [hch, if_false, Bool.false_eq_true]; exact Or.inl rfl

/-- C15, on the code.  For a name that is neither a registered mutation nor a
property inherited from `Object.prototype`, `commit` raises the error
`Action not found` and leaves the store, its log included, as it was; for a
registered mutation it never raises that error.  For a name inherited from
`Object.prototype` it does not raise that error either, although the name is
not a registered mutation: `commit('toString')` returns without an error and
without effect. -/
theorem C15_commit :
    (∀ (u : Util) (s : Store) (name : String) (args : CommitArgs),
        name ∉ registeredMutations → name ∉ objectPrototypeNames →
        (commit u s name args).error = some (Err.actionNotFound name)
        ∧ (commit u s name args).store = s)
    ∧ (∀ (u : Util) (s : Store) (name : String) (args : CommitArgs) (n : String),
        name ∈ registeredMutations →
        (commit u s name args).error ≠ some (Err.actionNotFound n))
    ∧ (∀ (u : Util) (s : Store) (name : String) (args : CommitArgs) (n : String),
        name ∈ objectPrototypeNames →
        (commit u s name args).error ≠ some (Err.actionNotFound n))
    ∧ "toString" ∉ registeredMutations
    ∧ (∀ (u : Util) (s : Store) (args : CommitArgs),
        (commit u s "toString" args).error = none
        ∧ (commit u s "toString" args).store = s) := by
  refine ⟨?_, ?_, ?_, by decide, ?_⟩
  · intro u s name args h1 h2
    simp only [registeredMutations, List.mem_cons, List.mem_singleton, not_or,
      List.not_mem_nil, not_false_eq_true, and_true] at h1
    have h2' := h2
    simp only [objectPrototypeNames, List.mem_cons, List.mem_singleton, not_or,
      List.not_mem_nil, not_false_eq_true, and_true] at h2'
    obtain ⟨a1, a2, a3, a4, a5, a6, a7, a8, a9, a10⟩ := h1
    simp [commit, a1, a2, a3, a4, a5, a6, a7, a8, a9, a10, h2'.1, h2'.2.1, h2,
      Outcome.error, Outcome.store]
  · intro u s name args n h
    simp only [registeredMutations, List.mem_cons, List.mem_singleton,
      List.not_mem_nil, or_false] at h
    rcases h with h | h | h | h | h | h | h | h | h | h <;> subst h
    · have hs := setData_error u s args.data
      simp only [commit, if_true]
      rcases hs with h | h | h <;> rw [h] <;> simp
    all_goals simp [commit, Outcome.error]
  · intro u s name args n h
    simp only [objectPrototypeNames, List.mem_cons, List.mem_singleton,
      List.not_mem_nil, or_false] at h
    rcases h with h | h | h | h | h | h | h | h | h | h | h | h <;> subst h <;>
      simp [commit, objectPrototypeNames, Outcome.error]
  · intro u s args
    simp [commit, Outcome.error, Outcome.store]

/-! ### The rows `toggleAllSelection` touches -/

/-- C22, counterexample.  The data holds the same row object at the positions 0
and 1, and `selectable` is false at position 0 and true at position 1.  The
row was not selected; after `toggleAllSelection` it is, although it is a data
row at an index where `selectable` is false. -/
theorem C22_counterexample :
    selectableAt repeatedRowExample.states.selectable ⟨1, 1⟩ 0 = false
    ∧ repeatedRowExample.states.data.get? 0 = some ⟨1, 1⟩
    ∧ (⟨1, 1⟩ : Row) ∉ repeatedRowExample.states.selection
    ∧ (⟨1, 1⟩ : Row) ∈ (mutations.toggleAllSelection repeatedRowExample).states.selection := by
  decide

/-- C22, as amended.  `toggleAllSelection` leaves the selection membership of
every row that is at no position of the data where `selectable` is true as it
was, and gives every data row at a position where `selectable` is true (every
data row when no predicate is configured) the target state.  When no row object
occurs twice in the data, every data row at a position where `selectable` is
false keeps its membership. -/
theorem C22_toggleAllSelection_frame (s : Store) :
    (∀ r : Row,
        (¬ ∃ j, ∃ hj : j < s.states.data.length, s.states.data.get ⟨j, hj⟩ = r
            ∧ selectableAt s.states.selectable (s.states.data.get ⟨j, hj⟩) j = true) →
        (r ∈ (mutations.toggleAllSelection s).states.selection ↔ r ∈ s.states.selection))
    ∧ (∀ i, ∀ hi : i < s.states.data.length,
        selectableAt s.states.selectable (s.states.data.get ⟨i, hi⟩) i = true →
        (s.states.data.get ⟨i, hi⟩ ∈ (mutations.toggleAllSelection s).states.selection ↔
          toggleAllValue s.states = true))
    ∧ (s.states.data.Nodup → ∀ i, ∀ hi : i < s.states.data.length,
        selectableAt s.states.selectable (s.states.data.get ⟨i, hi⟩) i = false →
        (s.states.data.get ⟨i, hi⟩ ∈ (mutations.toggleAllSelection s).states.selection ↔
          s.states.data.get ⟨i, hi⟩ ∈ s.states.selection)) := by
  have hfirst : ∀ r : Row,
      (¬ ∃ j, ∃ hj : j < s.states.data.length, s.states.data.get ⟨j, hj⟩ = r
          ∧ selectableAt s.states.selectable (s.states.data.get ⟨j, hj⟩) j = true) →
      (r ∈ (mutations.toggleAllSelection s).states.selection ↔ r ∈ s.states.selection) := by
    intro r hno
    unfold mutations.toggleAllSelection
    rw [(toggleAllSelection_effect s r).2.2]
    constructor
    · rintro (⟨hex, _⟩ | ⟨_, hin⟩)
      · exact absurd hex hno
      · exact hin
    · intro hin
      exact Or.inr ⟨hno, hin⟩
  refine ⟨hfirst, ?_, ?_⟩
  · intro i hi hsel
    unfold mutations.toggleAllSelection
    rw [(toggleAllSelection_effect s (s.states.data.get ⟨i, hi⟩)).2.2]
    have hex : ∃ j, ∃ hj : j < s.states.data.length,
        s.states.data.get ⟨j, hj⟩ = s.states.data.get ⟨i, hi⟩
          ∧ selectableAt s.states.selectable (s.states.data.get ⟨j, hj⟩) j = true :=
      ⟨i, hi, rfl, hsel⟩
    constructor
    · rintro (⟨_, hval⟩ | ⟨hno, _⟩)
      · exact hval
      · exact absurd hex hno
    · intro hval
      exact Or.inl ⟨hex, hval⟩
  · intro hnd i hi hsel
    apply hfirst
    rintro ⟨j, hj, hrow, hselj⟩
    have hij : j = i := by
      have := (List.Nodup.get_inj_iff hnd).1 hrow
      simpa using this
    subst hij
    rw [hsel] at hselj
    exact absurd hselj (by simp)

/-- C22 at `selectableExample`: the row of id 1, not selectable and selected,
stays selected; the row of id 2, selectable, gets the target state. -/
theorem C22_toggleAllSelection_frame_witness :
    ((⟨1, 1⟩ : Row) ∈ (mutations.toggleAllSelection selectableExample).states.selection ↔
        (⟨1, 1⟩ : Row) ∈ selectableExample.states.selection)
    ∧ ((⟨2, 2⟩ : Row) ∈ (mutations.toggleAllSelection selectableExample).states.selection ↔
        toggleAllValue selectableExample.states = true) :=
  ⟨(C22_toggleAllSelection_frame selectableExample).2.2 (by decide) 0 (by decide) (by decide),
    (C22_toggleAllSelection_frame selectableExample).2.1 1 (by decide) (by decide)⟩

/-! ### At most one column with an active sort order -/

/-- Reading the attributes of a column after an assignment to them. -/
theorem Column.mapInfo_info (f : ColInfo → ColInfo) (c : Column) :
    (c.mapInfo f).info = f c.info := by
  cases c <;> simp [Column.mapInfo, Column.info]

/-- The id and the `order` of a column after the assignment `column.order =
order` to the column object of the given id. -/
theorem Column.mapInfo_order (id : String) (order : Option String) (c : Column) :
    (Column.mapInfo (fun i => if i.id = id then { i with order := order } else i) c).info.id
        = c.info.id
    ∧ (Column.mapInfo (fun i => if i.id = id then { i with order := order } else i) c).info.order
        = if c.info.id = id then order else c.info.order := by
  rw [Column.mapInfo_info]
  constructor <;> split <;> rfl

/-- The columns and the sorting column after `changeSortCondition`. -/
theorem changeSortCondition_columns (u : Util) (s : Store)
    (options : Option SortConditionOptions) :
    (mutations.changeSortCondition u s options).states.columns = s.states.columns
    ∧ (mutations.changeSortCondition u s options).states.sortingColumn =
        (match s.states.sortOrder with
         | none => none
         | some _ => s.states.sortingColumn) := by
  cases hord : s.states.sortOrder <;> cases options <;>
    simp [mutations.changeSortCondition, updateTableScrollY, Store.emit, execQuery,
      execSort, hord] <;>
    (try split) <;> simp

/-- The columns, the sorting column and the sort order after `updateSort`. -/
theorem updateSort_columns (s : Store) (column : Column) (prop order : Option String) :
    (updateSort s (some column) prop order).states.sortingColumn = some column
    ∧ (updateSort s (some column) prop order).states.sortOrder = order
    ∧ (updateSort s (some column) prop order).states.columns =
        (match s.states.sortingColumn with
         | some sortingColumn =>
             if sortingColumn.id ≠ column.id then
               s.states.columns.map
                 (Column.mapInfo
                   (fun i => if i.id = sortingColumn.id then { i with order := none } else i))
             else s.states.columns
         | none => s.states.columns) := by
  refine ⟨rfl, rfl, ?_⟩
  simp only [updateSort]
  cases h : s.states.sortingColumn with
  | none => rfl
  | some sc =>
    by_cases hid : sc.id = column.id
    · simp [hid]
    · simp [hid, States.setColumnOrder, States.mapColumnObjects]

/-- C21. When in the prior state no column of `states.columns` other than the
sorting column has a non-null `order`, then after `commit('sort', ...)` no
column of `states.columns` other than the new sorting column has a non-null
`order`; the commit does not raise.  So the `order` of the former sorting
column is null when another column has been chosen.  Column objects are
identified by their id. -/
theorem C21_sort_one_active_order (u : Util) (s : Store) (args : CommitArgs)
    (hprior : ∀ c ∈ s.states.columns, c.info.order ≠ none →
      s.states.sortingColumn.map Column.id = some c.id) :
    (commit u s "sort" args).error = none
    ∧ ∀ c ∈ (commit u s "sort" args).store.states.columns, c.info.order ≠ none →
        (commit u s "sort" args).store.states.sortingColumn.map Column.id = some c.id := by
  have hcommit : commit u s "sort" args = Outcome.ok (mutations.sort u s args.sortOptions) := by
    simp [commit]
  rw [hcommit]
  refine ⟨rfl, ?_⟩
  simp only [Outcome.store]
  generalize args.sortOptions = options
  unfold mutations.sort
  cases hp : options.prop with
  | none => simpa using hprior
  | some prop =>
    by_cases hempty : prop = ""
    · simpa [hempty] using hprior
    · cases hfind : s.states.columns.find?
          (fun column => decide (column.info.property = some prop)) with
      | none => simpa [hempty, hfind] using hprior
      | some column =>
        simp only [hempty, if_false, hfind]
        intro c hc horder
        rw [(changeSortCondition_columns u _ _).1] at hc
        rw [(changeSortCondition_columns u _ _).2]
        rw [(updateSort_columns _ _ _ _).2.1]
        rw [(updateSort_columns _ _ _ _).2.2] at hc
        rw [(updateSort_columns _ _ _ _).1]
        simp only [States.setColumnOrder, States.mapColumnObjects] at hc
        have hcolid : (Column.mapInfo (fun i => { i with order := options.order }) column).id
            = column.id := by
          simp only [Column.id, Column.mapInfo_info]
        have hfinal : ∀ c0 : Column, c0.info.id = column.id → options.order ≠ none →
            Option.map Column.id
              (match options.order with
               | none => none
               | some _ =>
                   some (Column.mapInfo (fun i => { i with order := options.order }) column))
              = some c0.info.id := by
          intro c0 hid hne
          cases ho : options.order with
          | none => exact absurd ho hne
          | some o =>
            simp only [Option.map_some', Option.some.injEq]
            have := hcolid
            rw [ho] at this
            rw [this, hid]
        cases hold : s.states.sortingColumn with
        | none =>
          simp only [hold, Option.map_none', List.mem_map] at hc
          obtain ⟨c0, hc0, rfl⟩ := hc
          rw [(Column.mapInfo_order _ _ _).2] at horder
          show _ = some (Column.mapInfo _ c0).info.id
          rw [(Column.mapInfo_order _ _ _).1]
          by_cases hid : c0.info.id = column.id
          · rw [if_pos hid] at horder
            exact hfinal c0 hid horder
          · rw [if_neg hid] at horder
            have := hprior c0 hc0 horder
            simp [hold] at this
        | some old =>
          simp only [hold, Option.map_some', List.mem_map] at hc
          have holdid : (Column.mapInfo
              (fun i => if i.id = column.id then { i with order := options.order } else i)
              old).id = old.id := (Column.mapInfo_order _ _ _).1
          rw [holdid, hcolid] at hc
          by_cases hsame : old.id = column.id
          · rw [if_neg (not_not.mpr hsame)] at hc
            obtain ⟨c0, hc0, rfl⟩ := List.mem_map.1 hc
            rw [(Column.mapInfo_order _ _ _).2] at horder
            show _ = some (Column.mapInfo _ c0).info.id
            rw [(Column.mapInfo_order _ _ _).1]
            by_cases hid : c0.info.id = column.id
            · rw [if_pos hid] at horder
              exact hfinal c0 hid horder
            · rw [if_neg hid] at horder
              have := hprior c0 hc0 horder
              simp only [hold, Option.map_some', Option.some.injEq] at this
              exact absurd (this.symm.trans hsame) hid
          · rw [if_pos hsame] at hc
            obtain ⟨c1, hc1, rfl⟩ := List.mem_map.1 hc
            obtain ⟨c0, hc0, rfl⟩ := List.mem_map.1 hc1
            rw [(Column.mapInfo_order _ _ _).2, (Column.mapInfo_order _ _ _).1,
              (Column.mapInfo_order _ _ _).2] at horder
            show _ = some (Column.mapInfo _ (Column.mapInfo _ c0)).info.id
            rw [(Column.mapInfo_order _ _ _).1, (Column.mapInfo_order _ _ _).1]
            by_cases hid2 : c0.info.id = old.id
            · rw [if_pos hid2] at horder
              exact absurd rfl horder
            · rw [if_neg hid2] at horder
              by_cases hid : c0.info.id = column.id
              · rw [if_pos hid] at horder
                exact hfinal c0 hid horder
              · rw [if_neg hid] at horder
                have := hprior c0 hc0 horder
                simp only [hold, Option.map_some', Option.some.injEq] at this
                exact absurd this.symm hid2

/-- C21 at `sortExample`: column A is sorted ascending; after sorting by the
property of column B, B is the sorting column and the `order` of A is null. -/
theorem C21_sort_one_active_order_witness :
    (commit exampleUtil sortExample "sort"
        { sortOptions := { prop := some "age", order := some "descending" }
          }).store.states.columns.map (fun c => (c.id, c.info.order))
      = [("A", none), ("B", some "descending")]
    ∧ ∀ c ∈ (commit exampleUtil sortExample "sort"
          { sortOptions := { prop := some "age", order := some "descending" } }).store.states.columns,
        c.info.order ≠ none →
        (commit exampleUtil sortExample "sort"
          { sortOptions := { prop := some "age", order := some "descending" } }
          ).store.states.sortingColumn.map Column.id = some c.id :=
  ⟨by decide,
    (C21_sort_one_active_order exampleUtil sortExample
      { sortOptions := { prop := some "age", order := some "descending" } } (by decide)).2⟩

/-! ### The origin columns and the leaf counts -/

/-- The three partitions of a root list by the `fixed` attribute, put one after
the other, are a permutation of the list when every `fixed` is unset, true,
`left` or `right`. -/
theorem partition_perm (l : List Column)
    (h : ∀ c ∈ l, ∀ x, c.fixed ≠ Fixed.other x) :
    (l.filter isFixedLeft ++ l.filter isNotFixed ++ l.filter isFixedRight).Perm l := by
  induction l with
  | nil => simp
  | cons c rest ih =>
    have ih := ih (fun c hc => h c (List.mem_cons_of_mem _ hc))
    have hc := h c (List.mem_cons_self _ _)
    cases hf : c.fixed with
    | unset =>
      have h1 : isFixedLeft c = false := by simp [isFixedLeft, hf]
      have h2 : isNotFixed c = true := by simp [isNotFixed, hf, Fixed.truthy]
      have h3 : isFixedRight c = false := by simp [isFixedRight, hf]
      simp only [List.filter_cons, h1, h2, h3, if_true, Bool.false_eq_true, if_false]
      rw [List.append_assoc, List.cons_append]
      refine List.perm_middle.trans (List.Perm.cons c ?_)
      rw [← List.append_assoc]
      exact ih
    | tru =>
      have h1 : isFixedLeft c = true := by simp [isFixedLeft, hf]
      have h2 : isNotFixed c = false := by simp [isNotFixed, hf, Fixed.truthy]
      have h3 : isFixedRight c = false := by simp [isFixedRight, hf]
      simp only [List.filter_cons, h1, h2, h3, if_true, Bool.false_eq_true, if_false,
        List.cons_append]
      exact List.Perm.cons c ih
    | left =>
      have h1 : isFixedLeft c = true := by simp [isFixedLeft, hf]
      have h2 : isNotFixed c = false := by simp [isNotFixed, hf, Fixed.truthy]
      have h3 : isFixedRight c = false := by simp [isFixedRight, hf]
      simp only [List.filter_cons, h1, h2, h3, if_true, Bool.false_eq_true, if_false,
        List.cons_append]
      exact List.Perm.cons c ih
    | right =>
      have h1 : isFixedLeft c = false := by simp [isFixedLeft, hf]
      have h2 : isNotFixed c = false := by simp [isNotFixed, hf, Fixed.truthy]
      have h3 : isFixedRight c = true := by simp [isFixedRight, hf]
      simp only [List.filter_cons, h1, h2, h3, if_true, Bool.false_eq_true, if_false]
      exact List.perm_middle.trans (List.Perm.cons c ih)
    | other x => exact absurd hf (hc x)

/-- The compatibility rule of `updateColumns` assigns `fixed = true` only. -/
theorem promoteSelection_fixed (cols : List Column)
    (h : ∀ c ∈ cols, ∀ x, c.fixed ≠ Fixed.other x) :
    ∀ c ∈ promoteSelection cols, ∀ x, c.fixed ≠ Fixed.other x := by
  cases cols with
  | nil => simp [promoteSelection]
  | cons c0 rest =>
    simp only [promoteSelection]
    split
    · intro c hc x
      rcases List.mem_cons.1 hc with rfl | hc
      · cases c0 <;> simp [Column.setFixed, Column.fixed, Column.info]
      · exact h c (List.mem_cons_of_mem _ hc) x
    · exact h

/-- C23. For a root list whose `fixed` attributes are unset, true, `left` or
`right`, after `updateColumns` the list `originColumns` is a permutation of the
root list as the call leaves it, which holds the root columns of before with
`fixed = true` assigned to a promoted selection column: the ids of
`originColumns` are a permutation of the ids of the root list of before, and
the lengths are equal.  The three leaf counts add up to the length of
`columns`. -/
theorem C23_updateColumns_origin_perm (s : Store)
    (hfixed : ∀ c ∈ s.states._columns, ∀ x, c.fixed ≠ Fixed.other x) :
    (updateColumns s).states.originColumns.Perm (updateColumns s).states._columns
    ∧ (updateColumns s).states._columns = promoteSelection s.states._columns
    ∧ ((updateColumns s).states.originColumns.map Column.id).Perm
        (s.states._columns.map Column.id)
    ∧ (updateColumns s).states.originColumns.length = s.states._columns.length
    ∧ (updateColumns s).states.leafColumnsLength
          + (updateColumns s).states.fixedLeafColumnsLength
          + (updateColumns s).states.rightFixedLeafColumnsLength
        = (updateColumns s).states.columns.length := by
  rw [updateColumns_eq_recompute]
  simp only [recomputeColumns]
  have hperm := partition_perm (promoteSelection s.states._columns)
    (promoteSelection_fixed _ hfixed)
  refine ⟨hperm, trivial, ?_, ?_, ?_⟩
  · rw [← promoteSelection_ids s.states._columns]
    exact hperm.map Column.id
  · rw [hperm.length_eq, ← List.length_map (promoteSelection s.states._columns) Column.id,
      promoteSelection_ids, List.length_map]
  · simp only [List.length_append]
    omega

/-- C23 at `promoteExample`, whose leading selection column is promoted: the
origin columns are the three root columns, the selection column first, and the
leaf counts 2, 2 and 0 add up to the four leaf columns. -/
theorem C23_updateColumns_origin_perm_witness :
    (updateColumns promoteExample).states.originColumns.map Column.id = ["S", "A", "B"]
    ∧ ((updateColumns promoteExample).states.originColumns.map Column.id).Perm
        (promoteExample.states._columns.map Column.id)
    ∧ (updateColumns promoteExample).states.leafColumnsLength
          + (updateColumns promoteExample).states.fixedLeafColumnsLength
          + (updateColumns promoteExample).states.rightFixedLeafColumnsLength
        = (updateColumns promoteExample).states.columns.length :=
  ⟨by decide,
    (C23_updateColumns_origin_perm promoteExample (by
      intro c hc x
      simp only [promoteExample, List.mem_cons, List.mem_singleton, List.not_mem_nil,
        or_false] at hc
      rcases hc with rfl | rfl | rfl <;> simp [Column.fixed, Column.info])).2.2.1,
    (C23_updateColumns_origin_perm promoteExample (by
      intro c hc x
      simp only [promoteExample, List.mem_cons, List.mem_singleton, List.not_mem_nil,
        or_false] at hc
      rcases hc with rfl | rfl | rfl <;> simp [Column.fixed, Column.info])).2.2.2.2⟩

/-! ### The lazy roots and their loaded rows -/

/-- C24, on the code.  The error `children must be an empty array` is never
raised, because `updateTreeData` never reaches the line: on every store it
raises a TypeError at `Object.keys(nested)` and leaves the tree state as it
found it.  So it does not complete, and no lazy root receives the keys of its
loaded rows: at `lazyLoadedExample` the lazy root of key 1 has the loaded row
of key 10, and after the call its children are still the empty list. -/
theorem C24_updateTreeData_lazy_roots :
    (∀ s : Store, (updateTreeData s).error = some Err.typeError
        ∧ (updateTreeData s).store.tree.treeData = s.tree.treeData
        ∧ (updateTreeData s).store.tree.lazyTreeNodeMap = s.tree.lazyTreeNodeMap)
    ∧ objGet lazyLoadedExample.tree.lazyTreeNodeMap 1 = some [⟨10, 10⟩]
    ∧ (objGet lazyLoadedExample.tree.treeData 1).map TreeNode.lazy = some (some true)
    ∧ (updateTreeData lazyLoadedExample).error ≠ none
    ∧ (objGet (updateTreeData lazyLoadedExample).store.tree.treeData 1).map TreeNode.children
        = some [] := by
  refine ⟨fun s => ⟨rfl, rfl, rfl⟩, by decide, by decide, by decide, by decide⟩

end TableStore
